import Mathlib

/-!
Verification development for the Python symbol-graph extraction core
(src/ast/treesitter/parsers/python.rs) and its skeleton formatter.

The syntax tree delivered by the external Syntax Tree Provider is modelled by
`Node` (kind, span text, range, grammar-field tag, ordered children).  The
extraction functions are translated one-by-one from the source; partiality
(`.unwrap()` panics) is made explicit by an `Except RunErr` result, and the
recursion is bounded by an explicit `fuel` argument so that every definition
is a computable structural recursion (fuel exhaustion is the distinguished
error `RunErr.noFuel`, never conflated with a panic `RunErr.fail`).
Identity generation (`get_guid`) threads a counter through the computation.
-/

namespace RefactAst

/-- Row/column position, mirroring tree_sitter::Point. -/
structure TSPoint where
  row : Nat
  col : Nat
deriving DecidableEq

/-- Byte-offset plus point span, mirroring tree_sitter::Range. -/
structure TSRange where
  start_byte : Nat
  end_byte : Nat
  start_point : TSPoint
  end_point : TSPoint
deriving DecidableEq

def TSPoint.zero : TSPoint := ⟨0, 0⟩

def TSRange.zero : TSRange := ⟨0, 0, TSPoint.zero, TSPoint.zero⟩

/-- A concrete syntax-tree node as the core consumes it: kind name, the source
text of its span, its range, the grammar field name it occupies in its parent
(if any), and its ordered children (named and unnamed alike). -/
inductive Node where
  | mk (kind : String) (text : String) (range : TSRange) (fieldName : Option String)
       (children : List Node)

def Node.kind : Node → String
  | .mk k _ _ _ _ => k

def Node.text : Node → String
  | .mk _ t _ _ _ => t

def Node.range : Node → TSRange
  | .mk _ _ r _ _ => r

def Node.fieldName : Node → Option String
  | .mk _ _ _ f _ => f

def Node.children : Node → List Node
  | .mk _ _ _ _ cs => cs

mutual
/-- Structural size of a node: 1 plus the weighted size of its children. -/
def Node.size : Node → Nat
  | .mk _ _ _ _ cs => 1 + Node.sizeL cs

/-- Weighted size of a node list: each element costs its size plus 1. -/
def Node.sizeL : List Node → Nat
  | [] => 0
  | c :: cs => 1 + Node.size c + Node.sizeL cs
end

/-- child_by_field_name: the first child occupying the given grammar field. -/
def Node.childByField (n : Node) (f : String) : Option Node :=
  n.children.find? (fun c => c.fieldName == some f)

/-- children_by_field_name: all children occupying the given grammar field. -/
def Node.childrenByField (n : Node) (f : String) : List Node :=
  n.children.filter (fun c => c.fieldName == some f)

/-- child(i). -/
def Node.child (n : Node) (i : Nat) : Option Node :=
  n.children[i]?

/-- Rust str::contains (substring test): pat occurs inside hay. -/
def strContains (hay pat : String) : Bool :=
  go hay.toList
where
  go : List Char → Bool
    | [] => pat.toList.isPrefixOf []
    | c :: t => pat.toList.isPrefixOf (c :: t) || go t

/-- Build a string back from a character list. -/
def ofChars (l : List Char) : String := String.mk l

/-- Rust str::split on a single-character separator. -/
def splitCh (sep : Char) (s : String) : List String :=
  go s.toList []
where
  go : List Char → List Char → List String
    | [], cur => [ofChars cur.reverse]
    | c :: t, cur => if c = sep then ofChars cur.reverse :: go t [] else go t (c :: cur)

/-- Rust str::starts_with. -/
def startsWithS (s pre : String) : Bool := pre.toList.isPrefixOf s.toList

/-- Rust slicing s[k..]: drop the first k characters (the code only slices
after an ASCII dot prefix, where byte and character offsets coincide). -/
def dropS (s : String) (k : Nat) : String := ofChars (s.toList.drop k)

/-- Rust str::trim_start. -/
def trimLeftS (s : String) : String := ofChars (s.toList.dropWhile Char.isWhitespace)

/-- Character count (used on ASCII header text, where it matches Rust's byte
length). -/
def lenS (s : String) : Nat := s.toList.length

/-- Rust str::replace("\t", "    "). -/
def replaceTabs (s : String) : String :=
  ofChars (List.flatten (s.toList.map (fun c => if c = '\t' then "    ".toList else [c])))

/-- Rust Vec::join("\n") on lines. -/
def joinNL : List String → String
  | [] => ""
  | [x] => x
  | x :: xs => x ++ "\n" ++ joinNL xs

/-- " ".repeat n. -/
def spaces (n : Nat) : String := ofChars (List.replicate n ' ')

/-- Rust str::lines(): split on newline, drop a final empty segment produced
by a trailing newline, strip a trailing carriage return from each line. -/
def rustLines (s : String) : List String :=
  if s.isEmpty then []
  else
    let parts := splitCh '\n' s
    let parts := if parts.getLast? == some "" then parts.dropLast else parts
    parts.map (fun l => if l.toList.getLast? == some '\r' then ofChars l.toList.dropLast else l)

/-! ## Fixed name sets from the source -/

def PYTHON_MODULES : List String := [
  "abc", "aifc", "argparse", "array", "asynchat", "asyncio", "asyncore", "atexit", "audioop",
  "base64", "bdb", "binascii", "binhex", "bisect", "builtins", "bz2", "calendar", "cgi", "cgitb",
  "chunk", "cmath", "cmd", "code", "codecs", "codeop", "collections", "colorsys", "compileall",
  "concurrent", "configparser", "contextlib", "contextvars", "copy", "copyreg", "crypt", "csv",
  "ctypes", "curses", "datetime", "dbm", "decimal", "difflib", "dis", "distutils", "doctest",
  "email", "encodings", "ensurepip", "enum", "errno", "faulthandler", "fcntl", "filecmp",
  "fileinput", "fnmatch", "formatter", "fractions", "ftplib", "functools", "gc", "getopt",
  "getpass", "gettext", "glob", "grp", "gzip", "hashlib", "heapq", "hmac", "html", "http",
  "idlelib", "imaplib", "imghdr", "imp", "importlib", "inspect", "io", "ipaddress", "itertools",
  "json", "keyword", "lib2to3", "linecache", "locale", "logging", "lzma", "macpath", "mailbox",
  "mailcap", "marshal", "math", "mimetypes", "mmap", "modulefinder", "msilib", "msvcrt",
  "multiprocessing", "netrc", "nntplib", "numbers", "operator", "optparse", "os", "ossaudiodev",
  "parser", "pathlib", "pdb", "pickle", "pickletools", "pipes", "pkgutil", "platform", "plistlib",
  "poplib", "posix", "pprint", "profile", "pstats", "pty", "pwd", "py_compile", "pyclbr", "pydoc",
  "queue", "quopri", "random", "re", "readline", "reprlib", "resource", "rlcompleter", "runpy",
  "sched", "secrets", "select", "selectors", "shelve", "shlex", "shutil", "signal", "site", "smtpd",
  "smtplib", "sndhdr", "socket", "socketserver", "spwd", "sqlite3", "ssl", "stat", "statistics",
  "string", "stringprep", "struct", "subprocess", "sunau", "symbol", "symtable", "sys", "sysconfig",
  "syslog", "tabnanny", "tarfile", "telnetlib", "tempfile", "termios", "test", "textwrap",
  "threading", "time", "timeit", "tkinter", "token", "tokenize", "trace", "traceback",
  "tracemalloc", "tty", "turtle", "turtledemo", "types", "typing", "unicodedata", "unittest",
  "urllib", "uu", "uuid", "venv", "warnings", "wave", "weakref", "webbrowser", "winreg", "winsound",
  "wsgiref", "xdrlib", "xml", "xmlrpc", "zipapp", "zipfile", "zipimport", "zoneinfo"]

def SPECIAL_SYMBOLS : String := "{}(),.;_|&"

def PYTHON_KEYWORDS : List String := [
  "False", "None", "True", "and", "as", "assert", "async", "await", "break", "class",
  "continue", "def", "del", "elif", "else", "except", "finally", "for", "from", "global",
  "if", "import", "in", "is", "lambda", "nonlocal", "not", "or", "pass", "raise",
  "return", "try", "while", "with", "yield"]

/-- Node kinds whose right-hand side counts as a plain-old-data literal. -/
def POD_KINDS : List String := ["integer", "string", "float", "false", "true"]

/-! ## Symbol data model -/

/-- TypeDef from ast_instance_structs (nested_types makes it recursive). -/
inductive TypeDef where
  | mk (name : Option String) (inference_info : Option String) (is_pod : Bool)
       (nspace : String) (guid : Option Nat) (nested_types : List TypeDef)

def TypeDef.name : TypeDef → Option String
  | .mk a _ _ _ _ _ => a

def TypeDef.inference_info : TypeDef → Option String
  | .mk _ a _ _ _ _ => a

def TypeDef.is_pod : TypeDef → Bool
  | .mk _ _ a _ _ _ => a

def TypeDef.nested_types : TypeDef → List TypeDef
  | .mk _ _ _ _ _ a => a

/-- TypeDef::default(). -/
def TypeDef.default : TypeDef := .mk none none false "" none []

/-- Functional update of inference_info. -/
def TypeDef.setInference : TypeDef → Option String → TypeDef
  | .mk a _ c d e f, i => .mk a i c d e f

/-- Functional update of is_pod. -/
def TypeDef.setPod : TypeDef → Bool → TypeDef
  | .mk a b _ d e f, p => .mk a b p d e f

structure FunctionArg where
  name : String
  type_ : Option TypeDef

/-- Modelled from the spec: the ImportType enum of ast_instance_structs is not
under src/; §3 gives the three variants with Unknown as the value when neither
classification applies (the parser only ever assigns System or UserModule). -/
inductive ImportType where
  | UserModule
  | System
  | Unknown
deriving DecidableEq

/-- Modelled from the spec: AstSymbolFields of ast_instance_structs is not
under src/; §3 lists the shared base fields, with guids re-expressed as Nat
(0 standing for Uuid::default, the value of a field never assigned). -/
structure AstSymbolFields where
  guid : Nat := 0
  parent_guid : Option Nat := none
  caller_guid : Option Nat := none
  childs_guid : List Nat := []
  name : String := ""
  language : String := ""
  file_path : String := ""
  is_error : Bool := false
  full_range : TSRange := TSRange.zero
  declaration_range : TSRange := TSRange.zero
  definition_range : TSRange := TSRange.zero

/-- The eight symbol variants, each with its extra payload. -/
inductive SymbolVariant where
  | functionDeclaration (args : List FunctionArg) (return_type : Option TypeDef)
  | structDeclaration (inherited_types : List TypeDef)
  | variableDefinition (type_ : TypeDef)
  | classFieldDeclaration (type_ : TypeDef)
  | variableUsage
  | functionCall
  | importDeclaration (path_components : List String) (import_type : ImportType)
                      (alias_ : Option String)
  | commentDefinition

structure Symbol where
  fields : AstSymbolFields
  variant : SymbolVariant

def Symbol.guid (s : Symbol) : Nat := s.fields.guid

def Symbol.parent_guid (s : Symbol) : Option Nat := s.fields.parent_guid

def Symbol.name (s : Symbol) : String := s.fields.name

/-- Modelled from the spec: get_children_guids of parsers/utils is not under
src/; §3 says childs_guid is computed by scanning the accumulated symbol list
for entries whose parent_guid equals this symbol's guid. -/
def get_children_guids (g : Nat) (symbols : List Symbol) : List Nat :=
  (symbols.filter (fun s => s.fields.parent_guid == some g)).map (fun s => s.fields.guid)

/-! ## Result monad: explicit panics and explicit recursion budget -/

inductive RunErr where
  | noFuel
  | fail (msg : String)
deriving DecidableEq

/-- Rust `.unwrap()` on an Option, in the Except error monad. -/
def needX {α : Type} (o : Option α) (msg : String) : Except RunErr α :=
  match o with
  | some a => .ok a
  | none => .error (.fail msg)

/-- State-threading extraction monad: a guid counter plus possible failure. -/
def Extract (α : Type) : Type := Nat → Except RunErr (α × Nat)

instance : Monad Extract where
  pure a := fun s => .ok (a, s)
  bind m f := fun s =>
    match m s with
    | .error e => .error e
    | .ok (a, s') => f a s'

def Extract.outOfFuel {α : Type} : Extract α := fun _ => .error .noFuel

/-- Rust `.unwrap()` on an Option, in the extraction monad. -/
def need {α : Type} (o : Option α) (msg : String) : Extract α :=
  fun s =>
    match o with
    | some a => .ok (a, s)
    | none => .error (.fail msg)

/-- Modelled from the spec: get_guid of parsers/utils is not under src/; §3
says guids are globally unique identities assigned at creation and never
reused, which we realise as a fresh-counter generator (spec §9 explicitly
allows an injectable deterministic generator). -/
def get_guid : Extract Nat := fun s => .ok (s + 1, s + 1)

/-- Lift a stateless computation into the extraction monad. -/
def liftE {α : Type} (m : Except RunErr α) : Extract α :=
  fun s =>
    match m with
    | .error e => .error e
    | .ok a => .ok (a, s)

@[simp] theorem Extract.bind_apply {α β : Type} (m : Extract α) (f : α → Extract β) (s : Nat) :
    (m >>= f) s = match m s with
                  | .error e => .error e
                  | .ok (a, s') => f a s' := rfl

@[simp] theorem Extract.pure_apply {α : Type} (a : α) (s : Nat) :
    (pure a : Extract α) s = .ok (a, s) := rfl

@[simp] theorem Extract.need_some {α : Type} (a : α) (msg : String) :
    need (some a) msg = pure a := rfl

@[simp] theorem Extract.need_none {α : Type} (msg : String) :
    (need (none : Option α) msg) = fun _ => .error (.fail msg) := rfl

@[simp] theorem Extract.get_guid_apply (s : Nat) : get_guid s = .ok (s + 1, s + 1) := rfl

@[simp] theorem Extract.liftE_ok {α : Type} (a : α) (s : Nat) :
    liftE (.ok a) s = .ok (a, s) := rfl

@[simp] theorem Extract.liftE_error {α : Type} (e : RunErr) (s : Nat) :
    liftE (α := α) (.error e) s = .error e := rfl

/-! ## parse_type and parse_function_arg (pure resolvers) -/

mutual
/-- parse_type (python.rs:50-127). -/
def parse_type (fuel : Nat) (parent : Node) : Except RunErr (Option TypeDef) :=
  match fuel with
  | 0 => .error .noFuel
  | fuel + 1 =>
    let text := parent.text
    match parent.kind with
    | "type" | "splat_type" => do
        let child ← needX (parent.child 0) "parse_type: type child 0"
        parse_type fuel child
    | "identifier" =>
        .ok (some (.mk (some text) none false "" none []))
    | "integer" | "string" | "float" | "false" | "true" =>
        .ok (some (.mk none (some text) true "" none []))
    | "generic_type" => do
        let name_node ← needX (parent.child 0) "parse_type: generic child 0"
        let type_arguments ← needX (parent.child 1) "parse_type: generic child 1"
        let nested ← parse_type_list fuel type_arguments.children
        .ok (some (.mk (some name_node.text) none false "" none nested))
    | "attribute" => do
        let attr ← needX (parent.childByField "attribute") "parse_type: attribute"
        let object ← needX (parent.childByField "object") "parse_type: object"
        let dt? ← parse_type fuel object
        let nested := match dt? with
          | some d => [d]
          | none => []
        .ok (some (.mk (some attr.text) none false "" none nested))
    | "call" => do
        let function ← needX (parent.childByField "function") "parse_type: call function"
        let dt? ← parse_type fuel function
        .ok (some ((dt?.getD TypeDef.default).setInference (some text)))
    | _ => .ok none

/-- The collection loop over a child list, keeping the Some results. -/
def parse_type_list (fuel : Nat) (ns : List Node) : Except RunErr (List TypeDef) :=
  match fuel with
  | 0 => .error .noFuel
  | fuel + 1 =>
    match ns with
    | [] => .ok []
    | c :: cs => do
        let t? ← parse_type fuel c
        let rest ← parse_type_list fuel cs
        .ok (match t? with
             | some t => t :: rest
             | none => rest)
end

mutual
/-- parse_function_arg (python.rs:129-193). -/
def parse_function_arg (fuel : Nat) (parent : Node) : Except RunErr (List FunctionArg) :=
  match fuel with
  | 0 => .error .noFuel
  | fuel + 1 => do
    let args ←
      match parent.kind with
      | "identifier" | "typed_parameter" =>
          .ok [FunctionArg.mk parent.text none]
      | "typed_default_parameter" | "default_parameter" => do
          let name ← needX (parent.childByField "name") "parse_function_arg: name"
          if name.kind == "identifier" then
            .ok [FunctionArg.mk name.text none]
          else
            parse_function_arg fuel name
      | "tuple_pattern" =>
          match parent.children with
          | [] => .error (.fail "parse_function_arg: tuple_pattern child_count - 1 underflow")
          | cs => parse_function_arg_list fuel cs.dropLast
      | _ => .ok []
    let args1 ←
      match parent.childByField "type" with
      | none => .ok args
      | some type_node =>
          if args.isEmpty then .ok args
          else do
            let dt? ← parse_type fuel type_node
            .ok (match dt? with
                 | none => args
                 | some dtype =>
                     args.map (fun a =>
                       match a.type_ with
                       | some t => FunctionArg.mk a.name (some (t.setInference dtype.inference_info))
                       | none => FunctionArg.mk a.name (some dtype)))
    let args2 :=
      match parent.childByField "value" with
      | none => args1
      | some value_node =>
          args1.map (fun a =>
            match a.type_ with
            | some t => FunctionArg.mk a.name (some (t.setInference (some value_node.text)))
            | none =>
                FunctionArg.mk a.name (some (TypeDef.default.setInference (some value_node.text))))
    .ok args2

/-- The tuple_pattern loop over children 0..count-1. -/
def parse_function_arg_list (fuel : Nat) (ns : List Node) : Except RunErr (List FunctionArg) :=
  match fuel with
  | 0 => .error .noFuel
  | fuel + 1 =>
    match ns with
    | [] => .ok []
    | c :: cs => do
        let a ← parse_function_arg fuel c
        let rest ← parse_function_arg_list fuel cs
        .ok (a ++ rest)
end

/-! ## The symbol extractor -/

/-- The ancestor walk at python.rs:267-284: the target is a class field when
the nearest enclosing class_definition comes before any function_definition. -/
def ancClassField : List Node → Bool
  | [] => false
  | p :: rest =>
    if p.kind == "class_definition" then true
    else if p.kind == "function_definition" then false
    else ancClassField rest

/-- One entry of parse_assignment's candidate deque: the left node (paired
with its ancestor chain, implicit in the Rust tree), the declared-type node
and the right-hand node. -/
structure AsgnCand where
  left : Option (Node × List Node)
  type_ : Option Node
  right : Option Node

/-- The per-name loop of the import arm (python.rs:588-621): one
ImportDeclaration clone per "name" field child. -/
def import_names (base : List String) (n : Node) (path : String) (g : Nat) :
    List Node → Extract (List Symbol)
  | [] => pure []
  | c :: cs => do
      let gd ← get_guid
      let pc : List String :=
        match c.kind with
        | "dotted_name" => splitCh '.' c.text
        | "aliased_import" =>
            match c.childByField "name" with
            | some nm => splitCh '.' nm.text
            | none => []
        | _ => []
      let alias_ : Option String :=
        match c.kind with
        | "aliased_import" =>
            match c.childByField "alias" with
            | some a => some a.text
            | none => none
        | _ => none
      let full := base ++ pc
      let ty : ImportType :=
        match full.head? with
        | some first =>
            if PYTHON_MODULES.contains first then .System
            else if first == "." || first == ".." then .UserModule
            else .Unknown
        | none => .Unknown
      let nm ← need full.getLast? "import: path_components last"
      let sym : Symbol :=
        { fields := { language := "python", full_range := n.range, file_path := path,
                      parent_guid := some g, guid := gd, name := nm },
          variant := .importDeclaration full ty alias_ }
      let more ← import_names base n path g cs
      pure (sym :: more)

/-- The module-path prefix of an import statement (python.rs:557-586). -/
def import_base (n : Node) : List String :=
  match n.childByField "module_name" with
  | none => []
  | some m =>
    if m.kind == "relative_import" then
      let bp := m.text
      if startsWithS bp ".." then
        ".." :: ((splitCh '.' (dropS bp 2)).filter (fun x => !x.isEmpty))
      else if startsWithS bp "." then
        "." :: ((splitCh '.' (dropS bp 1)).filter (fun x => !x.isEmpty))
      else
        (splitCh '.' bp).filter (fun x => !x.isEmpty)
    else
      (splitCh '.' m.text).filter (fun x => !x.isEmpty)

set_option maxHeartbeats 3200000 in
mutual

/-- parse_usages (python.rs:381-638).  `anc` is the chain of ancestor nodes of
`n`, nearest first (the Rust code reads them through Node::parent). -/
def parse_usages (fuel : Nat) (n : Node) (anc : List Node) (path : String)
    (parent_guid : Nat) (is_error : Bool) (from_block : Bool) : Extract (List Symbol) :=
  match fuel with
  | 0 => Extract.outOfFuel
  | fuel + 1 =>
    match n.kind with
    | "expression_statement" | "module" | "block"
    | "await" | "list_splat" | "yield" | "list_splat_pattern"
    | "tuple" | "set" | "list" | "dictionary" | "expression_list" | "comparison_operator"
    | "conditional_expression" | "as_pattern_target" | "print_statement"
    | "list_comprehension" | "dictionary_comprehension" | "set_comprehension" | "if_clause"
    | "with_statement" | "with_clause" | "case_clause" | "case_pattern" | "dotted_name"
    | "try_statement" | "except_clause" | "if_statement" | "elif_clause" | "else_clause" =>
        let is_block :=
          (["module", "block"].contains n.kind) ||
          (match anc.head? with
           | some p => ["module", "block"].contains p.kind
           | none => false)
        parse_usages_list fuel n.children (n :: anc) path parent_guid is_error is_block
    | "with_item" => do
        let value ← need (n.childByField "value") "with_item: value"
        parse_usages fuel value (n :: anc) path parent_guid is_error false
    | "class_definition" =>
        parse_struct_declaration fuel n anc path parent_guid is_error
    | "function_definition" =>
        parse_function_declaration fuel n anc path parent_guid is_error
    | "decorated_definition" =>
        match n.childByField "definition" with
        | some d =>
            match d.kind with
            | "class_definition" =>
                parse_struct_declaration fuel d (n :: anc) path parent_guid is_error
            | "function_definition" =>
                parse_function_declaration fuel d (n :: anc) path parent_guid is_error
            | _ => pure []
        | none => pure []
    | "as_pattern" => do
        let value ← need (n.child 0) "as_pattern: child 0"
        match n.childByField "alias" with
        | some al => do
            let a0 ← need (al.child 0) "as_pattern: alias child 0"
            as_pattern_cands fuel [(a0, al :: n :: anc)] n value.text path parent_guid is_error
        | none => pure []
    | "not_operator" | "unary_operator" => do
        let argument ← need (n.childByField "argument") "unary: argument"
        parse_usages fuel argument (n :: anc) path parent_guid is_error false
    | "boolean_operator" | "binary_operator" | "for_in_clause" | "augmented_assignment" => do
        let l ← need (n.childByField "left") "binary: left"
        let us1 ← parse_usages fuel l (n :: anc) path parent_guid is_error false
        let r ← need (n.childByField "right") "binary: right"
        let us2 ← parse_usages fuel r (n :: anc) path parent_guid is_error false
        pure (us1 ++ us2)
    | "pair" => do
        let k ← need (n.childByField "key") "pair: key"
        let us1 ← parse_usages fuel k (n :: anc) path parent_guid is_error false
        let v ← need (n.childByField "value") "pair: value"
        let us2 ← parse_usages fuel v (n :: anc) path parent_guid is_error false
        pure (us1 ++ us2)
    | "identifier" => do
        let gd ← get_guid
        pure [{ fields := { name := n.text, language := "python", full_range := n.range,
                            file_path := path, parent_guid := some parent_guid, guid := gd,
                            is_error := is_error },
                variant := .variableUsage }]
    | "attribute" => do
        let attr ← need (n.childByField "attribute") "attribute: attribute"
        let gd ← get_guid
        let object ← need (n.childByField "object") "attribute: object"
        let us ← parse_usages fuel object (n :: anc) path parent_guid is_error false
        let caller : Option Nat :=
          match us.getLast? with
          | some last => last.fields.parent_guid
          | none => none
        pure (us ++ [{ fields := { name := attr.text, language := "python",
                                   full_range := n.range, file_path := path,
                                   parent_guid := some parent_guid, guid := gd,
                                   is_error := is_error, caller_guid := caller },
                       variant := .variableUsage }])
    | "assignment" | "for_statement" =>
        parse_assignment fuel n anc path parent_guid is_error
    | "while_statement" => do
        let condition ← need (n.childByField "condition") "while: condition"
        let us1 ← parse_usages fuel condition (n :: anc) path parent_guid is_error false
        let body ← need (n.childByField "body") "while: body"
        let us2 ← parse_usages fuel body (n :: anc) path parent_guid is_error false
        let us3 ←
          match n.childByField "alternative" with
          | some alt =>
              match alt.childByField "body" with
              | some ab => parse_usages fuel ab (alt :: n :: anc) path parent_guid is_error false
              | none => pure []
          | none => pure []
        pure (us1 ++ us2 ++ us3)
    | "match_statement" => do
        let subject ← need (n.childByField "subject") "match: subject"
        let us1 ← parse_usages fuel subject (n :: anc) path parent_guid is_error false
        let body ← need (n.childByField "body") "match: body"
        let us2 ← parse_usages fuel body (n :: anc) path parent_guid is_error false
        pure (us1 ++ us2)
    | "call" =>
        parse_call_expression fuel n anc path parent_guid is_error
    | "lambda" =>
        parse_function_declaration fuel n anc path parent_guid is_error
    | "comment" | "string" =>
        if n.kind != "string" || from_block then do
          let gd ← get_guid
          pure [{ fields := { language := "python", full_range := n.range, file_path := path,
                              parent_guid := some parent_guid, guid := gd, is_error := false },
                  variant := .commentDefinition }]
        else pure []
    | "import_from_statement" | "import_statement" =>
        let base := import_base n
        let name_children := n.childrenByField "name"
        if name_children.isEmpty then do
          let gd ← get_guid
          pure [{ fields := { language := "python", full_range := n.range, file_path := path,
                              parent_guid := some parent_guid, guid := gd },
                  variant := .importDeclaration base .Unknown none }]
        else
          import_names base n path parent_guid name_children
    | "ERROR" =>
        parse_error_usages fuel n path parent_guid
    | _ =>
        parse_usages_list fuel n.children (n :: anc) path parent_guid is_error false
termination_by structural fuel


/-- The for-each-child recursion used by block-like and unknown kinds. -/
def parse_usages_list (fuel : Nat) (ns : List Node) (anc : List Node) (path : String)
    (parent_guid : Nat) (is_error : Bool) (from_block : Bool) : Extract (List Symbol) :=
  match fuel with
  | 0 => Extract.outOfFuel
  | fuel + 1 =>
    match ns with
    | [] => pure []
    | c :: cs => do
        let us ← parse_usages fuel c anc path parent_guid is_error from_block
        let rest ← parse_usages_list fuel cs anc path parent_guid is_error from_block
        pure (us ++ rest)
termination_by structural fuel


/-- parse_assignment (python.rs:266-379). -/
def parse_assignment (fuel : Nat) (n : Node) (anc : List Node) (path : String)
    (parent_guid : Nat) (is_error : Bool) : Extract (List Symbol) :=
  match fuel with
  | 0 => Extract.outOfFuel
  | fuel + 1 => do
    let is_class_field := ancClassField anc
    let us1 ←
      match n.childByField "right" with
      | some right => parse_usages fuel right (n :: anc) path parent_guid is_error false
      | none => pure []
    let us2 ←
      match n.childByField "body" with
      | some body => parse_usages fuel body (n :: anc) path parent_guid is_error false
      | none => pure []
    let us3 ← parse_assignment_cands fuel n
      [⟨(n.childByField "left").map (fun l => (l, n :: anc)),
        n.childByField "type", n.childByField "right"⟩]
      false is_class_field path parent_guid is_error
    pure (us1 ++ us2 ++ us3)
termination_by structural fuel


/-- parse_assignment's candidate worklist (python.rs:295-375); `flag` is the
right_for_all broadcast flag. -/
def parse_assignment_cands (fuel : Nat) (n : Node) (q : List AsgnCand) (flag : Bool)
    (is_class_field : Bool) (path : String) (parent_guid : Nat) (is_error : Bool) :
    Extract (List Symbol) :=
  match fuel with
  | 0 => Extract.outOfFuel
  | fuel + 1 =>
    match q with
    | [] => pure []
    | cand :: rest =>
      match cand.left with
      | none => parse_assignment_cands fuel n rest flag is_class_field path parent_guid is_error
      | some (left, ancL) =>
        if strContains SPECIAL_SYMBOLS left.text || left.text == "self" then
          parse_assignment_cands fuel n rest flag is_class_field path parent_guid is_error
        else
          match left.kind with
          | "identifier" => do
              let gd ← get_guid
              let fields : AstSymbolFields :=
                { language := "python", full_range := n.range, file_path := path,
                  parent_guid := some parent_guid, guid := gd, name := left.text,
                  is_error := is_error }
              let sym ←
                if is_class_field then do
                  let t ←
                    match cand.type_ with
                    | some tn => do
                        let dt? ← liftE (parse_type fuel tn)
                        pure (dt?.getD TypeDef.default)
                    | none => pure TypeDef.default
                  pure { fields := fields, variant := SymbolVariant.classFieldDeclaration t }
                else do
                  let t0 ←
                    match cand.type_ with
                    | some tn => do
                        let dt? ← liftE (parse_type fuel tn)
                        pure (dt?.getD TypeDef.default)
                    | none => pure TypeDef.default
                  let t1 :=
                    match cand.right with
                    | some right =>
                        (t0.setInference (some right.text)).setPod (POD_KINDS.contains right.kind)
                    | none => t0
                  pure { fields := fields, variant := SymbolVariant.variableDefinition t1 }
              let more ← parse_assignment_cands fuel n rest flag is_class_field path
                parent_guid is_error
              pure (sym :: more)
          | "attribute" => do
              let us ← parse_usages fuel left ancL path parent_guid is_error false
              let more ← parse_assignment_cands fuel n rest flag is_class_field path
                parent_guid is_error
              pure (us ++ more)
          | "list_pattern" | "tuple_pattern" | "pattern_list" =>
              let lefts := left.children.filter (fun c => !(strContains SPECIAL_SYMBOLS c.kind))
              let rights : List (Option Node) :=
                match cand.right with
                | some right =>
                    (right.children.filter (fun c => !(strContains SPECIAL_SYMBOLS c.kind))).map some
                | none => [none]
              let flag' := flag || (lefts.length != rights.length)
              -- when flag' is false the two lists have equal length, so the
              -- positional indexing rights[i] is exactly a zip
              let new_cands : List AsgnCand :=
                if flag' then
                  lefts.map (fun l => ⟨some (l, left :: ancL), none, cand.right⟩)
                else
                  (lefts.zip rights).map (fun p => ⟨some (p.1, left :: ancL), none, p.2⟩)
              parse_assignment_cands fuel n (rest ++ new_cands) flag' is_class_field path
                parent_guid is_error
          | "list_splat_pattern" =>
              parse_assignment_cands fuel n
                (rest ++ [⟨(left.child 0).map (fun c => (c, left :: ancL)),
                          cand.type_, cand.right⟩])
                flag is_class_field path parent_guid is_error
          | _ => parse_assignment_cands fuel n rest flag is_class_field path parent_guid is_error
termination_by structural fuel


/-- The as_pattern alias worklist (python.rs:432-461). -/
def as_pattern_cands (fuel : Nat) (q : List (Node × List Node)) (n : Node)
    (value_text : String) (path : String) (parent_guid : Nat) (is_error : Bool) :
    Extract (List Symbol) :=
  match fuel with
  | 0 => Extract.outOfFuel
  | fuel + 1 =>
    match q with
    | [] => pure []
    | (c, ancC) :: rest =>
      if strContains SPECIAL_SYMBOLS c.text || c.text == "self" then
        as_pattern_cands fuel rest n value_text path parent_guid is_error
      else
        match c.kind with
        | "identifier" => do
            let gd ← get_guid
            let sym : Symbol :=
              { fields := { language := "python", full_range := n.range, file_path := path,
                            parent_guid := some parent_guid, guid := gd, name := c.text,
                            is_error := is_error },
                variant := .variableDefinition (TypeDef.default.setInference (some value_text)) }
            let more ← as_pattern_cands fuel rest n value_text path parent_guid is_error
            pure (sym :: more)
        | "list" | "set" | "tuple" =>
            as_pattern_cands fuel (rest ++ c.children.map (fun ch => (ch, c :: ancC)))
              n value_text path parent_guid is_error
        | _ => do
            let us ← parse_usages fuel c ancC path parent_guid is_error false
            let more ← as_pattern_cands fuel rest n value_text path parent_guid is_error
            pure (us ++ more)
termination_by structural fuel


/-- parse_struct_declaration (python.rs:212-264). -/
def parse_struct_declaration (fuel : Nat) (n : Node) (anc : List Node) (path : String)
    (parent_guid : Nat) (is_error : Bool) : Extract (List Symbol) :=
  match fuel with
  | 0 => Extract.outOfFuel
  | fuel + 1 => do
    let gd ← get_guid
    let errs1 ← find_error_usages fuel n path gd
    let full_range :=
      match anc.head? with
      | some p => if p.kind == "decorated_definition" then p.range else n.range
      | none => n.range
    let (name, decl_range1) :=
      match n.childByField "name" with
      | some nm =>
          (nm.text,
           some { start_byte := full_range.start_byte, end_byte := nm.range.end_byte,
                  start_point := full_range.start_point, end_point := nm.range.end_point
                  : TSRange })
      | none => ("", none)
    let (inherited, errs2, decl_range2) ←
      match n.childByField "superclasses" with
      | some sc => do
          let tds ← liftE (parse_type_list fuel sc.children)
          let e2 ← find_error_usages fuel sc path gd
          pure (tds, e2,
                some { start_byte := full_range.start_byte, end_byte := sc.range.end_byte,
                       start_point := full_range.start_point, end_point := sc.range.end_point
                       : TSRange })
      | none => pure (([] : List TypeDef), ([] : List Symbol), (none : Option TSRange))
    let (us, def_range) ←
      match n.childByField "body" with
      | some body => do
          let u ← parse_usages fuel body (n :: anc) path gd is_error true
          pure (u, body.range)
      | none => pure (([] : List Symbol), TSRange.zero)
    let symbols := errs1 ++ errs2 ++ us
    let decl : Symbol :=
      { fields := { language := "python", full_range := full_range, file_path := path,
                    parent_guid := some parent_guid, guid := gd, is_error := is_error,
                    name := name,
                    declaration_range := ((decl_range2 <|> decl_range1).getD TSRange.zero),
                    definition_range := def_range,
                    childs_guid := get_children_guids gd symbols },
        variant := .structDeclaration inherited }
    pure (symbols ++ [decl])
termination_by structural fuel


/-- parse_function_declaration (python.rs:640-699); note the guid is only
generated after the parameter list has been processed, so the error usages in
errs1/errs2 carry the default parent guid 0. -/
def parse_function_declaration (fuel : Nat) (n : Node) (anc : List Node) (path : String)
    (parent_guid : Nat) (is_error : Bool) : Extract (List Symbol) :=
  match fuel with
  | 0 => Extract.outOfFuel
  | fuel + 1 => do
    let full_range :=
      match anc.head? with
      | some p => if p.kind == "decorated_definition" then p.range else n.range
      | none => n.range
    let errs1 ← find_error_usages fuel n path 0
    let name :=
      match n.childByField "name" with
      | some nm => nm.text
      | none => ""
    let (decl_end1, errs2, args) ←
      match n.childByField "parameters" with
      | some ps => do
          let e2 ← find_error_usages fuel ps path 0
          let fargs ← liftE (parse_function_arg_list fuel ps.children)
          pure (some (ps.range.end_byte, ps.range.end_point), e2, fargs)
      | none => pure ((none : Option (Nat × TSPoint)), ([] : List Symbol), ([] : List FunctionArg))
    let gd ← get_guid
    let (return_type, decl_end2, errs3) ←
      match n.childByField "return_type" with
      | some rt => do
          let t? ← liftE (parse_type fuel rt)
          let e3 ← find_error_usages fuel rt path gd
          pure (t?, some (rt.range.end_byte, rt.range.end_point), e3)
      | none => pure ((none : Option TypeDef), (none : Option (Nat × TSPoint)), ([] : List Symbol))
    let decl_end := (decl_end2 <|> decl_end1).getD (n.range.end_byte, n.range.end_point)
    let (us, def_range, decl_range) ←
      match n.childByField "body" with
      | some body => do
          let u ← parse_usages fuel body (n :: anc) path gd is_error true
          pure (u, body.range,
                { start_byte := full_range.start_byte, end_byte := decl_end.1,
                  start_point := full_range.start_point, end_point := decl_end.2 : TSRange })
      | none => pure (([] : List Symbol), TSRange.zero, full_range)
    let symbols := errs1 ++ errs2 ++ errs3 ++ us
    let decl : Symbol :=
      { fields := { language := "python", full_range := full_range, file_path := path,
                    parent_guid := some parent_guid, guid := gd, is_error := is_error,
                    name := name, declaration_range := decl_range,
                    definition_range := def_range,
                    childs_guid := get_children_guids gd symbols },
        variant := .functionDeclaration args return_type }
    pure (symbols ++ [decl])
termination_by structural fuel


/-- parse_call_expression (python.rs:761-811). -/
def parse_call_expression (fuel : Nat) (n : Node) (anc : List Node) (path : String)
    (parent_guid : Nat) (is_error : Bool) : Extract (List Symbol) :=
  match fuel with
  | 0 => Extract.outOfFuel
  | fuel + 1 => do
    let gd ← get_guid
    let errs1 ← find_error_usages fuel n path gd
    let arguments ← need (n.childByField "arguments") "call: arguments"
    let arg_syms ← call_args fuel arguments.children (arguments :: n :: anc) path gd is_error
    let errs2 ← find_error_usages fuel arguments path gd
    let function ← need (n.childByField "function") "call: function"
    let (name, caller, fn_syms) ←
      match function.kind with
      | "identifier" => pure (function.text, (none : Option Nat), ([] : List Symbol))
      | "attribute" => do
          let object ← need (function.childByField "object") "call attribute: object"
          let us ← parse_usages fuel object (function :: n :: anc) path parent_guid is_error false
          let caller : Option Nat :=
            match us.getLast? with
            | some last => last.fields.parent_guid
            | none => none
          let attr ← need (function.childByField "attribute") "call attribute: attribute"
          pure (attr.text, caller, us)
      | _ => do
          let us ← parse_usages fuel function (n :: anc) path parent_guid is_error false
          let caller : Option Nat :=
            match us.getLast? with
            | some last => last.fields.parent_guid
            | none => none
          pure ("", caller, us)
    let symbols := errs1 ++ arg_syms ++ errs2 ++ fn_syms
    let decl : Symbol :=
      { fields := { language := "python", full_range := n.range, file_path := path,
                    parent_guid := some parent_guid, guid := gd, is_error := is_error,
                    name := name, caller_guid := caller,
                    childs_guid := get_children_guids gd symbols },
        variant := .functionCall }
    pure (symbols ++ [decl])
termination_by structural fuel


/-- The argument loop of parse_call_expression (python.rs:774-779). -/
def call_args (fuel : Nat) (ns : List Node) (anc : List Node) (path : String)
    (parent_guid : Nat) (is_error : Bool) : Extract (List Symbol) :=
  match fuel with
  | 0 => Extract.outOfFuel
  | fuel + 1 =>
    match ns with
    | [] => pure []
    | c :: cs => do
        let us ←
          if strContains SPECIAL_SYMBOLS c.text then pure []
          else parse_usages fuel c anc path parent_guid is_error false
        let rest ← call_args fuel cs anc path parent_guid is_error
        pure (us ++ rest)
termination_by structural fuel


/-- find_error_usages (python.rs:701-710). -/
def find_error_usages (fuel : Nat) (n : Node) (path : String) (parent_guid : Nat) :
    Extract (List Symbol) :=
  match fuel with
  | 0 => Extract.outOfFuel
  | fuel + 1 => find_error_usages_list fuel n.children path parent_guid


/-- The child scan of find_error_usages. -/
def find_error_usages_list (fuel : Nat) (ns : List Node) (path : String) (parent_guid : Nat) :
    Extract (List Symbol) :=
  match fuel with
  | 0 => Extract.outOfFuel
  | fuel + 1 =>
    match ns with
    | [] => pure []
    | c :: cs => do
        let us ←
          if c.kind == "ERROR" then parse_error_usages fuel c path parent_guid
          else pure []
        let rest ← find_error_usages_list fuel cs path parent_guid
        pure (us ++ rest)
termination_by structural fuel


/-- parse_error_usages (python.rs:712-759). -/
def parse_error_usages (fuel : Nat) (n : Node) (path : String) (parent_guid : Nat) :
    Extract (List Symbol) :=
  match fuel with
  | 0 => Extract.outOfFuel
  | fuel + 1 =>
    match n.kind with
    | "identifier" =>
        if PYTHON_KEYWORDS.contains n.text then pure []
        else do
          let gd ← get_guid
          pure [{ fields := { name := n.text, language := "python", full_range := n.range,
                              file_path := path, parent_guid := some parent_guid, guid := gd,
                              is_error := true },
                  variant := .variableUsage }]
    | "attribute" => do
        let attr ← need (n.childByField "attribute") "error attribute: attribute"
        let gd ← get_guid
        let object ← need (n.childByField "object") "error attribute: object"
        let us ← parse_error_usages fuel object path parent_guid
        let caller : Option Nat :=
          match us.getLast? with
          | some last => last.fields.parent_guid
          | none => none
        pure (us ++ [{ fields := { name := attr.text, language := "python",
                                   full_range := n.range, file_path := path,
                                   parent_guid := some parent_guid, guid := gd,
                                   is_error := true, caller_guid := caller },
                       variant := .variableUsage }])
    | _ => parse_error_usages_list fuel n.children path parent_guid
termination_by structural fuel


/-- The structural recursion of parse_error_usages over unknown kinds. -/
def parse_error_usages_list (fuel : Nat) (ns : List Node) (path : String) (parent_guid : Nat) :
    Extract (List Symbol) :=
  match fuel with
  | 0 => Extract.outOfFuel
  | fuel + 1 =>
    match ns with
    | [] => pure []
    | c :: cs => do
        let us ← parse_error_usages fuel c path parent_guid
        let rest ← parse_error_usages_list fuel cs path parent_guid
        pure (us ++ rest)
termination_by structural fuel

end

/-- AstLanguageParser::parse for PythonParser (python.rs:901-908): generate a
root guid and walk the tree from the root with from_block = true. -/
def parse (root : Node) (path : String) (fuel : Nat) : Extract (List Symbol) := do
  let parent_guid ← get_guid
  parse_usages fuel root [] path parent_guid false true

/-! ## The skeleton formatter -/

/-- SymbolType from treesitter/structs (not under src/): the eight variant
tags listed in spec §3. -/
inductive SymbolType where
  | FunctionDeclaration
  | StructDeclaration
  | VariableDefinition
  | VariableUsage
  | ClassFieldDeclaration
  | FunctionCall
  | ImportDeclaration
  | CommentDefinition
deriving DecidableEq

/-- Modelled from the spec: SymbolInformation of ast_instance_structs is not
under src/; it is the read-only per-symbol record the formatter receives,
carrying the identity, variant tag and the three ranges of §3. -/
structure SymbolInformation where
  guid : Nat := 0
  symbol_type : SymbolType := .VariableUsage
  full_range : TSRange := TSRange.zero
  declaration_range : TSRange := TSRange.zero
  definition_range : TSRange := TSRange.zero
deriving DecidableEq

/-- Modelled from the spec: SymbolInformation::get_declaration_content is not
under src/; §4.4 reads it as the header-only text, i.e. the source sliced at
declaration_range (byte offsets read as character offsets). -/
def get_declaration_content (s : SymbolInformation) (text : String) : String :=
  ofChars ((text.toList.drop s.declaration_range.start_byte).take
    (s.declaration_range.end_byte - s.declaration_range.start_byte))

/-- Modelled from the spec: SymbolInformation::get_content is not under src/;
the full construct text, i.e. the source sliced at full_range. -/
def get_content (s : SymbolInformation) (text : String) : String :=
  ofChars ((text.toList.drop s.full_range.start_byte).take
    (s.full_range.end_byte - s.full_range.start_byte))

/-- HashMap lookup, on the association-list model of the externally built
guid→children and guid→symbol maps. -/
def lookupA {α : Type} (m : List (Nat × α)) (k : Nat) : Option α :=
  (m.find? (fun p => p.1 == k)).map (fun p => p.2)

/-- Rust `.unwrap()` in the plain Except String monad of the formatter. -/
def needS {α : Type} (o : Option α) (msg : String) : Except String α :=
  match o with
  | some a => .ok a
  | none => .error msg

/-- The child rendering loop of make_skeleton (python.rs:827-844). -/
def skeleton_children (cs : List Nat) (acc : String) (text : String)
    (guid_to_info : List (Nat × SymbolInformation)) : Except String String :=
  match cs with
  | [] => .ok acc
  | c :: rest => do
      let child_symbol ← needS (lookupA guid_to_info c) "make_skeleton: absent guid_to_info entry"
      let acc' :=
        match child_symbol.symbol_type with
        | .FunctionDeclaration =>
            let content := get_declaration_content child_symbol text
            (rustLines content).foldl (fun a line => a ++ "  " ++ trimLeftS line ++ "\n") acc
              ++ "    ...\n"
        | .ClassFieldDeclaration =>
            acc ++ "  " ++ get_content child_symbol text ++ "\n"
        | _ => acc
      skeleton_children rest acc' text guid_to_info

/-- PythonSkeletonFormatter::make_skeleton (python.rs:817-847). -/
def make_skeleton (symbol : SymbolInformation) (text : String)
    (guid_to_children : List (Nat × List Nat))
    (guid_to_info : List (Nat × SymbolInformation)) : Except String String := do
  let res_line := get_declaration_content symbol text
  let children ← needS (lookupA guid_to_children symbol.guid)
    "make_skeleton: absent guid_to_children entry"
  if children.isEmpty then
    .ok (res_line ++ "\n  ...")
  else
    skeleton_children children (res_line ++ "\n") text guid_to_info

/-- Modelled from the spec: SkeletonFormatter::preprocess_content (a trait
default not under src/) — the spec describes no transformation at this point,
so it is modelled as the identity on the line list. -/
def preprocess_content (ls : List String) : List String := ls

/-- Stable insertion keeping earlier elements first among equal start bytes,
matching Vec::sort_by's stability. -/
def insertByStart (a : SymbolInformation) : List SymbolInformation → List SymbolInformation
  | [] => [a]
  | b :: t =>
      if b.full_range.start_byte ≤ a.full_range.start_byte then b :: insertByStart a t
      else a :: b :: t

/-- The sort_by of python.rs:859-861 (stable, by full_range.start_byte). -/
def sortByStart (l : List SymbolInformation) : List SymbolInformation :=
  l.foldl (fun acc a => insertByStart a acc) []

/-- PythonSkeletonFormatter::get_declaration_with_comments (python.rs:848-898). -/
def get_declaration_with_comments (symbol : SymbolInformation) (text : String)
    (guid_to_children : List (Nat × List Nat))
    (guid_to_info : List (Nat × SymbolInformation)) : String × (Nat × Nat) :=
  match lookupA guid_to_children symbol.guid with
  | none => ("", (0, 0))
  | some children =>
    let all_symbols := sortByStart (children.filterMap (fun gu => lookupA guid_to_info gu))
    if symbol.symbol_type == SymbolType.FunctionDeclaration then
      let res_line := splitCh '\n' (get_content symbol text)
      let row := symbol.full_range.end_point.row
      let res_line := preprocess_content res_line
      (joinNL res_line, (symbol.full_range.start_point.row, row))
    else
      let content_lines := (splitCh '\n' (get_declaration_content symbol text)).map replaceTabs
      let intent_n :=
        match content_lines.head? with
        | some first => lenS first - lenS (trimLeftS first)
        | none => 0
      let comments := all_symbols.takeWhile (fun s => s.symbol_type == SymbolType.CommentDefinition)
      let row :=
        match comments.getLast? with
        | some last => last.full_range.end_point.row
        | none => symbol.full_range.start_point.row
      let res_line := comments.foldl (fun a s => a ++ splitCh '\n' (get_content s text)) []
      if res_line.isEmpty then ("", (0, 0))
      else
        let res_line := res_line ++ [spaces (intent_n + 4) ++ "..."]
        let res_line := content_lines ++ res_line
        let res_line := preprocess_content res_line
        (joinNL res_line, (symbol.full_range.start_point.row, row))


/-! ## Helper facts and projections used by the claim theorems -/

theorem splitCh_go_ne_nil (sep : Char) : ∀ (l cur : List Char), splitCh.go sep l cur ≠ []
  | [], cur => by simp [splitCh.go]
  | c :: t, cur => by
      simp only [splitCh.go]
      split
      · simp
      · exact splitCh_go_ne_nil sep t (c :: cur)

theorem splitCh_ne_nil (sep : Char) (s : String) : splitCh sep s ≠ [] :=
  splitCh_go_ne_nil sep s.toList []

def Symbol.path_components (s : Symbol) : List String :=
  match s.variant with
  | .importDeclaration p _ _ => p
  | _ => []

def Symbol.import_type (s : Symbol) : ImportType :=
  match s.variant with
  | .importDeclaration _ t _ => t
  | _ => .Unknown

def Symbol.inference_info (s : Symbol) : Option String :=
  match s.variant with
  | .variableDefinition t => t.inference_info
  | .classFieldDeclaration t => t.inference_info
  | _ => none

def Symbol.is_pod (s : Symbol) : Bool :=
  match s.variant with
  | .variableDefinition t => t.is_pod
  | .classFieldDeclaration t => t.is_pod
  | _ => false

/-- The name/inference/pod triple a worklist candidate determines. -/
def cand_proj : AsgnCand → String × Option String × Bool
  | ⟨some (l, _), _, r?⟩ =>
      (l.text, r?.map Node.text,
       match r? with
       | some r => POD_KINDS.contains r.kind
       | none => false)
  | ⟨none, _, _⟩ => ("", none, false)

/-- The VariableDefinition symbols an all-identifier candidate queue yields. -/
def ident_cand_syms (n : Node) (path : String) (g : Nat) (e : Bool) :
    List AsgnCand → Nat → List Symbol
  | [], _ => []
  | cand :: rest, st =>
    match cand.left with
    | some (l, _) =>
        { fields := { language := "python", full_range := n.range, file_path := path,
                      parent_guid := some g, guid := st + 1, name := l.text, is_error := e },
          variant := .variableDefinition
            (match cand.right with
             | some r => (TypeDef.default.setInference (some r.text)).setPod
                 (POD_KINDS.contains r.kind)
             | none => TypeDef.default) } :: ident_cand_syms n path g e rest (st + 1)
    | none => ident_cand_syms n path g e rest st

set_option maxHeartbeats 1600000 in
/-- Running the assignment worklist on a queue of plain-identifier candidates
emits one VariableDefinition per candidate, in order. -/
theorem asgn_cands_all_idents (n : Node) (path : String) (g : Nat) (e : Bool) :
    ∀ (q : List AsgnCand) (fuel st : Nat) (flag : Bool),
      q.length < fuel →
      (∀ cand ∈ q, ∃ l A, cand.left = some (l, A) ∧ l.kind = "identifier" ∧
         strContains SPECIAL_SYMBOLS l.text = false ∧ (l.text == "self") = false ∧
         cand.type_ = none) →
      parse_assignment_cands fuel n q flag false path g e st =
        .ok (ident_cand_syms n path g e q st, st + q.length)
  | [], fuel, st, flag, hfuel, _ => by
      cases fuel with
      | zero => omega
      | succ f =>
          rw [parse_assignment_cands]
          simp [ident_cand_syms]
  | cand :: rest, fuel, st, flag, hfuel, hshape => by
      cases fuel with
      | zero => omega
      | succ f =>
          obtain ⟨l, A, hleft, hident, htext, hself, htype⟩ := hshape cand (by simp)
          rw [parse_assignment_cands]
          dsimp only
          rw [hleft]
          dsimp only
          rw [hident, htype]
          simp only [htext, hself, Bool.or_self, Bool.false_eq_true, if_false,
            Extract.bind_apply, Extract.get_guid_apply, Extract.pure_apply]
          rw [asgn_cands_all_idents n path g e rest f (st + 1) flag
            (by simp only [List.length_cons] at hfuel; omega)
            (fun c hc => hshape c (by simp [hc]))]
          simp only [Extract.pure_apply]
          rw [ident_cand_syms]
          rw [hleft]
          simp only [Except.ok.injEq, Prod.mk.injEq, List.length_cons]
          exact ⟨by trivial, by omega⟩

/-- Projection of the emitted definitions to (name, inference_info, is_pod). -/
theorem ident_cand_syms_proj (n : Node) (path : String) (g : Nat) (e : Bool) :
    ∀ (q : List AsgnCand) (st : Nat),
      (∀ cand ∈ q, cand.left.isSome) →
      (ident_cand_syms n path g e q st).map (fun d => (d.name, d.inference_info, d.is_pod)) =
        q.map cand_proj
  | [], st, _ => rfl
  | cand :: rest, st, h => by
      obtain ⟨⟨l, A⟩, hleft⟩ :=
        Option.isSome_iff_exists.mp (h cand (by simp))
      rw [ident_cand_syms, hleft]
      simp only [List.map_cons]
      rw [ident_cand_syms_proj n path g e rest (st + 1) (fun c hc => h c (by simp [hc]))]
      show _ :: _ = _ :: _
      congr 1
      show (l.text, _, _) = cand_proj cand
      rcases cand with ⟨cl, ct, cr⟩
      cases hleft
      rcases cr with _ | r
      · rfl
      · rfl

def concatS : List String → String
  | [] => ""
  | x :: xs => x ++ concatS xs

/-- The skeleton text one child contributes, as claim C8 describes it: a
function-declaration child contributes its declaration lines re-indented two
spaces followed by an indented ellipsis line; a class-field child contributes
its content indented two spaces with no ellipsis of its own; children of
other kinds contribute nothing. -/
def skeleton_child_spec (text : String) (info : SymbolInformation) : String :=
  match info.symbol_type with
  | .FunctionDeclaration =>
      concatS ((rustLines (get_declaration_content info text)).map
        (fun line => "  " ++ trimLeftS line ++ "\n")) ++ "    ...\n"
  | .ClassFieldDeclaration => "  " ++ get_content info text ++ "\n"
  | _ => ""

theorem foldl_indent (l : List String) :
    ∀ acc : String,
      l.foldl (fun a line => a ++ "  " ++ trimLeftS line ++ "\n") acc =
        acc ++ concatS (l.map (fun line => "  " ++ trimLeftS line ++ "\n")) := by
  induction l with
  | nil => intro acc; simp [concatS, String.append_empty]
  | cons x xs ih =>
      intro acc
      simp only [List.foldl_cons, List.map_cons, concatS]
      rw [ih]
      simp [String.append_assoc]

theorem skeleton_children_spec (text : String) (g2i : List (Nat × SymbolInformation))
    (infos : Nat → SymbolInformation) :
    ∀ (cs : List Nat) (acc : String),
      (∀ c ∈ cs, lookupA g2i c = some (infos c)) →
      skeleton_children cs acc text g2i =
        .ok (acc ++ concatS (cs.map (fun c => skeleton_child_spec text (infos c)))) := by
  intro cs
  induction cs with
  | nil => intro acc _; simp [skeleton_children, concatS, String.append_empty]
  | cons c rest ih =>
      intro acc h
      rw [skeleton_children]
      rw [h c (by simp)]
      show skeleton_children rest _ text g2i = _
      rw [ih _ (fun x hx => h x (by simp [hx]))]
      simp only [List.map_cons, concatS]
      cases hty : (infos c).symbol_type
      case FunctionDeclaration =>
        simp only [skeleton_child_spec, hty]
        rw [foldl_indent]
        simp [String.append_assoc]
      case ClassFieldDeclaration =>
        simp [skeleton_child_spec, hty, String.append_assoc]
      all_goals simp [skeleton_child_spec, hty, String.append_empty]

theorem skeleton_children_total (text : String) (g2i : List (Nat × SymbolInformation)) :
    ∀ (cs : List Nat) (acc : String),
      (∀ c ∈ cs, (lookupA g2i c).isSome) →
      ∃ out, skeleton_children cs acc text g2i = .ok out := by
  intro cs
  induction cs with
  | nil => intro acc _; exact ⟨acc, rfl⟩
  | cons c rest ih =>
      intro acc h
      obtain ⟨i, hi⟩ := Option.isSome_iff_exists.mp (h c (by simp))
      rw [skeleton_children, hi]
      exact ih _ (fun x hx => h x (by simp [hx]))

theorem skeleton_children_err (text : String) (g2i : List (Nat × SymbolInformation)) :
    ∀ (cs : List Nat) (acc : String) (c : Nat),
      c ∈ cs → lookupA g2i c = none →
      ∃ msg, skeleton_children cs acc text g2i = .error msg := by
  intro cs
  induction cs with
  | nil => intro acc c hc; exact absurd hc (List.not_mem_nil c)
  | cons c0 rest ih =>
      intro acc c hc hnone
      cases hl : lookupA g2i c0 with
      | none =>
          refine ⟨"make_skeleton: absent guid_to_info entry", ?_⟩
          rw [skeleton_children, hl]
          rfl
      | some i =>
          rw [skeleton_children, hl]
          rcases List.mem_cons.mp hc with rfl | hmem
          · rw [hl] at hnone; exact absurd hnone (by simp)
          · exact ih _ c hmem hnone


/-! ## Claim theorems -/

def badCall : Node := .mk "call" "f(" TSRange.zero none []

/-- Claim C1, counterexample: extraction is not total on arbitrary syntax
trees.  A node of kind "call" carrying no "arguments" field child makes
parse_call_expression's unwrap panic, although the recursion budget
(3 * size + 3 = 6 ≤ 10) is ample, so the failure is a genuine panic and not
fuel exhaustion. -/
theorem C1_counterexample_call_without_arguments :
    parse badCall "a.py" 10 0 = .error (.fail "call: arguments") ∧
    3 * Node.size badCall + 3 ≤ 10 :=
  ⟨rfl, by decide⟩

def c2_err_ident : Node := .mk "identifier" "y" TSRange.zero none []
def c2_err : Node := .mk "ERROR" "y !" TSRange.zero none [c2_err_ident]
def c2_name : Node := .mk "identifier" "f" TSRange.zero (some "name") []
def c2_pass : Node := .mk "pass_statement" "pass" TSRange.zero none []
def c2_body : Node := .mk "block" "pass" TSRange.zero (some "body") [c2_pass]
def c2_fn : Node := .mk "function_definition" "def f: pass" TSRange.zero none
  [c2_err, c2_name, c2_body]
def c2_mod : Node := .mk "module" "def f: pass" TSRange.zero none [c2_fn]

/-- Claim C2, failing run: a function_definition with an ERROR child yields an
error-recovered usage whose parent_guid is the default guid 0, because
parse_function_declaration generates the function's guid only after the
parameter region is scanned (python.rs:653, 665 versus 675).  Guid 0 is not
the guid of any symbol in the result set (the run's guids are 2 and 3, the
root guid is 1), so the usage's parent reference dangles. -/
theorem C2_function_parameter_error_usages_dangling_parent :
    (parse c2_mod "a.py" 10 0).map
        (fun p => (p.1.map (fun s => (s.name, s.guid, s.parent_guid, s.fields.is_error)), p.2))
      = .ok ([("y", 2, some 0, true), ("f", 3, some 1, false)], 3) ∧
    (∀ gd ∈ [2, 3], gd ≠ 0) ∧ (1 : Nat) ≠ 0 :=
  ⟨rfl, by decide, by decide⟩

set_option maxHeartbeats 1600000 in
/-- Claim C3: parse_assignment on a pattern-list left-hand side binds each
left identifier positionally to the filtered right-hand element (inference the
element's text, is_pod set for literal kinds) when the filtered arities agree,
and binds every left identifier to the whole right-hand expression's text when
they differ. -/
theorem C3_destructuring (fuel : Nat) (n L R : Node) (anc : List Node) (path : String)
    (g : Nat) (e : Bool) (st st1 : Nat) (us : List Symbol)
    (hk : ancClassField anc = false)
    (hl : n.childByField "left" = some L)
    (ht : n.childByField "type" = none)
    (hr : n.childByField "right" = some R)
    (hb : n.childByField "body" = none)
    (hLk : L.kind = "pattern_list" ∨ L.kind = "tuple_pattern" ∨ L.kind = "list_pattern")
    (hLtext : strContains SPECIAL_SYMBOLS L.text = false)
    (hLself : (L.text == "self") = false)
    (hlefts : ∀ cnode ∈ L.children.filter (fun c => !(strContains SPECIAL_SYMBOLS c.kind)),
       cnode.kind = "identifier" ∧ strContains SPECIAL_SYMBOLS cnode.text = false ∧
       (cnode.text == "self") = false)
    (hus : parse_usages fuel R (n :: anc) path g e false st = .ok (us, st1))
    (hfuel : (L.children.filter (fun c => !(strContains SPECIAL_SYMBOLS c.kind))).length + 1
      < fuel) :
    ∃ defs : List Symbol,
      parse_assignment (fuel + 1) n anc path g e st =
        .ok (us ++ defs,
          st1 + (L.children.filter (fun c => !(strContains SPECIAL_SYMBOLS c.kind))).length) ∧
      ((L.children.filter (fun c => !(strContains SPECIAL_SYMBOLS c.kind))).length =
          (R.children.filter (fun c => !(strContains SPECIAL_SYMBOLS c.kind))).length →
        defs.map (fun d => (d.name, d.inference_info, d.is_pod)) =
          ((L.children.filter (fun c => !(strContains SPECIAL_SYMBOLS c.kind))).zip
              (R.children.filter (fun c => !(strContains SPECIAL_SYMBOLS c.kind)))).map
            (fun p => (p.1.text, some p.2.text, POD_KINDS.contains p.2.kind))) ∧
      ((L.children.filter (fun c => !(strContains SPECIAL_SYMBOLS c.kind))).length ≠
          (R.children.filter (fun c => !(strContains SPECIAL_SYMBOLS c.kind))).length →
        defs.map (fun d => (d.name, d.inference_info, d.is_pod)) =
          (L.children.filter (fun c => !(strContains SPECIAL_SYMBOLS c.kind))).map
            (fun l => (l.text, some R.text, POD_KINDS.contains R.kind))) := by
  obtain ⟨f, rfl⟩ : ∃ f, fuel = f + 1 := by
    cases fuel with
    | zero => omega
    | succ f => exact ⟨f, rfl⟩
  set lefts := L.children.filter (fun c => !(strContains SPECIAL_SYMBOLS c.kind)) with hLdef
  set rightsN := R.children.filter (fun c => !(strContains SPECIAL_SYMBOLS c.kind)) with hRdef
  have hlt : lefts.length < f := by omega
  by_cases hlen : lefts.length = rightsN.length
  · have hbne : (lefts.length != (rightsN.map (some : Node → Option Node)).length) = false := by
      simp [hlen]
    have hzlen : ((lefts.zip (rightsN.map (some : Node → Option Node))).map
        (fun p => (⟨some (p.1, L :: n :: anc), none, p.2⟩ : AsgnCand))).length =
        lefts.length := by
      simp [List.length_zip, hlen, min_self]
    have hstep : parse_assignment_cands (f + 1) n
        [⟨some (L, n :: anc), none, some R⟩] false false path g e st1 =
        .ok (ident_cand_syms n path g e
          ((lefts.zip (rightsN.map some)).map
            (fun p => ⟨some (p.1, L :: n :: anc), none, p.2⟩)) st1,
          st1 + lefts.length) := by
      conv_lhs => rw [parse_assignment_cands]
      dsimp only
      rcases hLk with hLk | hLk | hLk <;>
      · rw [hLk]
        simp only [hLtext, hLself, Bool.or_self, Bool.false_eq_true, if_false, hbne,
          Bool.or_false, if_true, List.nil_append]
        rw [asgn_cands_all_idents n path g e _ f st1 false
          (by rw [hzlen]; exact hlt)
          (by
            intro cand hc
            simp only [List.mem_map] at hc
            obtain ⟨⟨lft, r?⟩, hmem, rfl⟩ := hc
            obtain ⟨hmeml, _⟩ := List.of_mem_zip hmem
            obtain ⟨hident, htext2, hself2⟩ := hlefts lft hmeml
            exact ⟨lft, L :: n :: anc, rfl, hident, htext2, hself2, rfl⟩)]
        rw [hzlen]
    refine ⟨ident_cand_syms n path g e
        ((lefts.zip (rightsN.map some)).map
          (fun p => ⟨some (p.1, L :: n :: anc), none, p.2⟩)) st1,
      ?_, ?_, fun hcontra => absurd hlen hcontra⟩
    · conv_lhs => rw [parse_assignment]
      dsimp only
      rw [hk, hr, hb, hl, ht]
      simp only [Extract.bind_apply, hus, Extract.pure_apply, Option.map_some']
      rw [hstep]
      simp
    · intro _
      rw [ident_cand_syms_proj n path g e _ st1
        (by
          intro cand hc
          simp only [List.mem_map] at hc
          obtain ⟨⟨lft, r?⟩, _, rfl⟩ := hc
          rfl)]
      rw [List.zip_map_right]
      rw [List.map_map, List.map_map]
      apply List.map_congr_left
      intro p _
      rcases p with ⟨pl, pr⟩
      rfl
  · have hbne : (lefts.length != (rightsN.map (some : Node → Option Node)).length) = true := by
      simp [hlen]
    have hmlen : ((lefts.map
        (fun l => (⟨some (l, L :: n :: anc), none, some R⟩ : AsgnCand))).length) =
        lefts.length := by
      simp
    have hstep : parse_assignment_cands (f + 1) n
        [⟨some (L, n :: anc), none, some R⟩] false false path g e st1 =
        .ok (ident_cand_syms n path g e
          (lefts.map (fun l => ⟨some (l, L :: n :: anc), none, some R⟩)) st1,
          st1 + lefts.length) := by
      conv_lhs => rw [parse_assignment_cands]
      dsimp only
      rcases hLk with hLk | hLk | hLk <;>
      · rw [hLk]
        simp only [hLtext, hLself, Bool.or_self, Bool.false_eq_true, if_false, hbne,
          Bool.or_true, if_true, List.nil_append]
        rw [asgn_cands_all_idents n path g e _ f st1 true
          (by rw [hmlen]; exact hlt)
          (by
            intro cand hc
            simp only [List.mem_map] at hc
            obtain ⟨lft, hmem, rfl⟩ := hc
            obtain ⟨hident, htext2, hself2⟩ := hlefts lft hmem
            exact ⟨lft, L :: n :: anc, rfl, hident, htext2, hself2, rfl⟩)]
        rw [hmlen]
    refine ⟨ident_cand_syms n path g e
        (lefts.map (fun l => ⟨some (l, L :: n :: anc), none, some R⟩)) st1,
      ?_, fun hcontra => absurd hcontra hlen, ?_⟩
    · conv_lhs => rw [parse_assignment]
      dsimp only
      rw [hk, hr, hb, hl, ht]
      simp only [Extract.bind_apply, hus, Extract.pure_apply, Option.map_some']
      rw [hstep]
      simp
    · intro _
      rw [ident_cand_syms_proj n path g e _ st1
        (by
          intro cand hc
          simp only [List.mem_map] at hc
          obtain ⟨lft, _, rfl⟩ := hc
          rfl)]
      rw [List.map_map]
      apply List.map_congr_left
      intro lft _
      rfl

def c4_rel : Node := .mk "relative_import" "...m" TSRange.zero (some "module_name") []
def c4_name : Node := .mk "dotted_name" "x" TSRange.zero (some "name") []
def c4_imp : Node := .mk "import_from_statement" "from ...m import x" TSRange.zero none
  [c4_rel, c4_name]

/-- Claim C4, counterexample: a relative import with three leading dots
("from ...m import x") records only a ".." component: the run of leading dots
("...") is not reflected in path_components, so leading dots are not recorded
"by counting consecutive leading dots" — every dot beyond the second is
dropped. -/
theorem C4_counterexample_three_leading_dots :
    (parse_usages 5 c4_imp [] "a.py" 7 false true 0).map
        (fun p => (p.1.map (fun s => (s.path_components, s.import_type, s.name)), p.2))
      = .ok ([(["..", "m", "x"], ImportType.UserModule, "x")], 1) ∧
    ofChars ("...m".toList.takeWhile (fun ch => ch = '.')) = "..." ∧
    ∀ comp ∈ ["..", "m", "x"], comp ≠ "..." :=
  ⟨rfl, rfl, by decide⟩

set_option maxHeartbeats 1600000 in
/-- Claim C4 (amended): for an import statement with a single dotted name, the
emitted ImportDeclaration's path is the module-name prefix followed by the
dotted segments, its display name is the final segment, a first component in
the standard-library set gives System, a leading "." or ".." component gives
UserModule, anything else Unknown; a single leading dot is recorded as ".",
and two OR MORE leading dots are recorded as a single "..". -/
theorem C4_import_classification (fuel : Nat) (n c : Node) (anc : List Node) (path : String)
    (g : Nat) (e fb : Bool) (st : Nat)
    (hk : n.kind = "import_statement" ∨ n.kind = "import_from_statement")
    (hnames : n.childrenByField "name" = [c])
    (hck : c.kind = "dotted_name") :
    ∃ sym : Symbol,
      parse_usages (fuel + 1) n anc path g e fb st = .ok ([sym], st + 1) ∧
      sym.path_components = import_base n ++ splitCh '.' c.text ∧
      sym.name = (import_base n ++ splitCh '.' c.text).getLast?.getD "" ∧
      (∀ f, (import_base n ++ splitCh '.' c.text).head? = some f →
        (PYTHON_MODULES.contains f = true → sym.import_type = .System) ∧
        (PYTHON_MODULES.contains f = false → (f = "." ∨ f = "..") →
          sym.import_type = .UserModule) ∧
        (PYTHON_MODULES.contains f = false → f ≠ "." → f ≠ ".." →
          sym.import_type = .Unknown)) ∧
      (∀ m, n.childByField "module_name" = some m → m.kind = "relative_import" →
        (startsWithS m.text "." = true → startsWithS m.text ".." = false →
          import_base n = "." :: (splitCh '.' (dropS m.text 1)).filter (fun x => !x.isEmpty)) ∧
        (startsWithS m.text ".." = true →
          import_base n = ".." :: (splitCh '.' (dropS m.text 2)).filter (fun x => !x.isEmpty)))
      := by
  have hfull : import_base n ++ splitCh '.' c.text ≠ [] := by
    intro h
    exact splitCh_ne_nil '.' c.text (List.append_eq_nil.mp h).2
  obtain ⟨nm, hnm⟩ := Option.isSome_iff_exists.mp (List.getLast?_isSome.mpr hfull)
  refine ⟨{ fields := { language := "python", full_range := n.range, file_path := path,
                        parent_guid := some g, guid := st + 1, name := nm },
            variant := .importDeclaration (import_base n ++ splitCh '.' c.text)
              (match (import_base n ++ splitCh '.' c.text).head? with
               | some first =>
                   if PYTHON_MODULES.contains first then .System
                   else if first == "." || first == ".." then .UserModule
                   else .Unknown
               | none => .Unknown) none }, ?_, rfl, ?_, ?_, ?_⟩
  · conv_lhs => rw [parse_usages]
    rcases hk with hk | hk <;>
    · rw [hk]
      simp only [hnames, List.isEmpty_cons, import_names, hck, Extract.bind_apply,
        Extract.get_guid_apply, hnm, Extract.need_some, Extract.pure_apply]
      rfl
  · show nm = _
    rw [hnm]
    rfl
  · intro f hf
    refine ⟨?_, ?_, ?_⟩
    · intro hmem
      show (match (import_base n ++ splitCh '.' c.text).head? with
            | some first =>
                if PYTHON_MODULES.contains first then ImportType.System
                else if first == "." || first == ".." then ImportType.UserModule
                else ImportType.Unknown
            | none => ImportType.Unknown) = ImportType.System
      rw [hf]
      have hm' : f ∈ PYTHON_MODULES := by simpa using hmem
      simp [hm']
    · intro hmem hdot
      show (match (import_base n ++ splitCh '.' c.text).head? with
            | some first =>
                if PYTHON_MODULES.contains first then ImportType.System
                else if first == "." || first == ".." then ImportType.UserModule
                else ImportType.Unknown
            | none => ImportType.Unknown) = ImportType.UserModule
      rw [hf]
      have hm' : f ∉ PYTHON_MODULES := by simpa using hmem
      rcases hdot with h | h <;> subst h <;> simp [hm']
    · intro hmem h1 h2
      show (match (import_base n ++ splitCh '.' c.text).head? with
            | some first =>
                if PYTHON_MODULES.contains first then ImportType.System
                else if first == "." || first == ".." then ImportType.UserModule
                else ImportType.Unknown
            | none => ImportType.Unknown) = ImportType.Unknown
      rw [hf]
      have hm' : f ∉ PYTHON_MODULES := by simpa using hmem
      simp [hm', h1, h2]
  · intro m hm hmk
    refine ⟨?_, ?_⟩
    · intro h1 h2
      simp [import_base, hm, hmk, h1, h2]
    · intro h2
      simp [import_base, hm, hmk, h2]

/-- Claim C5: for an attribute-access node, extraction emits the object's
usages first and then one usage named after the attribute whose caller_guid is
the parent_guid of the LAST symbol produced for the object (not that symbol's
own guid), and stays unset when the object produced no symbol. -/
theorem C5_attribute_access_caller (fuel : Nat) (n attr obj : Node) (anc : List Node)
    (path : String) (g : Nat) (e fb : Bool) (st st' : Nat) (us : List Symbol)
    (hk : n.kind = "attribute")
    (ha : n.childByField "attribute" = some attr)
    (ho : n.childByField "object" = some obj)
    (hobj : parse_usages fuel obj (n :: anc) path g e false (st + 1) = .ok (us, st')) :
    parse_usages (fuel + 1) n anc path g e fb st =
      .ok (us ++ [{ fields := { name := attr.text, language := "python",
                                full_range := n.range, file_path := path,
                                parent_guid := some g, guid := st + 1, is_error := e,
                                caller_guid := match us.getLast? with
                                               | some last => last.fields.parent_guid
                                               | none => none },
                    variant := .variableUsage }], st') ∧
    (∀ last, us.getLast? = some last →
      (match us.getLast? with
       | some l => l.fields.parent_guid
       | none => none) = last.fields.parent_guid) ∧
    (us = [] →
      (match us.getLast? with
       | some l => l.fields.parent_guid
       | none => none) = none) := by
  refine ⟨?_, fun last h => by rw [h], fun h => by subst h; rfl⟩
  conv_lhs => rw [parse_usages]
  rw [hk]
  simp only [Extract.bind_apply, ha, ho, Extract.need_some, Extract.pure_apply,
    Extract.get_guid_apply, hobj]

set_option maxHeartbeats 800000 in
/-- Claim C9: (a) a nested pattern pair with mismatched filtered arities turns
the broadcast flag on for the remainder of the statement's worklist and pairs
each of its elements with the pair's entire right-hand node; (b) once the flag
is on, a later pattern pair is broadcast the same way even when its own
arities match, and the flag stays on. -/
theorem C9_broadcast_flag (fuel : Nat) (n left right : Node) (A : List Node)
    (t? : Option Node) (rest : List AsgnCand) (icf : Bool) (path : String) (g : Nat)
    (e : Bool) (st : Nat)
    (hkind : left.kind = "pattern_list" ∨ left.kind = "tuple_pattern" ∨
             left.kind = "list_pattern")
    (htext : strContains SPECIAL_SYMBOLS left.text = false)
    (hself : (left.text == "self") = false) :
    (((left.children.filter (fun c => !(strContains SPECIAL_SYMBOLS c.kind))).length ≠
        (right.children.filter (fun c => !(strContains SPECIAL_SYMBOLS c.kind))).length) →
      parse_assignment_cands (fuel + 1) n (⟨some (left, A), t?, some right⟩ :: rest) false icf
          path g e st =
        parse_assignment_cands fuel n
          (rest ++ (left.children.filter (fun c => !(strContains SPECIAL_SYMBOLS c.kind))).map
            (fun l => ⟨some (l, left :: A), none, some right⟩)) true icf path g e st) ∧
    (parse_assignment_cands (fuel + 1) n (⟨some (left, A), t?, some right⟩ :: rest) true icf
        path g e st =
      parse_assignment_cands fuel n
        (rest ++ (left.children.filter (fun c => !(strContains SPECIAL_SYMBOLS c.kind))).map
          (fun l => ⟨some (l, left :: A), none, some right⟩)) true icf path g e st) := by
  constructor
  · intro hne
    have hb : ((left.children.filter (fun c => !(strContains SPECIAL_SYMBOLS c.kind))).length !=
        (right.children.filter (fun c => !(strContains SPECIAL_SYMBOLS c.kind))).length) = true :=
      bne_iff_ne.mpr hne
    conv_lhs => rw [parse_assignment_cands]
    dsimp only
    rcases hkind with hkind | hkind | hkind <;>
    · rw [hkind]
      simp [htext, hself, hb, List.length_map]
  · conv_lhs => rw [parse_assignment_cands]
    dsimp only
    rcases hkind with hkind | hkind | hkind <;>
    · rw [hkind]
      simp [htext, hself, List.length_map]

/-- Claim C10: make_skeleton is total exactly under the precondition that the
children map has an entry for the symbol and the info map has an entry for
every listed child — a missing entry is a panic — whereas
get_declaration_with_comments on a symbol without a children-map entry
degrades to the empty string with range (0, 0). -/
theorem C10_skeleton_totality (symbol : SymbolInformation) (text : String)
    (g2c : List (Nat × List Nat)) (g2i : List (Nat × SymbolInformation)) :
    (lookupA g2c symbol.guid = none →
      make_skeleton symbol text g2c g2i =
        .error "make_skeleton: absent guid_to_children entry" ∧
      get_declaration_with_comments symbol text g2c g2i = ("", (0, 0))) ∧
    (∀ cs, lookupA g2c symbol.guid = some cs →
      ((∀ c ∈ cs, (lookupA g2i c).isSome) →
        ∃ out, make_skeleton symbol text g2c g2i = .ok out) ∧
      (∀ c, c ∈ cs → lookupA g2i c = none →
        ∃ msg, make_skeleton symbol text g2c g2i = .error msg)) := by
  constructor
  · intro hnone
    constructor
    · rw [make_skeleton, hnone]
      rfl
    · rw [get_declaration_with_comments, hnone]
  · intro cs hsome
    constructor
    · intro h
      rw [make_skeleton, hsome]
      cases cs with
      | nil => exact ⟨_, rfl⟩
      | cons c rest =>
          show ∃ out, skeleton_children (c :: rest) _ text g2i = .ok out
          exact skeleton_children_total text g2i _ _ h
    · intro c hc hnone
      rw [make_skeleton, hsome]
      cases cs with
      | nil => exact absurd hc (List.not_mem_nil c)
      | cons c0 rest =>
          show ∃ msg, skeleton_children (c0 :: rest) _ text g2i = .error msg
          exact skeleton_children_err text g2i _ _ c hc hnone

/-- Claim C8: make_skeleton on a symbol with no children is exactly the
declaration header plus an indented ellipsis line; with children it is the
header, a newline, and each child's contribution in order — a function child's
re-indented declaration lines plus an ellipsis line, a class-field child's
indented content with no ellipsis, nothing for other kinds. -/
theorem C8_make_skeleton (symbol : SymbolInformation) (text : String)
    (g2c : List (Nat × List Nat)) (g2i : List (Nat × SymbolInformation))
    (infos : Nat → SymbolInformation) :
    (lookupA g2c symbol.guid = some [] →
      make_skeleton symbol text g2c g2i =
        .ok (get_declaration_content symbol text ++ "\n  ...")) ∧
    (∀ cs, lookupA g2c symbol.guid = some cs → cs ≠ [] →
      (∀ c ∈ cs, lookupA g2i c = some (infos c)) →
      make_skeleton symbol text g2c g2i =
        .ok ((get_declaration_content symbol text ++ "\n") ++
          concatS (cs.map (fun c => skeleton_child_spec text (infos c))))) := by
  constructor
  · intro hempty
    rw [make_skeleton, hempty]
    rfl
  · intro cs hsome hne h
    rw [make_skeleton, hsome]
    cases cs with
    | nil => exact absurd rfl hne
    | cons c rest =>
        show skeleton_children (c :: rest) _ text g2i = _
        rw [skeleton_children_spec text g2i infos _ _ h]



-- ## C5 witness
def c5_attr : Node := .mk "identifier" "fi" TSRange.zero (some "attribute") []
def c5_obj : Node := .mk "identifier" "o" TSRange.zero (some "object") []
def c5_node : Node := .mk "attribute" "o.fi" TSRange.zero none [c5_obj, c5_attr]
def c5_objUsage : Symbol :=
  { fields := { name := "o", language := "python", full_range := TSRange.zero,
                file_path := "a.py", parent_guid := some 7, guid := 2, is_error := false },
    variant := .variableUsage }

/-- Witness for claim C5 at a concrete attribute node o.fi. -/
theorem C5_attribute_access_caller_witness :
    parse_usages 6 c5_node [] "a.py" 7 false false 0 =
      .ok ([c5_objUsage,
            { fields := { name := "fi", language := "python", full_range := TSRange.zero,
                          file_path := "a.py", parent_guid := some 7, guid := 1,
                          is_error := false, caller_guid := some 7 },
              variant := .variableUsage }], 2) := by
  have h := (C5_attribute_access_caller 5 c5_node c5_attr c5_obj [] "a.py" 7 false false 0 2
    [c5_objUsage] rfl rfl rfl (by rfl)).1
  rw [h]
  rfl

-- ## C4 witness
/-- Witness for claim C4 at the concrete import from ...m import x. -/
theorem C4_import_classification_witness :
    ∃ sym : Symbol,
      parse_usages 5 c4_imp [] "a.py" 7 false true 0 = .ok ([sym], 1) ∧
      sym.path_components = ["..", "m", "x"] ∧
      sym.name = "x" ∧
      sym.import_type = ImportType.UserModule := by
  obtain ⟨sym, h1, h2, h3, h4, h5⟩ :=
    C4_import_classification 4 c4_imp c4_name [] "a.py" 7 false true 0 (Or.inr rfl) rfl rfl
  refine ⟨sym, h1, ?_, ?_, ?_⟩
  · rw [h2]; rfl
  · rw [h3]; rfl
  · exact (h4 ".." (by rfl)).2.1 (by rfl) (Or.inr rfl)

-- ## C9 witness
def c9_c : Node := .mk "identifier" "c" TSRange.zero none []
def c9_d : Node := .mk "identifier" "d" TSRange.zero none []
def c9_left : Node := .mk "tuple_pattern" "(c, d)" TSRange.zero none [c9_c, c9_d]
def c9_one : Node := .mk "integer" "1" TSRange.zero none []
def c9_two : Node := .mk "integer" "2" TSRange.zero none []
def c9_right : Node := .mk "tuple" "(1, 2)" TSRange.zero none [c9_one, c9_two]
def c9_asgn : Node := .mk "assignment" "((a,b),(c,d)) = (x,(1,2))" TSRange.zero none []

/-- Witness for claim C9: under an already-set flag, the arity-matched pair
(c, d) = (1, 2) is still broadcast: both c and d are paired with the whole
right-hand node. -/
theorem C9_broadcast_flag_witness :
    parse_assignment_cands 6 c9_asgn [⟨some (c9_left, []), none, some c9_right⟩] true false
        "a.py" 7 false 0 =
      parse_assignment_cands 5 c9_asgn
        [⟨some (c9_c, [c9_left]), none, some c9_right⟩,
         ⟨some (c9_d, [c9_left]), none, some c9_right⟩] true false "a.py" 7 false 0 := by
  have h := (C9_broadcast_flag 5 c9_asgn c9_left c9_right [] none [] false "a.py" 7 false 0
    (Or.inr (Or.inl rfl)) rfl rfl).2
  exact h

-- ## C3 witness
def c3_a : Node := .mk "identifier" "a" TSRange.zero none []
def c3_b : Node := .mk "identifier" "b" TSRange.zero none []
def c3_comma : Node := .mk "," "," TSRange.zero none []
def c3_left : Node := .mk "pattern_list" "a, b" TSRange.zero (some "left")
  [c3_a, c3_comma, c3_b]
def c3_one : Node := .mk "integer" "1" TSRange.zero none []
def c3_two : Node := .mk "integer" "2" TSRange.zero none []
def c3_right : Node := .mk "expression_list" "1, 2" TSRange.zero (some "right")
  [c3_one, c3_comma, c3_two]
def c3_asgn : Node := .mk "assignment" "a, b = 1, 2" TSRange.zero none [c3_left, c3_right]

/-- Witness for claim C3 at the concrete assignment a, b = 1, 2: a is bound
positionally to 1 and b to 2, both flagged is_pod. -/
theorem C3_destructuring_witness :
    ∃ defs : List Symbol,
      parse_assignment 7 c3_asgn [] "a.py" 7 false 0 = .ok (defs, 2) ∧
      defs.map (fun d => (d.name, d.inference_info, d.is_pod)) =
        [("a", some "1", true), ("b", some "2", true)] := by
  obtain ⟨defs, h1, h2, _⟩ :=
    C3_destructuring 6 c3_asgn c3_left c3_right [] "a.py" 7 false 0 0 [] rfl rfl rfl rfl rfl
      (Or.inl rfl) rfl rfl
      (by
        intro c hc
        have heq : (c3_left.children.filter (fun c => !(strContains SPECIAL_SYMBOLS c.kind))) =
            [c3_a, c3_b] := rfl
        rw [heq] at hc
        simp only [List.mem_cons, List.not_mem_nil, or_false] at hc
        rcases hc with rfl | rfl
        · exact ⟨rfl, rfl, rfl⟩
        · exact ⟨rfl, rfl, rfl⟩)
      (by rfl)
      (by decide)
  refine ⟨defs, ?_, ?_⟩
  · exact h1
  · exact h2 (by decide)



-- ## C10 witness
def c10_sym : SymbolInformation := { guid := 5, symbol_type := .StructDeclaration }

/-- Witness for claim C10: with no guid_to_children entry, make_skeleton
panics while get_declaration_with_comments returns the empty result. -/
theorem C10_skeleton_totality_witness :
    make_skeleton c10_sym "class A: pass" [] [] =
      .error "make_skeleton: absent guid_to_children entry" ∧
    get_declaration_with_comments c10_sym "class A: pass" [] [] = ("", (0, 0)) :=
  (C10_skeleton_totality c10_sym "class A: pass" [] []).1 rfl

-- ## C8 witness
-- text: "class A:\n  def f(x):\n    pass\n  y = 1"
--        0........8 9..........20 21......29 30....36
def c8_text : String := "class A:\n  def f(x):\n    pass\n  y = 1"
def c8_class : SymbolInformation :=
  { guid := 1, symbol_type := .StructDeclaration,
    declaration_range := { start_byte := 0, end_byte := 8,
                           start_point := ⟨0, 0⟩, end_point := ⟨0, 8⟩ } }
def c8_fn : SymbolInformation :=
  { guid := 2, symbol_type := .FunctionDeclaration,
    declaration_range := { start_byte := 9, end_byte := 20,
                           start_point := ⟨1, 0⟩, end_point := ⟨1, 11⟩ } }
def c8_field : SymbolInformation :=
  { guid := 3, symbol_type := .ClassFieldDeclaration,
    full_range := { start_byte := 30, end_byte := 37,
                    start_point := ⟨3, 0⟩, end_point := ⟨3, 7⟩ } }
def c8_infos : Nat → SymbolInformation :=
  fun c => if c = 2 then c8_fn else c8_field

/-- Witness for claim C8: a class with a function child and a field child
renders the header, the re-indented function header plus an ellipsis line,
and the field's content with no ellipsis of its own. -/
theorem C8_make_skeleton_witness :
    make_skeleton c8_class c8_text [(1, [2, 3])] [(2, c8_fn), (3, c8_field)] =
      .ok "class A:\n  def f(x):\n    ...\n    y = 1\n" := by
  have h := (C8_make_skeleton c8_class c8_text [(1, [2, 3])] [(2, c8_fn), (3, c8_field)]
    c8_infos).2 [2, 3] rfl (by simp) (by decide)
  rw [h]
  rfl

end RefactAst

/-! ## Totality of extraction on well-formed trees (fuel adequacy) -/

namespace RefactAst

/-! ## Local well-formedness: the children/fields each kind's handler unwraps -/

/-- The per-node condition claim C1 (amended) assumes: every field or child
position the kind's handler unwraps is present. -/
def localWF (n : Node) : Bool :=
  match n.kind with
  | "type" | "splat_type" => !n.children.isEmpty
  | "generic_type" => decide (2 ≤ n.children.length)
  | "attribute" => (n.childByField "attribute").isSome && (n.childByField "object").isSome
  | "call" => (n.childByField "function").isSome && (n.childByField "arguments").isSome
  | "typed_default_parameter" | "default_parameter" => (n.childByField "name").isSome
  | "tuple_pattern" => !n.children.isEmpty
  | "as_pattern" =>
      !n.children.isEmpty &&
      (match n.childByField "alias" with
       | some al => !al.children.isEmpty
       | none => true)
  | "with_item" => (n.childByField "value").isSome
  | "not_operator" | "unary_operator" => (n.childByField "argument").isSome
  | "boolean_operator" | "binary_operator" | "for_in_clause" | "augmented_assignment" =>
      (n.childByField "left").isSome && (n.childByField "right").isSome
  | "pair" => (n.childByField "key").isSome && (n.childByField "value").isSome
  | "while_statement" => (n.childByField "condition").isSome && (n.childByField "body").isSome
  | "match_statement" => (n.childByField "subject").isSome && (n.childByField "body").isSome
  | "import_statement" | "import_from_statement" =>
      (n.childrenByField "name").all (fun c =>
        c.kind == "dotted_name" ||
        (c.kind == "aliased_import" && (c.childByField "name").isSome))
  | _ => true

mutual
/-- Recursive well-formedness: localWF at every node of the tree. -/
def wfB : Node → Bool
  | .mk k t r f cs => localWF (.mk k t r f cs) && wfL cs

def wfL : List Node → Bool
  | [] => true
  | c :: cs => wfB c && wfL cs
end

theorem wfB_eq (n : Node) : wfB n = (localWF n && wfL n.children) := by
  cases n; rfl

theorem wfB_local {n : Node} (h : wfB n = true) : localWF n = true := by
  rw [wfB_eq] at h
  simp only [Bool.and_eq_true] at h
  exact h.1

theorem wfL_mem : ∀ {cs : List Node} {c : Node}, wfL cs = true → c ∈ cs → wfB c = true
  | c0 :: rest, c, h, hmem => by
      rw [wfL] at h
      simp only [Bool.and_eq_true] at h
      rcases List.mem_cons.mp hmem with rfl | hmem
      · exact h.1
      · exact wfL_mem h.2 hmem

theorem wfB_children {n : Node} (h : wfB n = true) : wfL n.children = true := by
  rw [wfB_eq] at h
  simp only [Bool.and_eq_true] at h
  exact h.2

theorem wfB_child {n c : Node} (h : wfB n = true) (hc : c ∈ n.children) : wfB c = true :=
  wfL_mem (wfB_children h) hc

/-! ## Node membership and size facts -/

theorem childByField_mem {n c : Node} {f : String} (h : n.childByField f = some c) :
    c ∈ n.children := by
  exact List.mem_of_find?_eq_some h

theorem childByField_fieldName {n c : Node} {f : String} (h : n.childByField f = some c) :
    c.fieldName = some f := by
  have := List.find?_some h
  simpa using this

theorem child_mem {n c : Node} {i : Nat} (h : n.child i = some c) : c ∈ n.children := by
  have h' : n.children[i]? = some c := h
  rw [List.getElem?_eq_some] at h'
  obtain ⟨hlt, rfl⟩ := h'
  exact List.getElem_mem hlt

theorem childrenByField_mem {n c : Node} {f : String} (h : c ∈ n.childrenByField f) :
    c ∈ n.children :=
  (List.mem_filter.mp h).1

theorem size_eq (n : Node) : n.size = 1 + Node.sizeL n.children := by
  cases n; rfl

theorem size_pos (n : Node) : 1 ≤ n.size := by
  rw [size_eq]; omega

theorem mem_sizeL : ∀ {cs : List Node} {c : Node}, c ∈ cs → c.size + 1 ≤ Node.sizeL cs
  | c0 :: rest, c, hmem => by
      rw [Node.sizeL]
      rcases List.mem_cons.mp hmem with rfl | hmem
      · have := size_pos c
        omega
      · have := mem_sizeL hmem
        omega

theorem child_size_lt {n c : Node} (hc : c ∈ n.children) : c.size + 2 ≤ n.size := by
  have h1 := mem_sizeL hc
  have h2 := size_eq n
  omega

theorem sizeL_filter_le (p : Node → Bool) : ∀ cs : List Node,
    Node.sizeL (cs.filter p) ≤ Node.sizeL cs
  | [] => by simp [Node.sizeL]
  | c :: cs => by
      rw [List.filter_cons]
      split
      · rw [Node.sizeL, Node.sizeL]
        have := sizeL_filter_le p cs
        omega
      · rw [Node.sizeL]
        have := sizeL_filter_le p cs
        have := size_pos c
        omega

theorem sizeL_dropLast : ∀ cs : List Node, Node.sizeL cs.dropLast ≤ Node.sizeL cs
  | [] => by simp [Node.sizeL]
  | [c] => by
      show Node.sizeL [] ≤ Node.sizeL [c]
      rw [Node.sizeL, Node.sizeL]
      have := size_pos c
      omega
  | c :: c2 :: cs => by
      rw [List.dropLast_cons₂, Node.sizeL, Node.sizeL]
      have := sizeL_dropLast (c2 :: cs)
      omega

theorem two_mem_sizeL : ∀ {l : List Node} {a b : Node}, a ∈ l → b ∈ l → a ≠ b →
    a.size + b.size + 2 ≤ Node.sizeL l
  | c :: rest, a, b, ha, hb, hne => by
      rw [Node.sizeL]
      rcases List.mem_cons.mp ha with rfl | ha'
      · rcases List.mem_cons.mp hb with rfl | hb'
        · exact absurd rfl hne
        · have := mem_sizeL hb'
          omega
      · rcases List.mem_cons.mp hb with rfl | hb'
        · have := mem_sizeL ha'
          omega
        · have := two_mem_sizeL ha' hb' hne
          omega

/-! ## Totality combinators -/

/-- Total extraction computation: every start state yields an ok result. -/
def TotE {α : Type} (m : Extract α) : Prop := ∀ st, ∃ v, m st = .ok v

theorem tot_bind {α β : Type} {m : Extract α} {k : α → Extract β} (hm : TotE m)
    (hk : ∀ a, TotE (k a)) : TotE (m >>= k) := by
  intro st
  obtain ⟨⟨a, s'⟩, h⟩ := hm st
  obtain ⟨v, h2⟩ := hk a s'
  exact ⟨v, by rw [Extract.bind_apply, h]; exact h2⟩

theorem tot_pure {α : Type} (a : α) : TotE (pure a : Extract α) :=
  fun st => ⟨(a, st), rfl⟩

theorem tot_need {α : Type} {o : Option α} {a : α} (h : o = some a) (msg : String) :
    TotE (need o msg) := by
  subst h
  exact fun st => ⟨(a, st), rfl⟩

theorem tot_get_guid : TotE get_guid := fun st => ⟨(st + 1, st + 1), rfl⟩

theorem tot_liftE {α : Type} {m : Except RunErr α} {a : α} (h : m = .ok a) :
    TotE (liftE m) := by
  subst h
  exact fun st => ⟨(a, st), rfl⟩

end RefactAst

namespace RefactAst

/-! ## Queue measures -/

def candSize : AsgnCand → Nat
  | ⟨some (l, _), some t, _⟩ => l.size + t.size + 1
  | ⟨some (l, _), none, _⟩ => l.size + 1
  | ⟨none, some t, _⟩ => t.size + 1
  | ⟨none, none, _⟩ => 1

def qSize : List AsgnCand → Nat
  | [] => 0
  | c :: cs => candSize c + qSize cs

def apSize : List (Node × List Node) → Nat
  | [] => 0
  | (c, _) :: cs => c.size + 1 + apSize cs

theorem candSize_pos (c : AsgnCand) : 1 ≤ candSize c := by
  rcases c with ⟨_ | ⟨l, A⟩, _ | t, r⟩ <;> simp only [candSize] <;> omega

theorem qSize_append : ∀ a b : List AsgnCand, qSize (a ++ b) = qSize a + qSize b
  | [], b => by simp [qSize]
  | c :: a, b => by
      rw [List.cons_append, qSize, qSize, qSize_append a b]
      omega

theorem apSize_append : ∀ a b : List (Node × List Node), apSize (a ++ b) = apSize a + apSize b
  | [], b => by simp [apSize]
  | (c, A) :: a, b => by
      rw [List.cons_append, apSize, apSize, apSize_append a b]
      omega

theorem qSize_map_left (A : List Node) (mk2 : Node → AsgnCand)
    (hmk : ∀ l, candSize (mk2 l) = l.size + 1) :
    ∀ ls : List Node, qSize (ls.map mk2) = Node.sizeL ls
  | [] => by simp [qSize, Node.sizeL]
  | l :: ls => by
      rw [List.map_cons, qSize, Node.sizeL, qSize_map_left A mk2 hmk ls, hmk]
      omega

theorem qSize_zip_map_le (A : List Node) (r0 : List Node) :
    ∀ (ls : List Node) (rs : List (Option Node)),
      qSize ((ls.zip rs).map (fun p => ⟨some (p.1, A), none, p.2⟩)) ≤ Node.sizeL ls
  | [], rs => by simp [qSize, Node.sizeL]
  | l :: ls, [] => by simp [qSize, Node.sizeL]
  | l :: ls, r :: rs => by
      rw [List.zip_cons_cons, List.map_cons, qSize, Node.sizeL]
      have := qSize_zip_map_le A r0 ls rs
      simp only [candSize]
      omega

theorem apSize_map_children (c : Node) (A : List Node) :
    ∀ cs : List Node, apSize (cs.map (fun ch => (ch, c :: A))) = Node.sizeL cs
  | [] => by simp [apSize, Node.sizeL]
  | x :: cs => by
      rw [List.map_cons, apSize, Node.sizeL, apSize_map_children c A cs]
      omega

/-- import_names never fails when every name child is a dotted name or an
aliased import with a name field. -/
theorem import_names_total (base : List String) (n : Node) (path : String) (g : Nat) :
    ∀ cs : List Node,
      (∀ c ∈ cs, c.kind = "dotted_name" ∨
        (c.kind = "aliased_import" ∧ (c.childByField "name").isSome)) →
      TotE (import_names base n path g cs)
  | [], _ => tot_pure []
  | c :: cs, h => by
      rw [import_names]
      apply tot_bind tot_get_guid
      intro gd
      rcases h c (by simp) with hk | ⟨hk, hnm⟩
      · rw [hk]
        have hpc : splitCh '.' c.text ≠ [] := splitCh_ne_nil _ _
        have hfull : base ++ splitCh '.' c.text ≠ [] := by
          intro hcon
          exact hpc (List.append_eq_nil.mp hcon).2
        obtain ⟨nm, hnm2⟩ := Option.isSome_iff_exists.mp (List.getLast?_isSome.mpr hfull)
        apply tot_bind (tot_need hnm2 _)
        intro a
        apply tot_bind (import_names_total base n path g cs (fun x hx => h x (by simp [hx])))
        intro more
        exact tot_pure _
      · rw [hk]
        obtain ⟨nmn, hnmn⟩ := Option.isSome_iff_exists.mp hnm
        rw [hnmn]
        have hpc : splitCh '.' nmn.text ≠ [] := splitCh_ne_nil _ _
        have hfull : base ++ splitCh '.' nmn.text ≠ [] := by
          intro hcon
          exact hpc (List.append_eq_nil.mp hcon).2
        obtain ⟨nm, hnm2⟩ := Option.isSome_iff_exists.mp (List.getLast?_isSome.mpr hfull)
        apply tot_bind (tot_need hnm2 _)
        intro a
        apply tot_bind (import_names_total base n path g cs (fun x hx => h x (by simp [hx])))
        intro more
        exact tot_pure _

end RefactAst

namespace RefactAst

/-! ## Well-formedness of worklist queues -/

/-- Every left/type node stored in the assignment worklist is well-formed. -/
def candsWF (q : List AsgnCand) : Prop :=
  ∀ c ∈ q, (∀ l A, c.left = some (l, A) → wfB l = true) ∧
           (∀ t, c.type_ = some t → wfB t = true)

/-- Every node stored in the as_pattern worklist is well-formed. -/
def apWF (q : List (Node × List Node)) : Prop := ∀ p ∈ q, wfB p.1 = true

theorem candsWF_tail {c : AsgnCand} {q : List AsgnCand} (h : candsWF (c :: q)) : candsWF q :=
  fun x hx => h x (List.mem_cons_of_mem c hx)

theorem candsWF_append {a b : List AsgnCand} (ha : candsWF a) (hb : candsWF b) :
    candsWF (a ++ b) := by
  intro x hx
  rcases List.mem_append.mp hx with h | h
  · exact ha x h
  · exact hb x h

theorem apWF_tail {c : Node × List Node} {q : List (Node × List Node)} (h : apWF (c :: q)) :
    apWF q :=
  fun x hx => h x (List.mem_cons_of_mem c hx)

theorem apWF_append {a b : List (Node × List Node)} (ha : apWF a) (hb : apWF b) :
    apWF (a ++ b) := by
  intro x hx
  rcases List.mem_append.mp hx with h | h
  · exact ha x h
  · exact hb x h

theorem length_pos_of_not_isEmpty {l : List Node} (h : (!l.isEmpty) = true) : 0 < l.length := by
  simp only [Bool.not_eq_true', List.isEmpty_eq_false_iff_exists_mem] at h
  obtain ⟨x, hx⟩ := h
  exact List.length_pos.mpr (List.ne_nil_of_mem hx)

theorem child_total {n : Node} {i : Nat} (h : i < n.children.length) :
    ∃ c, n.child i = some c ∧ c ∈ n.children := by
  refine ⟨n.children[i], ?_, List.getElem_mem h⟩
  show n.children[i]? = some n.children[i]
  exact List.getElem?_eq_getElem h

end RefactAst

namespace RefactAst

/-! ## The adequacy induction: enough fuel on a well-formed tree means no failure -/

/-- All extraction routines succeed at this fuel level whenever their input is
well-formed and small enough for the measure budget. -/
def Adequate (fuel : Nat) : Prop :=
  (∀ n : Node, 3 * n.size < fuel → wfB n = true →
     ∃ v, parse_type fuel n = .ok v) ∧
  (∀ ns : List Node, 3 * Node.sizeL ns + 2 < fuel → (∀ c ∈ ns, wfB c = true) →
     ∃ v, parse_type_list fuel ns = .ok v) ∧
  (∀ n : Node, 3 * n.size + 1 < fuel → wfB n = true →
     ∃ v, parse_function_arg fuel n = .ok v) ∧
  (∀ ns : List Node, 3 * Node.sizeL ns + 2 < fuel → (∀ c ∈ ns, wfB c = true) →
     ∃ v, parse_function_arg_list fuel ns = .ok v) ∧
  (∀ (n : Node) (anc : List Node) (path : String) (g : Nat) (e fb : Bool),
     6 * n.size + 2 < fuel → wfB n = true →
     TotE (parse_usages fuel n anc path g e fb)) ∧
  (∀ (ns : List Node) (anc : List Node) (path : String) (g : Nat) (e fb : Bool),
     6 * Node.sizeL ns + 4 < fuel → (∀ c ∈ ns, wfB c = true) →
     TotE (parse_usages_list fuel ns anc path g e fb)) ∧
  (∀ (n : Node) (anc : List Node) (path : String) (g : Nat) (e : Bool),
     6 * n.size + 1 < fuel → wfB n = true →
     TotE (parse_assignment fuel n anc path g e)) ∧
  (∀ (n : Node) (q : List AsgnCand) (flag icf : Bool) (path : String) (g : Nat) (e : Bool),
     6 * qSize q < fuel → candsWF q →
     TotE (parse_assignment_cands fuel n q flag icf path g e)) ∧
  (∀ (q : List (Node × List Node)) (n : Node) (vt path : String) (g : Nat) (e : Bool),
     6 * apSize q < fuel → apWF q →
     TotE (as_pattern_cands fuel q n vt path g e)) ∧
  (∀ (n : Node) (anc : List Node) (path : String) (g : Nat) (e : Bool),
     6 * n.size + 1 < fuel → wfB n = true →
     TotE (parse_struct_declaration fuel n anc path g e)) ∧
  (∀ (n : Node) (anc : List Node) (path : String) (g : Nat) (e : Bool),
     6 * n.size + 1 < fuel → wfB n = true →
     TotE (parse_function_declaration fuel n anc path g e)) ∧
  (∀ (n : Node) (anc : List Node) (path : String) (g : Nat) (e : Bool),
     n.kind = "call" → 6 * n.size + 1 < fuel → wfB n = true →
     TotE (parse_call_expression fuel n anc path g e)) ∧
  (∀ (ns : List Node) (anc : List Node) (path : String) (g : Nat) (e : Bool),
     6 * Node.sizeL ns + 2 < fuel → (∀ c ∈ ns, wfB c = true) →
     TotE (call_args fuel ns anc path g e)) ∧
  (∀ (n : Node) (path : String) (g : Nat),
     6 * n.size < fuel → wfB n = true →
     TotE (find_error_usages fuel n path g)) ∧
  (∀ (ns : List Node) (path : String) (g : Nat),
     6 * Node.sizeL ns + 1 < fuel → (∀ c ∈ ns, wfB c = true) →
     TotE (find_error_usages_list fuel ns path g)) ∧
  (∀ (n : Node) (path : String) (g : Nat),
     6 * n.size + 1 < fuel → wfB n = true →
     TotE (parse_error_usages fuel n path g)) ∧
  (∀ (ns : List Node) (path : String) (g : Nat),
     6 * Node.sizeL ns + 2 < fuel → (∀ c ∈ ns, wfB c = true) →
     TotE (parse_error_usages_list fuel ns path g))

def Adequate.type {fuel : Nat} (h : Adequate fuel) :
    ∀ n : Node, 3 * n.size < fuel → wfB n = true → ∃ v, parse_type fuel n = .ok v := h.1

def Adequate.type_list {fuel : Nat} (h : Adequate fuel) :
    ∀ ns : List Node, 3 * Node.sizeL ns + 2 < fuel → (∀ c ∈ ns, wfB c = true) →
      ∃ v, parse_type_list fuel ns = .ok v := h.2.1

def Adequate.farg {fuel : Nat} (h : Adequate fuel) :
    ∀ n : Node, 3 * n.size + 1 < fuel → wfB n = true →
      ∃ v, parse_function_arg fuel n = .ok v := h.2.2.1

def Adequate.farg_list {fuel : Nat} (h : Adequate fuel) :
    ∀ ns : List Node, 3 * Node.sizeL ns + 2 < fuel → (∀ c ∈ ns, wfB c = true) →
      ∃ v, parse_function_arg_list fuel ns = .ok v := h.2.2.2.1

def Adequate.usages {fuel : Nat} (h : Adequate fuel) :
    ∀ (n : Node) (anc : List Node) (path : String) (g : Nat) (e fb : Bool),
      6 * n.size + 2 < fuel → wfB n = true →
      TotE (parse_usages fuel n anc path g e fb) := h.2.2.2.2.1

def Adequate.usages_list {fuel : Nat} (h : Adequate fuel) :
    ∀ (ns : List Node) (anc : List Node) (path : String) (g : Nat) (e fb : Bool),
      6 * Node.sizeL ns + 4 < fuel → (∀ c ∈ ns, wfB c = true) →
      TotE (parse_usages_list fuel ns anc path g e fb) := h.2.2.2.2.2.1

def Adequate.asgn {fuel : Nat} (h : Adequate fuel) :
    ∀ (n : Node) (anc : List Node) (path : String) (g : Nat) (e : Bool),
      6 * n.size + 1 < fuel → wfB n = true →
      TotE (parse_assignment fuel n anc path g e) := h.2.2.2.2.2.2.1

def Adequate.asgn_cands {fuel : Nat} (h : Adequate fuel) :
    ∀ (n : Node) (q : List AsgnCand) (flag icf : Bool) (path : String) (g : Nat) (e : Bool),
      6 * qSize q < fuel → candsWF q →
      TotE (parse_assignment_cands fuel n q flag icf path g e) := h.2.2.2.2.2.2.2.1

def Adequate.ap_cands {fuel : Nat} (h : Adequate fuel) :
    ∀ (q : List (Node × List Node)) (n : Node) (vt path : String) (g : Nat) (e : Bool),
      6 * apSize q < fuel → apWF q →
      TotE (as_pattern_cands fuel q n vt path g e) := h.2.2.2.2.2.2.2.2.1

def Adequate.struct {fuel : Nat} (h : Adequate fuel) :
    ∀ (n : Node) (anc : List Node) (path : String) (g : Nat) (e : Bool),
      6 * n.size + 1 < fuel → wfB n = true →
      TotE (parse_struct_declaration fuel n anc path g e) := h.2.2.2.2.2.2.2.2.2.1

def Adequate.fn {fuel : Nat} (h : Adequate fuel) :
    ∀ (n : Node) (anc : List Node) (path : String) (g : Nat) (e : Bool),
      6 * n.size + 1 < fuel → wfB n = true →
      TotE (parse_function_declaration fuel n anc path g e) := h.2.2.2.2.2.2.2.2.2.2.1

def Adequate.call {fuel : Nat} (h : Adequate fuel) :
    ∀ (n : Node) (anc : List Node) (path : String) (g : Nat) (e : Bool),
      n.kind = "call" → 6 * n.size + 1 < fuel → wfB n = true →
      TotE (parse_call_expression fuel n anc path g e) := h.2.2.2.2.2.2.2.2.2.2.2.1

def Adequate.cargs {fuel : Nat} (h : Adequate fuel) :
    ∀ (ns : List Node) (anc : List Node) (path : String) (g : Nat) (e : Bool),
      6 * Node.sizeL ns + 2 < fuel → (∀ c ∈ ns, wfB c = true) →
      TotE (call_args fuel ns anc path g e) := h.2.2.2.2.2.2.2.2.2.2.2.2.1

def Adequate.ferr {fuel : Nat} (h : Adequate fuel) :
    ∀ (n : Node) (path : String) (g : Nat),
      6 * n.size < fuel → wfB n = true →
      TotE (find_error_usages fuel n path g) := h.2.2.2.2.2.2.2.2.2.2.2.2.2.1

def Adequate.ferr_list {fuel : Nat} (h : Adequate fuel) :
    ∀ (ns : List Node) (path : String) (g : Nat),
      6 * Node.sizeL ns + 1 < fuel → (∀ c ∈ ns, wfB c = true) →
      TotE (find_error_usages_list fuel ns path g) := h.2.2.2.2.2.2.2.2.2.2.2.2.2.2.1

def Adequate.perr {fuel : Nat} (h : Adequate fuel) :
    ∀ (n : Node) (path : String) (g : Nat),
      6 * n.size + 1 < fuel → wfB n = true →
      TotE (parse_error_usages fuel n path g) := h.2.2.2.2.2.2.2.2.2.2.2.2.2.2.2.1

def Adequate.perr_list {fuel : Nat} (h : Adequate fuel) :
    ∀ (ns : List Node) (path : String) (g : Nat),
      6 * Node.sizeL ns + 2 < fuel → (∀ c ∈ ns, wfB c = true) →
      TotE (parse_error_usages_list fuel ns path g) := h.2.2.2.2.2.2.2.2.2.2.2.2.2.2.2.2

end RefactAst

namespace RefactAst

/-! ## Except-monad totality helpers -/

theorem exc_bind_eq {α β : Type} {m : Except RunErr α} {k : α → Except RunErr β} {a : α}
    (hm : m = .ok a) (hk : ∃ v, k a = .ok v) : ∃ v, (m >>= k) = .ok v := by
  obtain ⟨v, hv⟩ := hk
  exact ⟨v, by rw [hm]; exact hv⟩

theorem needX_ok {α : Type} {o : Option α} {a : α} (h : o = some a) (msg : String) :
    needX o msg = .ok a := by
  rw [h]; rfl

theorem need_ok {α : Type} {o : Option α} {a : α} (h : o = some a) (msg : String) :
    ∀ st, need o msg st = .ok (a, st) := by
  subst h; intro st; rfl

theorem liftE_ok2 {α : Type} {m : Except RunErr α} {a : α} (h : m = .ok a) :
    ∀ st, liftE m st = .ok (a, st) := by
  subst h; intro st; rfl

/-- Bind with a computation that returns a known value without touching state. -/
theorem tot_bind_ret {α β : Type} {m : Extract α} {k : α → Extract β} {a : α}
    (hm : ∀ st, m st = .ok (a, st)) (hk : TotE (k a)) : TotE (m >>= k) := by
  intro st
  obtain ⟨v, hv⟩ := hk st
  exact ⟨v, by rw [Extract.bind_apply, hm st]; exact hv⟩

/-! ## Step lemmas for the pure parsers -/

theorem step_type {fuel : Nat} (ih : Adequate fuel) :
    ∀ n : Node, 3 * n.size < fuel + 1 → wfB n = true →
      ∃ v, parse_type (fuel + 1) n = .ok v := by
  intro n hm hwf
  rw [parse_type]
  split
  case _ heq | _ heq =>
    -- "type" | "splat_type": recurse into child 0
    have hl := wfB_local hwf
    rw [localWF, heq] at hl
    simp at hl
    obtain ⟨c, hc, hcm⟩ := child_total (List.length_pos.mpr hl)
    refine exc_bind_eq (needX_ok hc _) ?_
    have := child_size_lt hcm
    exact ih.type c (by omega) (wfB_child hwf hcm)
  case _ heq =>
    -- identifier
    exact ⟨_, rfl⟩
  case _ heq | _ heq | _ heq | _ heq | _ heq =>
    -- pod kinds
    exact ⟨_, rfl⟩
  case _ heq =>
    -- generic_type
    have hl := wfB_local hwf
    rw [localWF, heq] at hl
    simp at hl
    obtain ⟨c0, hc0, hc0m⟩ := child_total (show 0 < n.children.length by omega)
    obtain ⟨c1, hc1, hc1m⟩ := child_total (show 1 < n.children.length by omega)
    refine exc_bind_eq (needX_ok hc0 _) ?_
    refine exc_bind_eq (needX_ok hc1 _) ?_
    have hsz := child_size_lt hc1m
    have hsz1 : Node.sizeL c1.children + 1 = c1.size := by rw [size_eq c1]; omega
    obtain ⟨v, hv⟩ := ih.type_list c1.children (by omega)
      (fun c hcm2 => wfB_child (wfB_child hwf hc1m) hcm2)
    exact exc_bind_eq hv ⟨_, rfl⟩
  case _ heq =>
    -- attribute
    have hl := wfB_local hwf
    rw [localWF, heq] at hl
    simp at hl
    obtain ⟨at_, hat⟩ := Option.isSome_iff_exists.mp hl.1
    obtain ⟨obj, hobj⟩ := Option.isSome_iff_exists.mp hl.2
    refine exc_bind_eq (needX_ok hat _) ?_
    refine exc_bind_eq (needX_ok hobj _) ?_
    have hom := childByField_mem hobj
    have := child_size_lt hom
    obtain ⟨v, hv⟩ := ih.type obj (by omega) (wfB_child hwf hom)
    exact exc_bind_eq hv ⟨_, rfl⟩
  case _ heq =>
    -- call
    have hl := wfB_local hwf
    rw [localWF, heq] at hl
    simp at hl
    obtain ⟨f, hf⟩ := Option.isSome_iff_exists.mp hl.1
    refine exc_bind_eq (needX_ok hf _) ?_
    have hfm := childByField_mem hf
    have := child_size_lt hfm
    obtain ⟨v, hv⟩ := ih.type f (by omega) (wfB_child hwf hfm)
    exact exc_bind_eq hv ⟨_, rfl⟩
  case _ =>
    exact ⟨_, rfl⟩

theorem parse_type_list_succ (fuel : Nat) (ns : List Node) :
    parse_type_list (fuel + 1) ns = (match ns with
    | [] => .ok []
    | c :: cs => do
        let t? ← parse_type fuel c
        let rest ← parse_type_list fuel cs
        .ok (match t? with
             | some t => t :: rest
             | none => rest)) := rfl

theorem step_type_list {fuel : Nat} (ih : Adequate fuel) :
    ∀ ns : List Node, 3 * Node.sizeL ns + 2 < fuel + 1 → (∀ c ∈ ns, wfB c = true) →
      ∃ v, parse_type_list (fuel + 1) ns = .ok v := by
  intro ns hm hwf
  rw [parse_type_list_succ]
  split
  · exact ⟨_, rfl⟩
  case _ c cs =>
    rw [Node.sizeL] at hm
    have hcp := size_pos c
    obtain ⟨v1, hv1⟩ := ih.type c (by omega) (hwf c (by simp))
    obtain ⟨v2, hv2⟩ := ih.type_list cs (by omega) (fun x hx => hwf x (by simp [hx]))
    exact exc_bind_eq hv1 (exc_bind_eq hv2 ⟨_, rfl⟩)

end RefactAst

namespace RefactAst

theorem exc_bind {α β : Type} {m : Except RunErr α} {k : α → Except RunErr β}
    (hm : ∃ a, m = .ok a) (hk : ∀ a, ∃ v, k a = .ok v) : ∃ v, (m >>= k) = .ok v := by
  obtain ⟨a, ha⟩ := hm
  exact exc_bind_eq ha (hk a)

@[simp] theorem exc_ok_bind {α β : Type} (a : α) (k : α → Except RunErr β) :
    (Except.ok a : Except RunErr α) >>= k = k a := rfl

theorem step_farg {fuel : Nat} (ih : Adequate fuel) :
    ∀ n : Node, 3 * n.size + 1 < fuel + 1 → wfB n = true →
      ∃ v, parse_function_arg (fuel + 1) n = .ok v := by
  intro n hm hwf
  have tail : ∀ (args : List FunctionArg)
      (jp : List FunctionArg → Except RunErr (List FunctionArg)),
      (∀ a, ∃ v, jp a = .ok v) →
      ∃ v, (match n.childByField "type" with
            | none => Except.ok args >>= jp
            | some type_node =>
                if args.isEmpty = true then Except.ok args >>= jp
                else do
                  let dt? ← parse_type fuel type_node
                  (Except.ok (match dt? with
                     | none => args
                     | some dtype => args.map (fun a : FunctionArg =>
                         match a.type_ with
                         | some t =>
                             FunctionArg.mk a.name (some (t.setInference dtype.inference_info))
                         | none => FunctionArg.mk a.name (some dtype))) >>= jp)) = .ok v := by
    intro args jp hjp
    split
    · simp only [exc_ok_bind]
      exact hjp args
    case _ tn heq =>
      split
      · simp only [exc_ok_bind]
        exact hjp args
      · have hmem := childByField_mem heq
        have := child_size_lt hmem
        obtain ⟨v, hv⟩ := ih.type tn (by omega) (wfB_child hwf hmem)
        refine exc_bind_eq hv ?_
        simp only [exc_ok_bind]
        exact hjp _
  rw [parse_function_arg]
  split
  case _ heq | _ heq =>
    -- identifier | typed_parameter
    refine exc_bind_eq rfl ?_
    exact tail _ _ (fun a => ⟨_, rfl⟩)
  case _ heq | _ heq =>
    -- typed_default_parameter | default_parameter
    have hl := wfB_local hwf
    rw [localWF, heq] at hl
    simp at hl
    obtain ⟨nm, hnm⟩ := Option.isSome_iff_exists.mp hl
    rw [needX_ok hnm]
    refine exc_bind_eq rfl ?_
    split
    · refine exc_bind_eq rfl ?_
      exact tail _ _ (fun a => ⟨_, rfl⟩)
    · have hmem := childByField_mem hnm
      have := child_size_lt hmem
      obtain ⟨v, hv⟩ := ih.farg nm (by omega) (wfB_child hwf hmem)
      refine exc_bind_eq hv ?_
      exact tail _ _ (fun a => ⟨_, rfl⟩)
  case _ heq =>
    -- tuple_pattern
    have hl := wfB_local hwf
    rw [localWF, heq] at hl
    simp at hl
    split
    case _ heq2 => exact absurd heq2 hl
    case _ cs heq2 =>
      have hsz : Node.sizeL n.children + 1 = n.size := by rw [size_eq n]; omega
      have hd := sizeL_dropLast n.children
      obtain ⟨v, hv⟩ := ih.farg_list n.children.dropLast (by omega)
        (fun c hc => wfB_child hwf (List.dropLast_subset _ hc))
      refine exc_bind_eq hv ?_
      exact tail _ _ (fun a => ⟨_, rfl⟩)
  case _ =>
    refine exc_bind_eq rfl ?_
    exact tail _ _ (fun a => ⟨_, rfl⟩)

theorem parse_function_arg_list_succ (fuel : Nat) (ns : List Node) :
    parse_function_arg_list (fuel + 1) ns = (match ns with
    | [] => .ok []
    | c :: cs => do
        let a ← parse_function_arg fuel c
        let rest ← parse_function_arg_list fuel cs
        .ok (a ++ rest)) := rfl

theorem step_farg_list {fuel : Nat} (ih : Adequate fuel) :
    ∀ ns : List Node, 3 * Node.sizeL ns + 2 < fuel + 1 → (∀ c ∈ ns, wfB c = true) →
      ∃ v, parse_function_arg_list (fuel + 1) ns = .ok v := by
  intro ns hm hwf
  rw [parse_function_arg_list_succ]
  split
  · exact ⟨_, rfl⟩
  case _ c cs =>
    rw [Node.sizeL] at hm
    have hcp := size_pos c
    obtain ⟨v1, hv1⟩ := ih.farg c (by omega) (hwf c (by simp))
    obtain ⟨v2, hv2⟩ := ih.farg_list cs (by omega) (fun x hx => hwf x (by simp [hx]))
    exact exc_bind_eq hv1 (exc_bind_eq hv2 ⟨_, rfl⟩)

end RefactAst

namespace RefactAst

/-! ## Step lemmas for the error-usage scanners -/

theorem find_error_usages_succ (fuel : Nat) (n : Node) (path : String) (g : Nat) :
    find_error_usages (fuel + 1) n path g = find_error_usages_list fuel n.children path g := rfl

theorem find_error_usages_list_succ (fuel : Nat) (ns : List Node) (path : String) (g : Nat) :
    find_error_usages_list (fuel + 1) ns path g = (match ns with
    | [] => pure []
    | c :: cs => do
        let us ←
          if c.kind == "ERROR" then parse_error_usages fuel c path g
          else pure []
        let rest ← find_error_usages_list fuel cs path g
        pure (us ++ rest)) := rfl

theorem parse_error_usages_list_succ (fuel : Nat) (ns : List Node) (path : String) (g : Nat) :
    parse_error_usages_list (fuel + 1) ns path g = (match ns with
    | [] => pure []
    | c :: cs => do
        let us ← parse_error_usages fuel c path g
        let rest ← parse_error_usages_list fuel cs path g
        pure (us ++ rest)) := rfl

theorem step_perr {fuel : Nat} (ih : Adequate fuel) :
    ∀ (n : Node) (path : String) (g : Nat),
      6 * n.size + 1 < fuel + 1 → wfB n = true →
      TotE (parse_error_usages (fuel + 1) n path g) := by
  intro n path g hm hwf
  rw [parse_error_usages]
  split
  case _ heq =>
    -- identifier
    split
    · exact tot_pure _
    · exact tot_bind tot_get_guid (fun gd => tot_pure _)
  case _ heq =>
    -- attribute
    have hl := wfB_local hwf
    rw [localWF, heq] at hl
    simp at hl
    obtain ⟨at_, hat⟩ := Option.isSome_iff_exists.mp hl.1
    obtain ⟨obj, hobj⟩ := Option.isSome_iff_exists.mp hl.2
    refine tot_bind_ret (need_ok hat _) ?_
    refine tot_bind tot_get_guid (fun gd => ?_)
    refine tot_bind_ret (need_ok hobj _) ?_
    have hmem := childByField_mem hobj
    have := child_size_lt hmem
    refine tot_bind (ih.perr obj path g (by omega) (wfB_child hwf hmem)) (fun us => ?_)
    exact tot_pure _
  case _ =>
    have hsz : Node.sizeL n.children + 1 = n.size := by rw [size_eq n]; omega
    exact ih.perr_list n.children path g (by omega) (fun c hc => wfB_child hwf hc)

theorem step_perr_list {fuel : Nat} (ih : Adequate fuel) :
    ∀ (ns : List Node) (path : String) (g : Nat),
      6 * Node.sizeL ns + 2 < fuel + 1 → (∀ c ∈ ns, wfB c = true) →
      TotE (parse_error_usages_list (fuel + 1) ns path g) := by
  intro ns path g hm hwf
  rw [parse_error_usages_list_succ]
  split
  · exact tot_pure _
  case _ c cs =>
    rw [Node.sizeL] at hm
    have hcp := size_pos c
    refine tot_bind (ih.perr c path g (by omega) (hwf c (by simp))) (fun us => ?_)
    refine tot_bind (ih.perr_list cs path g (by omega) (fun x hx => hwf x (by simp [hx])))
      (fun rest => ?_)
    exact tot_pure _

theorem step_ferr {fuel : Nat} (ih : Adequate fuel) :
    ∀ (n : Node) (path : String) (g : Nat),
      6 * n.size < fuel + 1 → wfB n = true →
      TotE (find_error_usages (fuel + 1) n path g) := by
  intro n path g hm hwf
  rw [find_error_usages_succ]
  have hsz : Node.sizeL n.children + 1 = n.size := by rw [size_eq n]; omega
  exact ih.ferr_list n.children path g (by omega) (fun c hc => wfB_child hwf hc)

theorem step_ferr_list {fuel : Nat} (ih : Adequate fuel) :
    ∀ (ns : List Node) (path : String) (g : Nat),
      6 * Node.sizeL ns + 1 < fuel + 1 → (∀ c ∈ ns, wfB c = true) →
      TotE (find_error_usages_list (fuel + 1) ns path g) := by
  intro ns path g hm hwf
  rw [find_error_usages_list_succ]
  split
  · exact tot_pure _
  case _ c cs =>
    rw [Node.sizeL] at hm
    have hcp := size_pos c
    have htail : TotE (find_error_usages_list fuel cs path g) :=
      ih.ferr_list cs path g (by omega) (fun x hx => hwf x (by simp [hx]))
    dsimp only
    split
    · refine tot_bind (ih.perr c path g (by omega) (hwf c (by simp))) (fun us => ?_)
      exact tot_bind htail (fun rest => tot_pure _)
    · refine tot_bind (tot_pure []) (fun us => ?_)
      exact tot_bind htail (fun rest => tot_pure _)

end RefactAst

namespace RefactAst

theorem parse_usages_list_succ (fuel : Nat) (ns : List Node) (anc : List Node) (path : String)
    (g : Nat) (e fb : Bool) :
    parse_usages_list (fuel + 1) ns anc path g e fb = (match ns with
    | [] => pure []
    | c :: cs => do
        let us ← parse_usages fuel c anc path g e fb
        let rest ← parse_usages_list fuel cs anc path g e fb
        pure (us ++ rest)) := rfl

theorem call_args_succ (fuel : Nat) (ns : List Node) (anc : List Node) (path : String)
    (g : Nat) (e : Bool) :
    call_args (fuel + 1) ns anc path g e = (match ns with
    | [] => pure []
    | c :: cs => do
        let us ←
          if strContains SPECIAL_SYMBOLS c.text then pure []
          else parse_usages fuel c anc path g e false
        let rest ← call_args fuel cs anc path g e
        pure (us ++ rest)) := rfl

theorem step_usages_list {fuel : Nat} (ih : Adequate fuel) :
    ∀ (ns : List Node) (anc : List Node) (path : String) (g : Nat) (e fb : Bool),
      6 * Node.sizeL ns + 4 < fuel + 1 → (∀ c ∈ ns, wfB c = true) →
      TotE (parse_usages_list (fuel + 1) ns anc path g e fb) := by
  intro ns anc path g e fb hm hwf
  rw [parse_usages_list_succ]
  split
  · exact tot_pure _
  case _ c cs =>
    rw [Node.sizeL] at hm
    have hcp := size_pos c
    refine tot_bind (ih.usages c anc path g e fb (by omega) (hwf c (by simp))) (fun us => ?_)
    refine tot_bind (ih.usages_list cs anc path g e fb (by omega)
      (fun x hx => hwf x (by simp [hx]))) (fun rest => ?_)
    exact tot_pure _

theorem step_cargs {fuel : Nat} (ih : Adequate fuel) :
    ∀ (ns : List Node) (anc : List Node) (path : String) (g : Nat) (e : Bool),
      6 * Node.sizeL ns + 2 < fuel + 1 → (∀ c ∈ ns, wfB c = true) →
      TotE (call_args (fuel + 1) ns anc path g e) := by
  intro ns anc path g e hm hwf
  rw [call_args_succ]
  split
  · exact tot_pure _
  case _ c cs =>
    rw [Node.sizeL] at hm
    have hcp := size_pos c
    have htail : TotE (call_args fuel cs anc path g e) :=
      ih.cargs cs anc path g e (by omega) (fun x hx => hwf x (by simp [hx]))
    dsimp only
    split
    · refine tot_bind (tot_pure []) (fun us => ?_)
      exact tot_bind htail (fun rest => tot_pure _)
    · refine tot_bind (ih.usages c anc path g e false (by omega) (hwf c (by simp)))
        (fun us => ?_)
      exact tot_bind htail (fun rest => tot_pure _)

end RefactAst

namespace RefactAst

/-! ## Step lemmas for the worklists -/

theorem as_pattern_cands_succ (fuel : Nat) (q : List (Node × List Node)) (n : Node)
    (vt path : String) (g : Nat) (e : Bool) :
    as_pattern_cands (fuel + 1) q n vt path g e = (match q with
    | [] => pure []
    | (c, ancC) :: rest =>
      if strContains SPECIAL_SYMBOLS c.text || c.text == "self" then
        as_pattern_cands fuel rest n vt path g e
      else
        match c.kind with
        | "identifier" => do
            let gd ← get_guid
            let sym : Symbol :=
              { fields := { language := "python", full_range := n.range, file_path := path,
                            parent_guid := some g, guid := gd, name := c.text,
                            is_error := e },
                variant := .variableDefinition (TypeDef.default.setInference (some vt)) }
            let more ← as_pattern_cands fuel rest n vt path g e
            pure (sym :: more)
        | "list" | "set" | "tuple" =>
            as_pattern_cands fuel (rest ++ c.children.map (fun ch => (ch, c :: ancC)))
              n vt path g e
        | _ => do
            let us ← parse_usages fuel c ancC path g e false
            let more ← as_pattern_cands fuel rest n vt path g e
            pure (us ++ more)) := rfl

theorem apWF_children {c : Node} (hc : wfB c = true) (ancC : List Node) :
    apWF (c.children.map (fun ch => (ch, c :: ancC))) := by
  intro p hp
  rw [List.mem_map] at hp
  obtain ⟨ch, hch, rfl⟩ := hp
  exact wfB_child hc hch

theorem step_ap {fuel : Nat} (ih : Adequate fuel) :
    ∀ (q : List (Node × List Node)) (n : Node) (vt path : String) (g : Nat) (e : Bool),
      6 * apSize q < fuel + 1 → apWF q →
      TotE (as_pattern_cands (fuel + 1) q n vt path g e) := by
  intro q n vt path g e hm hq
  rw [as_pattern_cands_succ]
  split
  · exact tot_pure _
  case _ c ancC rest =>
    have hcw : wfB c = true := hq (c, ancC) (by simp)
    have hrest : apWF rest := apWF_tail hq
    rw [apSize] at hm
    have hcp := size_pos c
    have hrec : TotE (as_pattern_cands fuel rest n vt path g e) :=
      ih.ap_cands rest n vt path g e (by omega) hrest
    split
    · exact hrec
    · split
      case _ heq =>
        exact tot_bind tot_get_guid (fun gd => tot_bind hrec (fun more => tot_pure _))
      case _ heq | _ heq | _ heq =>
        have hsz : Node.sizeL c.children + 1 = c.size := by rw [size_eq c]; omega
        refine ih.ap_cands _ n vt path g e ?_ (apWF_append hrest (apWF_children hcw ancC))
        rw [apSize_append, apSize_map_children]
        omega
      case _ =>
        refine tot_bind (ih.usages c ancC path g e false (by omega) hcw) (fun us => ?_)
        exact tot_bind hrec (fun more => tot_pure _)

end RefactAst

namespace RefactAst

theorem parse_assignment_cands_succ (fuel : Nat) (n : Node) (q : List AsgnCand) (flag : Bool)
    (icf : Bool) (path : String) (g : Nat) (e : Bool) :
    parse_assignment_cands (fuel + 1) n q flag icf path g e = (match q with
    | [] => pure []
    | cand :: rest =>
      match cand.left with
      | none => parse_assignment_cands fuel n rest flag icf path g e
      | some (left, ancL) =>
        if strContains SPECIAL_SYMBOLS left.text || left.text == "self" then
          parse_assignment_cands fuel n rest flag icf path g e
        else
          match left.kind with
          | "identifier" => do
              let gd ← get_guid
              let fields : AstSymbolFields :=
                { language := "python", full_range := n.range, file_path := path,
                  parent_guid := some g, guid := gd, name := left.text,
                  is_error := e }
              let sym ←
                if icf then do
                  let t ←
                    match cand.type_ with
                    | some tn => do
                        let dt? ← liftE (parse_type fuel tn)
                        pure (dt?.getD TypeDef.default)
                    | none => pure TypeDef.default
                  pure { fields := fields, variant := SymbolVariant.classFieldDeclaration t }
                else do
                  let t0 ←
                    match cand.type_ with
                    | some tn => do
                        let dt? ← liftE (parse_type fuel tn)
                        pure (dt?.getD TypeDef.default)
                    | none => pure TypeDef.default
                  let t1 :=
                    match cand.right with
                    | some right =>
                        (t0.setInference (some right.text)).setPod (POD_KINDS.contains right.kind)
                    | none => t0
                  pure { fields := fields, variant := SymbolVariant.variableDefinition t1 }
              let more ← parse_assignment_cands fuel n rest flag icf path g e
              pure (sym :: more)
          | "attribute" => do
              let us ← parse_usages fuel left ancL path g e false
              let more ← parse_assignment_cands fuel n rest flag icf path g e
              pure (us ++ more)
          | "list_pattern" | "tuple_pattern" | "pattern_list" =>
              let lefts := left.children.filter (fun c => !(strContains SPECIAL_SYMBOLS c.kind))
              let rights : List (Option Node) :=
                match cand.right with
                | some right =>
                    (right.children.filter
                      (fun c => !(strContains SPECIAL_SYMBOLS c.kind))).map some
                | none => [none]
              let flag' := flag || (lefts.length != rights.length)
              let new_cands : List AsgnCand :=
                if flag' then
                  lefts.map (fun l => ⟨some (l, left :: ancL), none, cand.right⟩)
                else
                  (lefts.zip rights).map (fun p => ⟨some (p.1, left :: ancL), none, p.2⟩)
              parse_assignment_cands fuel n (rest ++ new_cands) flag' icf path g e
          | "list_splat_pattern" =>
              parse_assignment_cands fuel n
                (rest ++ [⟨(left.child 0).map (fun c => (c, left :: ancL)),
                          cand.type_, cand.right⟩])
                flag icf path g e
          | _ => parse_assignment_cands fuel n rest flag icf path g e) := rfl

theorem candSize_left {cand : AsgnCand} {l : Node} {A : List Node}
    (h : cand.left = some (l, A)) : l.size + 1 ≤ candSize cand := by
  rcases cand with ⟨cl, ct, cr⟩
  simp at h
  subst h
  rcases ct with _ | t <;> simp only [candSize] <;> omega

theorem candSize_type {cand : AsgnCand} {t : Node}
    (h : cand.type_ = some t) : t.size + 1 ≤ candSize cand := by
  rcases cand with ⟨cl, ct, cr⟩
  simp at h
  subst h
  rcases cl with _ | ⟨l, A⟩ <;> simp only [candSize] <;> omega

end RefactAst

namespace RefactAst

theorem candSize_splat {left : Node} {ancL A : List Node} {ct cr : Option Node} :
    candSize ⟨(left.child 0).map (fun c => (c, left :: ancL)), ct, cr⟩ + 1 ≤
    candSize ⟨some (left, A), ct, cr⟩ := by
  rcases h0 : left.child 0 with _ | c0
  · rcases ct with _ | t <;> simp only [Option.map_none, Option.map_none', candSize] <;>
      have := size_pos left <;> omega
  · have := child_size_lt (child_mem h0)
    rcases ct with _ | t <;> simp only [Option.map_some, Option.map_some', candSize] <;> omega

theorem candsWF_map_flag {left : Node} (hl : wfB left = true) (ancL : List Node)
    (r? : Option Node) (ls : List Node) (hls : ∀ l ∈ ls, l ∈ left.children) :
    candsWF (ls.map (fun l => ⟨some (l, left :: ancL), none, r?⟩)) := by
  intro c hc
  rw [List.mem_map] at hc
  obtain ⟨l, hlm, rfl⟩ := hc
  refine ⟨fun l' A' hh => ?_, fun t ht => by cases ht⟩
  have h1 : l = l' := congrArg Prod.fst (Option.some.inj hh)
  exact h1 ▸ wfB_child hl (hls l hlm)

theorem candsWF_map_zip {left : Node} (hl : wfB left = true) (ancL : List Node)
    (ls : List Node) (rs : List (Option Node)) (hls : ∀ l ∈ ls, l ∈ left.children) :
    candsWF ((ls.zip rs).map (fun p => ⟨some (p.1, left :: ancL), none, p.2⟩)) := by
  intro c hc
  rw [List.mem_map] at hc
  obtain ⟨⟨l, r⟩, hlm, rfl⟩ := hc
  refine ⟨fun l' A' hh => ?_, fun t ht => by cases ht⟩
  have h1 : l = l' := congrArg Prod.fst (Option.some.inj hh)
  exact h1 ▸ wfB_child hl (hls l (List.of_mem_zip hlm).1)

end RefactAst

namespace RefactAst

set_option maxHeartbeats 1600000 in
theorem step_asgn_cands {fuel : Nat} (ih : Adequate fuel) :
    ∀ (n : Node) (q : List AsgnCand) (flag icf : Bool) (path : String) (g : Nat) (e : Bool),
      6 * qSize q < fuel + 1 → candsWF q →
      TotE (parse_assignment_cands (fuel + 1) n q flag icf path g e) := by
  intro n q flag icf path g e hm hq
  rw [parse_assignment_cands_succ]
  split
  · exact tot_pure _
  case _ cand rest =>
    obtain ⟨cl, ct, cr⟩ := cand
    rw [qSize] at hm
    have hcp := candSize_pos ⟨cl, ct, cr⟩
    have hrest : candsWF rest := candsWF_tail hq
    have hrec : TotE (parse_assignment_cands fuel n rest flag icf path g e) :=
      ih.asgn_cands n rest flag icf path g e (by omega) hrest
    split
    · -- no left node: drop the candidate
      exact hrec
    case _ left ancL heqL =>
      have hcl : cl = some (left, ancL) := heqL
      subst hcl
      have hlw : wfB left = true := (hq _ (List.mem_cons_self _ _)).1 left ancL rfl
      have hszl : left.size + 1 ≤ candSize ⟨some (left, ancL), ct, cr⟩ := candSize_left rfl
      split
    -- special symbols or self: drop the candidate
      · exact hrec
      · split
        case _ heq =>
          -- identifier: a VariableDefinition / ClassFieldDeclaration
          refine tot_bind tot_get_guid (fun gd => ?_)
          dsimp only
          split
          · split
            case _ _ tn =>
              have htw : wfB tn = true := (hq _ (List.mem_cons_self _ _)).2 tn rfl
              have hszt : tn.size + 1 ≤ candSize ⟨some (left, ancL), some tn, cr⟩ :=
                candSize_type rfl
              obtain ⟨v, hv⟩ := ih.type tn (by omega) htw
              refine tot_bind (tot_liftE hv) (fun dt? => ?_)
              refine tot_bind (tot_pure _) (fun t => ?_)
              refine tot_bind (tot_pure _) (fun sym => ?_)
              exact tot_bind hrec (fun more => tot_pure _)
            case _ =>
              refine tot_bind (tot_pure _) (fun t => ?_)
              refine tot_bind (tot_pure _) (fun sym => ?_)
              exact tot_bind hrec (fun more => tot_pure _)
          · split
            case _ _ tn =>
              have htw : wfB tn = true := (hq _ (List.mem_cons_self _ _)).2 tn rfl
              have hszt : tn.size + 1 ≤ candSize ⟨some (left, ancL), some tn, cr⟩ :=
                candSize_type rfl
              obtain ⟨v, hv⟩ := ih.type tn (by omega) htw
              refine tot_bind (tot_liftE hv) (fun dt? => ?_)
              refine tot_bind (tot_pure _) (fun t0 => ?_)
              refine tot_bind (tot_pure _) (fun sym => ?_)
              exact tot_bind hrec (fun more => tot_pure _)
            case _ =>
              refine tot_bind (tot_pure _) (fun t0 => ?_)
              refine tot_bind (tot_pure _) (fun sym => ?_)
              exact tot_bind hrec (fun more => tot_pure _)
        case _ heq =>
          -- attribute target: parse as usages
          refine tot_bind (ih.usages left ancL path g e false (by omega) hlw) (fun us => ?_)
          exact tot_bind hrec (fun more => tot_pure _)
        case _ heq | _ heq | _ heq =>
          -- destructuring patterns: push the filtered children
          have hsub : ∀ l ∈ left.children.filter
              (fun c => !(strContains SPECIAL_SYMBOLS c.kind)), l ∈ left.children :=
            fun l hl2 => (List.mem_filter.mp hl2).1
          have hfs := sizeL_filter_le (fun c => !(strContains SPECIAL_SYMBOLS c.kind))
            left.children
          have hce : Node.sizeL left.children + 1 = left.size := by rw [size_eq left]; omega
          rcases cr with _ | right
          · dsimp only
            split
            · refine ih.asgn_cands n _ _ icf path g e ?_
                (candsWF_append hrest (candsWF_map_flag hlw ancL none _ hsub))
              have hml := qSize_map_left []
                (fun l => (⟨some (l, left :: ancL), none, none⟩ : AsgnCand)) (fun l => rfl)
                (left.children.filter (fun c => !(strContains SPECIAL_SYMBOLS c.kind)))
              rw [qSize_append, hml]
              omega
            · refine ih.asgn_cands n _ _ icf path g e ?_
                (candsWF_append hrest (candsWF_map_zip hlw ancL _ _ hsub))
              rw [qSize_append]
              have hz := qSize_zip_map_le (left :: ancL) []
                (left.children.filter (fun c => !(strContains SPECIAL_SYMBOLS c.kind)))
                [none]
              omega
          · dsimp only
            split
            · refine ih.asgn_cands n _ _ icf path g e ?_
                (candsWF_append hrest (candsWF_map_flag hlw ancL (some right) _ hsub))
              have hml := qSize_map_left []
                (fun l => (⟨some (l, left :: ancL), none, some right⟩ : AsgnCand)) (fun l => rfl)
                (left.children.filter (fun c => !(strContains SPECIAL_SYMBOLS c.kind)))
              rw [qSize_append, hml]
              omega
            · refine ih.asgn_cands n _ _ icf path g e ?_
                (candsWF_append hrest (candsWF_map_zip hlw ancL _ _ hsub))
              rw [qSize_append]
              have hz := qSize_zip_map_le (left :: ancL) []
                (left.children.filter (fun c => !(strContains SPECIAL_SYMBOLS c.kind)))
                ((right.children.filter
                  (fun c => !(strContains SPECIAL_SYMBOLS c.kind))).map some)
              omega
        case _ heq =>
          -- list_splat_pattern: re-queue child 0
          refine ih.asgn_cands n _ _ icf path g e ?_ ?_
          · rw [qSize_append]
            have hs := @candSize_splat left ancL ancL ct cr
            simp only [qSize]
            omega
          · refine candsWF_append hrest ?_
            intro c hc
            simp at hc
            subst hc
            refine ⟨fun l' A' hh => ?_, fun t ht => (hq _ (List.mem_cons_self _ _)).2 t ht⟩
            rcases h0 : left.child 0 with _ | c0
            · rw [h0] at hh
              cases hh
            · rw [h0] at hh
              have h1 : c0 = l' := congrArg Prod.fst (Option.some.inj hh)
              exact h1 ▸ wfB_child hlw (child_mem h0)
        case _ =>
          exact hrec

end RefactAst

namespace RefactAst

theorem parse_assignment_succ (fuel : Nat) (n : Node) (anc : List Node) (path : String)
    (g : Nat) (e : Bool) :
    parse_assignment (fuel + 1) n anc path g e = (do
      let is_class_field := ancClassField anc
      let us1 ←
        match n.childByField "right" with
        | some right => parse_usages fuel right (n :: anc) path g e false
        | none => pure []
      let us2 ←
        match n.childByField "body" with
        | some body => parse_usages fuel body (n :: anc) path g e false
        | none => pure []
      let us3 ← parse_assignment_cands fuel n
        [⟨(n.childByField "left").map (fun l => (l, n :: anc)),
          n.childByField "type", n.childByField "right"⟩]
        false is_class_field path g e
      pure (us1 ++ us2 ++ us3)) := rfl

theorem asgn_cell_wf {n : Node} (hwf : wfB n = true) (anc : List Node) (r? : Option Node) :
    candsWF [⟨(n.childByField "left").map (fun l => (l, n :: anc)),
              n.childByField "type", r?⟩] := by
  intro c hc
  simp at hc
  subst hc
  constructor
  · intro l A hh
    rcases hL : n.childByField "left" with _ | l0
    · rw [hL] at hh
      cases hh
    · rw [hL] at hh
      have h1 : l0 = l := congrArg Prod.fst (Option.some.inj hh)
      exact h1 ▸ wfB_child hwf (childByField_mem hL)
  · intro t ht
    exact wfB_child hwf (childByField_mem ht)

theorem asgn_cell_size (n : Node) (anc : List Node) (r? : Option Node) :
    qSize [⟨(n.childByField "left").map (fun l => (l, n :: anc)),
            n.childByField "type", r?⟩] ≤ n.size := by
  simp only [qSize]
  rcases hL : n.childByField "left" with _ | l <;> rcases hT : n.childByField "type" with _ | t <;>
    simp only [Option.map_none', Option.map_some', candSize]
  · have := size_pos n
    omega
  · have := child_size_lt (childByField_mem hT)
    omega
  · have := child_size_lt (childByField_mem hL)
    omega
  · have hlf := childByField_fieldName hL
    have htf := childByField_fieldName hT
    have hne : l ≠ t := by
      intro hEq
      rw [hEq, htf] at hlf
      simp at hlf
    have h2 := two_mem_sizeL (childByField_mem hL) (childByField_mem hT) hne
    have h3 := size_eq n
    omega

theorem step_asgn {fuel : Nat} (ih : Adequate fuel) :
    ∀ (n : Node) (anc : List Node) (path : String) (g : Nat) (e : Bool),
      6 * n.size + 1 < fuel + 1 → wfB n = true →
      TotE (parse_assignment (fuel + 1) n anc path g e) := by
  intro n anc path g e hm hwf
  rw [parse_assignment_succ]
  have hsp := size_pos n
  rcases hR : n.childByField "right" with _ | right <;>
    rcases hB : n.childByField "body" with _ | body <;>
    dsimp only
  · refine tot_bind (tot_pure _) (fun us1 => ?_)
    refine tot_bind (tot_pure _) (fun us2 => ?_)
    refine tot_bind (ih.asgn_cands n _ false (ancClassField anc) path g e
      (by have := asgn_cell_size n anc none; omega) (asgn_cell_wf hwf anc none))
      (fun us3 => ?_)
    exact tot_pure _
  · have hbm := childByField_mem hB
    have := child_size_lt hbm
    refine tot_bind (tot_pure _) (fun us1 => ?_)
    refine tot_bind (ih.usages body (n :: anc) path g e false (by omega)
      (wfB_child hwf hbm)) (fun us2 => ?_)
    refine tot_bind (ih.asgn_cands n _ false (ancClassField anc) path g e
      (by have := asgn_cell_size n anc none; omega) (asgn_cell_wf hwf anc none))
      (fun us3 => ?_)
    exact tot_pure _
  · have hrm := childByField_mem hR
    have := child_size_lt hrm
    refine tot_bind (ih.usages right (n :: anc) path g e false (by omega)
      (wfB_child hwf hrm)) (fun us1 => ?_)
    refine tot_bind (tot_pure _) (fun us2 => ?_)
    refine tot_bind (ih.asgn_cands n _ false (ancClassField anc) path g e
      (by have := asgn_cell_size n anc (some right); omega)
      (asgn_cell_wf hwf anc (some right))) (fun us3 => ?_)
    exact tot_pure _
  · have hrm := childByField_mem hR
    have hbm := childByField_mem hB
    have h1 := child_size_lt hrm
    have h2 := child_size_lt hbm
    refine tot_bind (ih.usages right (n :: anc) path g e false (by omega)
      (wfB_child hwf hrm)) (fun us1 => ?_)
    refine tot_bind (ih.usages body (n :: anc) path g e false (by omega)
      (wfB_child hwf hbm)) (fun us2 => ?_)
    refine tot_bind (ih.asgn_cands n _ false (ancClassField anc) path g e
      (by have := asgn_cell_size n anc (some right); omega)
      (asgn_cell_wf hwf anc (some right))) (fun us3 => ?_)
    exact tot_pure _

end RefactAst

namespace RefactAst

theorem parse_struct_declaration_succ (fuel : Nat) (n : Node) (anc : List Node) (path : String)
    (g : Nat) (e : Bool) :
    parse_struct_declaration (fuel + 1) n anc path g e = (do
      let gd ← get_guid
      let errs1 ← find_error_usages fuel n path gd
      let full_range :=
        match anc.head? with
        | some p => if p.kind == "decorated_definition" then p.range else n.range
        | none => n.range
      let (name, decl_range1) :=
        match n.childByField "name" with
        | some nm =>
            (nm.text,
             some { start_byte := full_range.start_byte, end_byte := nm.range.end_byte,
                    start_point := full_range.start_point, end_point := nm.range.end_point
                    : TSRange })
        | none => ("", none)
      let (inherited, errs2, decl_range2) ←
        match n.childByField "superclasses" with
        | some sc => do
            let tds ← liftE (parse_type_list fuel sc.children)
            let e2 ← find_error_usages fuel sc path gd
            pure (tds, e2,
                  some { start_byte := full_range.start_byte, end_byte := sc.range.end_byte,
                         start_point := full_range.start_point, end_point := sc.range.end_point
                         : TSRange })
        | none => pure (([] : List TypeDef), ([] : List Symbol), (none : Option TSRange))
      let (us, def_range) ←
        match n.childByField "body" with
        | some body => do
            let u ← parse_usages fuel body (n :: anc) path gd e true
            pure (u, body.range)
        | none => pure (([] : List Symbol), TSRange.zero)
      let symbols := errs1 ++ errs2 ++ us
      let decl : Symbol :=
        { fields := { language := "python", full_range := full_range, file_path := path,
                      parent_guid := some g, guid := gd, is_error := e,
                      name := name,
                      declaration_range := ((decl_range2 <|> decl_range1).getD TSRange.zero),
                      definition_range := def_range,
                      childs_guid := get_children_guids gd symbols },
          variant := .structDeclaration inherited }
      pure (symbols ++ [decl])) := rfl

theorem step_struct {fuel : Nat} (ih : Adequate fuel) :
    ∀ (n : Node) (anc : List Node) (path : String) (g : Nat) (e : Bool),
      6 * n.size + 1 < fuel + 1 → wfB n = true →
      TotE (parse_struct_declaration (fuel + 1) n anc path g e) := by
  intro n anc path g e hm hwf
  rw [parse_struct_declaration_succ]
  have hsp := size_pos n
  refine tot_bind tot_get_guid (fun gd => ?_)
  refine tot_bind (ih.ferr n path gd (by omega) hwf) (fun errs1 => ?_)
  dsimp only
  split
  case _ sc hS =>
    have hsm := childByField_mem hS
    have hscs := child_size_lt hsm
    have hsz : Node.sizeL sc.children + 1 = sc.size := by rw [size_eq sc]; omega
    obtain ⟨tl, htl⟩ := ih.type_list sc.children (by omega)
      (fun c hc => wfB_child (wfB_child hwf hsm) hc)
    refine tot_bind (tot_liftE htl) (fun tds => ?_)
    refine tot_bind (ih.ferr sc path gd (by omega) (wfB_child hwf hsm)) (fun e2 => ?_)
    refine tot_bind (tot_pure _) (fun y => ?_)
    split
    case _ body hB =>
      have hbm := childByField_mem hB
      have := child_size_lt hbm
      refine tot_bind (ih.usages body (n :: anc) path gd e true (by omega)
        (wfB_child hwf hbm)) (fun u => ?_)
      exact tot_bind (tot_pure _) (fun y1 => tot_pure _)
    case _ hB =>
      exact tot_bind (tot_pure _) (fun y1 => tot_pure _)
  case _ hS =>
    refine tot_bind (tot_pure _) (fun y => ?_)
    split
    case _ body hB =>
      have hbm := childByField_mem hB
      have := child_size_lt hbm
      refine tot_bind (ih.usages body (n :: anc) path gd e true (by omega)
        (wfB_child hwf hbm)) (fun u => ?_)
      exact tot_bind (tot_pure _) (fun y1 => tot_pure _)
    case _ hB =>
      exact tot_bind (tot_pure _) (fun y1 => tot_pure _)

end RefactAst

namespace RefactAst

theorem parse_function_declaration_succ (fuel : Nat) (n : Node) (anc : List Node)
    (path : String) (g : Nat) (e : Bool) :
    parse_function_declaration (fuel + 1) n anc path g e = (do
      let full_range :=
        match anc.head? with
        | some p => if p.kind == "decorated_definition" then p.range else n.range
        | none => n.range
      let errs1 ← find_error_usages fuel n path 0
      let name :=
        match n.childByField "name" with
        | some nm => nm.text
        | none => ""
      let (decl_end1, errs2, args) ←
        match n.childByField "parameters" with
        | some ps => do
            let e2 ← find_error_usages fuel ps path 0
            let fargs ← liftE (parse_function_arg_list fuel ps.children)
            pure (some (ps.range.end_byte, ps.range.end_point), e2, fargs)
        | none =>
            pure ((none : Option (Nat × TSPoint)), ([] : List Symbol), ([] : List FunctionArg))
      let gd ← get_guid
      let (return_type, decl_end2, errs3) ←
        match n.childByField "return_type" with
        | some rt => do
            let t? ← liftE (parse_type fuel rt)
            let e3 ← find_error_usages fuel rt path gd
            pure (t?, some (rt.range.end_byte, rt.range.end_point), e3)
        | none =>
            pure ((none : Option TypeDef), (none : Option (Nat × TSPoint)), ([] : List Symbol))
      let decl_end := (decl_end2 <|> decl_end1).getD (n.range.end_byte, n.range.end_point)
      let (us, def_range, decl_range) ←
        match n.childByField "body" with
        | some body => do
            let u ← parse_usages fuel body (n :: anc) path gd e true
            pure (u, body.range,
                  { start_byte := full_range.start_byte, end_byte := decl_end.1,
                    start_point := full_range.start_point, end_point := decl_end.2 : TSRange })
        | none => pure (([] : List Symbol), TSRange.zero, full_range)
      let symbols := errs1 ++ errs2 ++ errs3 ++ us
      let decl : Symbol :=
        { fields := { language := "python", full_range := full_range, file_path := path,
                      parent_guid := some g, guid := gd, is_error := e,
                      name := name, declaration_range := decl_range,
                      definition_range := def_range,
                      childs_guid := get_children_guids gd symbols },
          variant := .functionDeclaration args return_type }
      pure (symbols ++ [decl])) := rfl

theorem step_fn {fuel : Nat} (ih : Adequate fuel) :
    ∀ (n : Node) (anc : List Node) (path : String) (g : Nat) (e : Bool),
      6 * n.size + 1 < fuel + 1 → wfB n = true →
      TotE (parse_function_declaration (fuel + 1) n anc path g e) := by
  intro n anc path g e hm hwf
  rw [parse_function_declaration_succ]
  have hsp := size_pos n
  refine tot_bind (ih.ferr n path 0 (by omega) hwf) (fun errs1 => ?_)
  dsimp only
  split
  case _ ps hP =>
    have hpm := childByField_mem hP
    have hps := child_size_lt hpm
    have hpz : Node.sizeL ps.children + 1 = ps.size := by rw [size_eq ps]; omega
    refine tot_bind (ih.ferr ps path 0 (by omega) (wfB_child hwf hpm)) (fun e2 => ?_)
    obtain ⟨fa, hfa⟩ := ih.farg_list ps.children (by omega)
      (fun c hc => wfB_child (wfB_child hwf hpm) hc)
    refine tot_bind (tot_liftE hfa) (fun fargs => ?_)
    refine tot_bind (tot_pure _) (fun y => ?_)
    refine tot_bind tot_get_guid (fun gd => ?_)
    dsimp only
    split
    case _ rt hRT =>
      have hrm := childByField_mem hRT
      have hrs := child_size_lt hrm
      obtain ⟨tv, htv⟩ := ih.type rt (by omega) (wfB_child hwf hrm)
      refine tot_bind (tot_liftE htv) (fun t? => ?_)
      refine tot_bind (ih.ferr rt path gd (by omega) (wfB_child hwf hrm)) (fun e3 => ?_)
      refine tot_bind (tot_pure _) (fun y2 => ?_)
      split
      case _ body hB =>
        have hbm := childByField_mem hB
        have hbs := child_size_lt hbm
        refine tot_bind (ih.usages body (n :: anc) path gd e true (by omega)
          (wfB_child hwf hbm)) (fun u => ?_)
        exact tot_bind (tot_pure _) (fun y3 => tot_pure _)
      case _ hB =>
        exact tot_bind (tot_pure _) (fun y3 => tot_pure _)
    case _ hRT =>
      refine tot_bind (tot_pure _) (fun y2 => ?_)
      split
      case _ body hB =>
        have hbm := childByField_mem hB
        have hbs := child_size_lt hbm
        refine tot_bind (ih.usages body (n :: anc) path gd e true (by omega)
          (wfB_child hwf hbm)) (fun u => ?_)
        exact tot_bind (tot_pure _) (fun y3 => tot_pure _)
      case _ hB =>
        exact tot_bind (tot_pure _) (fun y3 => tot_pure _)
  case _ hP =>
    refine tot_bind (tot_pure _) (fun y => ?_)
    refine tot_bind tot_get_guid (fun gd => ?_)
    dsimp only
    split
    case _ rt hRT =>
      have hrm := childByField_mem hRT
      have hrs := child_size_lt hrm
      obtain ⟨tv, htv⟩ := ih.type rt (by omega) (wfB_child hwf hrm)
      refine tot_bind (tot_liftE htv) (fun t? => ?_)
      refine tot_bind (ih.ferr rt path gd (by omega) (wfB_child hwf hrm)) (fun e3 => ?_)
      refine tot_bind (tot_pure _) (fun y2 => ?_)
      split
      case _ body hB =>
        have hbm := childByField_mem hB
        have hbs := child_size_lt hbm
        refine tot_bind (ih.usages body (n :: anc) path gd e true (by omega)
          (wfB_child hwf hbm)) (fun u => ?_)
        exact tot_bind (tot_pure _) (fun y3 => tot_pure _)
      case _ hB =>
        exact tot_bind (tot_pure _) (fun y3 => tot_pure _)
    case _ hRT =>
      refine tot_bind (tot_pure _) (fun y2 => ?_)
      split
      case _ body hB =>
        have hbm := childByField_mem hB
        have hbs := child_size_lt hbm
        refine tot_bind (ih.usages body (n :: anc) path gd e true (by omega)
          (wfB_child hwf hbm)) (fun u => ?_)
        exact tot_bind (tot_pure _) (fun y3 => tot_pure _)
      case _ hB =>
        exact tot_bind (tot_pure _) (fun y3 => tot_pure _)

end RefactAst

namespace RefactAst

theorem parse_call_expression_succ (fuel : Nat) (n : Node) (anc : List Node) (path : String)
    (g : Nat) (e : Bool) :
    parse_call_expression (fuel + 1) n anc path g e = (do
      let gd ← get_guid
      let errs1 ← find_error_usages fuel n path gd
      let arguments ← need (n.childByField "arguments") "call: arguments"
      let arg_syms ← call_args fuel arguments.children (arguments :: n :: anc) path gd e
      let errs2 ← find_error_usages fuel arguments path gd
      let function ← need (n.childByField "function") "call: function"
      let (name, caller, fn_syms) ←
        match function.kind with
        | "identifier" => pure (function.text, (none : Option Nat), ([] : List Symbol))
        | "attribute" => do
            let object ← need (function.childByField "object") "call attribute: object"
            let us ← parse_usages fuel object (function :: n :: anc) path g e false
            let caller : Option Nat :=
              match us.getLast? with
              | some last => last.fields.parent_guid
              | none => none
            let attr ← need (function.childByField "attribute") "call attribute: attribute"
            pure (attr.text, caller, us)
        | _ => do
            let us ← parse_usages fuel function (n :: anc) path g e false
            let caller : Option Nat :=
              match us.getLast? with
              | some last => last.fields.parent_guid
              | none => none
            pure ("", caller, us)
      let symbols := errs1 ++ arg_syms ++ errs2 ++ fn_syms
      let decl : Symbol :=
        { fields := { language := "python", full_range := n.range, file_path := path,
                      parent_guid := some g, guid := gd, is_error := e,
                      name := name, caller_guid := caller,
                      childs_guid := get_children_guids gd symbols },
          variant := .functionCall }
      pure (symbols ++ [decl])) := rfl

theorem step_call {fuel : Nat} (ih : Adequate fuel) :
    ∀ (n : Node) (anc : List Node) (path : String) (g : Nat) (e : Bool),
      n.kind = "call" → 6 * n.size + 1 < fuel + 1 → wfB n = true →
      TotE (parse_call_expression (fuel + 1) n anc path g e) := by
  intro n anc path g e hk hm hwf
  rw [parse_call_expression_succ]
  have hsp := size_pos n
  have hl := wfB_local hwf
  rw [localWF, hk] at hl
  simp at hl
  obtain ⟨fn, hfn⟩ := Option.isSome_iff_exists.mp hl.1
  obtain ⟨args, harg⟩ := Option.isSome_iff_exists.mp hl.2
  have ham := childByField_mem harg
  have has := child_size_lt ham
  have haz : Node.sizeL args.children + 1 = args.size := by rw [size_eq args]; omega
  refine tot_bind tot_get_guid (fun gd => ?_)
  refine tot_bind (ih.ferr n path gd (by omega) hwf) (fun errs1 => ?_)
  refine tot_bind_ret (need_ok harg _) ?_
  refine tot_bind (ih.cargs args.children (args :: n :: anc) path gd e (by omega)
    (fun c hc => wfB_child (wfB_child hwf ham) hc)) (fun arg_syms => ?_)
  refine tot_bind (ih.ferr args path gd (by omega) (wfB_child hwf ham)) (fun errs2 => ?_)
  refine tot_bind_ret (need_ok hfn _) ?_
  have hfm := childByField_mem hfn
  have hfs := child_size_lt hfm
  have hfw := wfB_child hwf hfm
  dsimp only
  split
  case _ hfk =>
    refine tot_bind (tot_pure _) (fun y => ?_)
    exact tot_pure _
  case _ hfk =>
    have hfl := wfB_local hfw
    rw [localWF, hfk] at hfl
    simp at hfl
    obtain ⟨at2, hat2⟩ := Option.isSome_iff_exists.mp hfl.1
    obtain ⟨obj, hobj⟩ := Option.isSome_iff_exists.mp hfl.2
    refine tot_bind_ret (need_ok hobj _) ?_
    have hom := childByField_mem hobj
    have hos := child_size_lt hom
    refine tot_bind (ih.usages obj (fn :: n :: anc) path g e false (by omega)
      (wfB_child hfw hom)) (fun us => ?_)
    refine tot_bind_ret (need_ok hat2 _) ?_
    refine tot_bind (tot_pure _) (fun y => ?_)
    exact tot_pure _
  case _ =>
    refine tot_bind (ih.usages fn (n :: anc) path g e false (by omega) hfw) (fun us => ?_)
    refine tot_bind (tot_pure _) (fun y => ?_)
    exact tot_pure _

end RefactAst

namespace RefactAst

set_option maxHeartbeats 3200000 in
theorem step_usages {fuel : Nat} (ih : Adequate fuel) :
    ∀ (n : Node) (anc : List Node) (path : String) (g : Nat) (e fb : Bool),
      6 * n.size + 2 < fuel + 1 → wfB n = true →
      TotE (parse_usages (fuel + 1) n anc path g e fb) := by
  intro n anc path g e fb hm hwf
  have hsp := size_pos n
  rw [parse_usages]
  split
  case _ _heq | _ _heq | _ _heq | _ _heq | _ _heq | _ _heq | _ _heq | _ _heq | _ _heq | _ _heq | _ _heq | _ _heq | _ _heq | _ _heq | _ _heq | _ _heq | _ _heq | _ _heq | _ _heq | _ _heq | _ _heq | _ _heq | _ _heq | _ _heq | _ _heq | _ _heq | _ _heq | _ _heq | _ _heq | _ _heq =>
    dsimp only
    have hsz : Node.sizeL n.children + 1 = n.size := by rw [size_eq n]; omega
    exact ih.usages_list n.children (n :: anc) path g e _ (by omega)
      (fun c hc => wfB_child hwf hc)
  case _ heq =>
    have hl := wfB_local hwf
    rw [localWF, heq] at hl
    simp at hl
    obtain ⟨val, hval⟩ := Option.isSome_iff_exists.mp hl
    refine tot_bind_ret (need_ok hval _) ?_
    have hvm := childByField_mem hval
    have hvs := child_size_lt hvm
    exact ih.usages val (n :: anc) path g e false (by omega) (wfB_child hwf hvm)
  case _ _heq =>
    exact ih.struct n anc path g e (by omega) hwf
  case _ _heq =>
    exact ih.fn n anc path g e (by omega) hwf
  case _ _heq =>
    split
    case _ d hd =>
      have hdm := childByField_mem hd
      have hds := child_size_lt hdm
      split
      · exact ih.struct d (n :: anc) path g e (by omega) (wfB_child hwf hdm)
      · exact ih.fn d (n :: anc) path g e (by omega) (wfB_child hwf hdm)
      · exact tot_pure _
    case _ => exact tot_pure _
  case _ heq =>
    have hl := wfB_local hwf
    rw [localWF, heq] at hl
    simp at hl
    obtain ⟨c0, hc0, hc0m⟩ := child_total (List.length_pos.mpr hl.1)
    refine tot_bind_ret (need_ok hc0 _) ?_
    split
    case _ al hal =>
      have h2 := hl.2
      rw [hal] at h2
      simp at h2
      obtain ⟨a0, ha0, ha0m⟩ := @child_total al 0 (List.length_pos.mpr h2)
      refine tot_bind_ret (need_ok ha0 _) ?_
      have halm := childByField_mem hal
      have h3 := child_size_lt halm
      have h4 := child_size_lt ha0m
      refine ih.ap_cands [(a0, al :: n :: anc)] n c0.text path g e ?_ ?_
      · simp only [apSize]
        omega
      · intro p hp
        simp at hp
        subst hp
        exact wfB_child (wfB_child hwf halm) ha0m
    case _ => exact tot_pure _
  case _ heq | _ heq =>
    have hl := wfB_local hwf
    rw [localWF, heq] at hl
    simp at hl
    obtain ⟨arg, harg2⟩ := Option.isSome_iff_exists.mp hl
    refine tot_bind_ret (need_ok harg2 _) ?_
    have h2m := childByField_mem harg2
    have h2s := child_size_lt h2m
    exact ih.usages arg (n :: anc) path g e false (by omega) (wfB_child hwf h2m)
  case _ heq | _ heq | _ heq | _ heq =>
    have hl := wfB_local hwf
    rw [localWF, heq] at hl
    simp at hl
    obtain ⟨l2, hL2⟩ := Option.isSome_iff_exists.mp hl.1
    obtain ⟨r2, hR2⟩ := Option.isSome_iff_exists.mp hl.2
    have hlm := childByField_mem hL2
    have hrm := childByField_mem hR2
    have hls := child_size_lt hlm
    have hrs := child_size_lt hrm
    refine tot_bind_ret (need_ok hL2 _) ?_
    refine tot_bind (ih.usages l2 (n :: anc) path g e false (by omega) (wfB_child hwf hlm))
      (fun us1 => ?_)
    refine tot_bind_ret (need_ok hR2 _) ?_
    refine tot_bind (ih.usages r2 (n :: anc) path g e false (by omega) (wfB_child hwf hrm))
      (fun us2 => ?_)
    exact tot_pure _
  case _ heq =>
    have hl := wfB_local hwf
    rw [localWF, heq] at hl
    simp at hl
    obtain ⟨l2, hL2⟩ := Option.isSome_iff_exists.mp hl.1
    obtain ⟨r2, hR2⟩ := Option.isSome_iff_exists.mp hl.2
    have hlm := childByField_mem hL2
    have hrm := childByField_mem hR2
    have hls := child_size_lt hlm
    have hrs := child_size_lt hrm
    refine tot_bind_ret (need_ok hL2 _) ?_
    refine tot_bind (ih.usages l2 (n :: anc) path g e false (by omega) (wfB_child hwf hlm))
      (fun us1 => ?_)
    refine tot_bind_ret (need_ok hR2 _) ?_
    refine tot_bind (ih.usages r2 (n :: anc) path g e false (by omega) (wfB_child hwf hrm))
      (fun us2 => ?_)
    exact tot_pure _
  case _ _heq =>
    exact tot_bind tot_get_guid (fun gd => tot_pure _)
  case _ heq =>
    have hl := wfB_local hwf
    rw [localWF, heq] at hl
    simp at hl
    obtain ⟨at2, hat2⟩ := Option.isSome_iff_exists.mp hl.1
    obtain ⟨obj, hobj⟩ := Option.isSome_iff_exists.mp hl.2
    refine tot_bind_ret (need_ok hat2 _) ?_
    refine tot_bind tot_get_guid (fun gd => ?_)
    refine tot_bind_ret (need_ok hobj _) ?_
    have hom := childByField_mem hobj
    have hos := child_size_lt hom
    refine tot_bind (ih.usages obj (n :: anc) path g e false (by omega) (wfB_child hwf hom))
      (fun us => ?_)
    exact tot_pure _
  case _ _heq | _ _heq =>
    exact ih.asgn n anc path g e (by omega) hwf
  case _ heq =>
    have hl := wfB_local hwf
    rw [localWF, heq] at hl
    simp at hl
    obtain ⟨l2, hL2⟩ := Option.isSome_iff_exists.mp hl.1
    obtain ⟨r2, hR2⟩ := Option.isSome_iff_exists.mp hl.2
    have hlm := childByField_mem hL2
    have hrm := childByField_mem hR2
    have hls := child_size_lt hlm
    have hrs := child_size_lt hrm
    refine tot_bind_ret (need_ok hL2 _) ?_
    refine tot_bind (ih.usages l2 (n :: anc) path g e false (by omega) (wfB_child hwf hlm))
      (fun us1 => ?_)
    refine tot_bind_ret (need_ok hR2 _) ?_
    refine tot_bind (ih.usages r2 (n :: anc) path g e false (by omega) (wfB_child hwf hrm))
      (fun us2 => ?_)
    dsimp only
    split
    case _ alt halt =>
      split
      case _ ab hab =>
        have h5 := childByField_mem halt
        have h6 := child_size_lt h5
        have h7 := childByField_mem hab
        have h8 := child_size_lt h7
        refine tot_bind (ih.usages ab (alt :: n :: anc) path g e false (by omega)
          (wfB_child (wfB_child hwf h5) h7)) (fun us3 => ?_)
        exact tot_pure _
      case _ =>
        first
        | exact tot_bind (tot_pure _) (fun us3 => tot_pure _)
        | exact tot_pure _
    case _ =>
      first
      | exact tot_bind (tot_pure _) (fun us3 => tot_pure _)
      | exact tot_pure _
  case _ heq =>
    have hl := wfB_local hwf
    rw [localWF, heq] at hl
    simp at hl
    obtain ⟨l2, hL2⟩ := Option.isSome_iff_exists.mp hl.1
    obtain ⟨r2, hR2⟩ := Option.isSome_iff_exists.mp hl.2
    have hlm := childByField_mem hL2
    have hrm := childByField_mem hR2
    have hls := child_size_lt hlm
    have hrs := child_size_lt hrm
    refine tot_bind_ret (need_ok hL2 _) ?_
    refine tot_bind (ih.usages l2 (n :: anc) path g e false (by omega) (wfB_child hwf hlm))
      (fun us1 => ?_)
    refine tot_bind_ret (need_ok hR2 _) ?_
    refine tot_bind (ih.usages r2 (n :: anc) path g e false (by omega) (wfB_child hwf hrm))
      (fun us2 => ?_)
    exact tot_pure _
  case _ heq =>
    exact ih.call n anc path g e heq (by omega) hwf
  case _ _heq =>
    exact ih.fn n anc path g e (by omega) hwf
  case _ _heq | _ _heq =>
    split
    · exact tot_bind tot_get_guid (fun gd => tot_pure _)
    · exact tot_pure _
  case _ heq | _ heq =>
    dsimp only
    split
    · exact tot_bind tot_get_guid (fun gd => tot_pure _)
    · have hl := wfB_local hwf
      rw [localWF, heq] at hl
      simp at hl
      refine import_names_total _ n path g _ ?_
      intro c hc
      have h2 := hl c hc
      simpa using h2
  case _ _heq =>
    exact ih.perr n path g (by omega) hwf
  case _ =>
    have hsz : Node.sizeL n.children + 1 = n.size := by rw [size_eq n]; omega
    exact ih.usages_list n.children (n :: anc) path g e _ (by omega)
      (fun c hc => wfB_child hwf hc)

end RefactAst

namespace RefactAst

/-- The adequacy induction over fuel. -/
theorem adequacy : ∀ fuel : Nat, Adequate fuel
  | 0 => by
      refine ⟨?_, ?_, ?_, ?_, ?_, ?_, ?_, ?_, ?_, ?_, ?_, ?_, ?_, ?_, ?_, ?_, ?_⟩ <;>
        (intros; exfalso; omega)
  | fuel + 1 =>
      have ih := adequacy fuel
      ⟨step_type ih, step_type_list ih, step_farg ih, step_farg_list ih,
       step_usages ih, step_usages_list ih, step_asgn ih, step_asgn_cands ih,
       step_ap ih, step_struct ih, step_fn ih, step_call ih, step_cargs ih,
       step_ferr ih, step_ferr_list ih, step_perr ih, step_perr_list ih⟩

/-- Totality of the top-level extraction on well-formed trees with enough fuel. -/
theorem parse_total (root : Node) (path : String) (fuel st : Nat)
    (hwf : wfB root = true) (hfuel : 6 * Node.size root + 3 ≤ fuel) :
    ∃ v, parse root path fuel st = .ok v := by
  have h := (adequacy fuel).usages root [] path (st + 1) false true (by omega) hwf
  obtain ⟨v, hv⟩ := h (st + 1)
  exact ⟨v, by rw [parse]; rw [Extract.bind_apply]; rw [Extract.get_guid_apply]; exact hv⟩

end RefactAst

namespace RefactAst

/-- The input witnessing that enough fuel plus well-formedness suffices: a
module holding a single identifier. -/
def c1w_tree : Node :=
  .mk "module" "x" TSRange.zero none [.mk "identifier" "x" TSRange.zero none []]

end RefactAst



/-! # Guid freshness and uniqueness within a run -/

namespace RefactAst

/-! ## Guid freshness: every run emits symbols with distinct guids drawn from
the strictly increasing counter -/

/-- The guids of `L` lie in the window `(a, b]` and are pairwise distinct. -/
def WinL (L : List Symbol) (a b : Nat) : Prop :=
  (∀ s ∈ L, a < s.guid ∧ s.guid ≤ b) ∧ (L.map Symbol.guid).Nodup

/-- A fresh computation: from any state `st` a successful run moves the counter
forward and returns symbols with distinct guids inside `(st, st']`. -/
def Fr (m : Extract (List Symbol)) : Prop :=
  ∀ st L st', m st = .ok (L, st') → st ≤ st' ∧ WinL L st st'

theorem winL_nil (a b : Nat) : WinL [] a b := ⟨by simp, by simp⟩

theorem winL_mono {L : List Symbol} {a b a' b' : Nat} (h : WinL L a b)
    (ha : a' ≤ a) (hb : b ≤ b') : WinL L a' b' := by
  obtain ⟨hw, hn⟩ := h
  exact ⟨fun s hs => by have := hw s hs; omega, hn⟩

theorem winL_append {l1 l2 : List Symbol} {a b c : Nat}
    (h1 : WinL l1 a b) (h2 : WinL l2 b c) (hab : a ≤ b) (hbc : b ≤ c) :
    WinL (l1 ++ l2) a c := by
  obtain ⟨hw1, hn1⟩ := h1
  obtain ⟨hw2, hn2⟩ := h2
  constructor
  · intro s hs
    rcases List.mem_append.mp hs with h | h
    · have := hw1 s h
      omega
    · have := hw2 s h
      omega
  · rw [List.map_append]
    refine List.Nodup.append hn1 hn2 ?_
    intro x hx1 hx2
    rw [List.mem_map] at hx1 hx2
    obtain ⟨s1, hs1, rfl⟩ := hx1
    obtain ⟨s2, hs2, he⟩ := hx2
    have w1 := hw1 s1 hs1
    have w2 := hw2 s2 hs2
    omega

theorem winL_cons {s : Symbol} {l : List Symbol} {a c : Nat}
    (hs : a < s.guid) (hl : WinL l s.guid c) (hsc : s.guid ≤ c) :
    WinL (s :: l) a c := by
  obtain ⟨hw, hn⟩ := hl
  constructor
  · intro x hx
    rcases List.mem_cons.mp hx with rfl | hx
    · omega
    · have := hw x hx
      omega
  · rw [List.map_cons]
    refine List.Nodup.cons ?_ hn
    intro hmem
    rw [List.mem_map] at hmem
    obtain ⟨x, hx, he⟩ := hmem
    have := hw x hx
    omega

theorem winL_snoc_lo {l : List Symbol} {d : Symbol} {a c : Nat}
    (hd : a < d.guid) (hl : WinL l d.guid c) (hdc : d.guid ≤ c) :
    WinL (l ++ [d]) a c := by
  obtain ⟨hw, hn⟩ := hl
  constructor
  · intro x hx
    rcases List.mem_append.mp hx with hx | hx
    · have := hw x hx
      omega
    · rcases List.mem_singleton.mp hx with rfl
      omega
  · rw [List.map_append]
    refine List.Nodup.append hn (by simp) ?_
    intro x hx1 hx2
    rw [List.mem_map] at hx1
    obtain ⟨s1, hs1, rfl⟩ := hx1
    simp at hx2
    have := hw s1 hs1
    omega

theorem winL_singleton {s : Symbol} {a b : Nat} (h1 : a < s.guid) (h2 : s.guid ≤ b) :
    WinL [s] a b := by
  constructor
  · intro x hx
    rcases List.mem_singleton.mp hx with rfl
    omega
  · simp

/-- The three-block assembly of parse_function_declaration: early error usages
below the declaration guid, later symbols above it. -/
theorem winL_tri {A B : List Symbol} {d : Symbol} {a b c : Nat}
    (hA : WinL A a b) (hB : WinL B d.guid c) (hbd : b < d.guid) (hdc : d.guid ≤ c)
    (hab : a ≤ b) :
    WinL (A ++ B ++ [d]) a c := by
  rw [List.append_assoc]
  exact winL_append hA (winL_snoc_lo (by omega) hB hdc) hab (by omega)

/-! ## Run inversion -/

theorem bind_ok {α β : Type} {m : Extract α} {k : α → Extract β} {st : Nat} {b : β} {st' : Nat}
    (h : (m >>= k) st = .ok (b, st')) :
    ∃ a st1, m st = .ok (a, st1) ∧ k a st1 = .ok (b, st') := by
  rw [Extract.bind_apply] at h
  rcases hm : m st with e | ⟨a, st1⟩
  · rw [hm] at h
    cases h
  · rw [hm] at h
    exact ⟨a, st1, rfl, h⟩

theorem pure_ok_inv {α : Type} {a b : α} {st st' : Nat}
    (h : (pure a : Extract α) st = .ok (b, st')) : b = a ∧ st' = st := by
  simp only [Extract.pure_apply, Except.ok.injEq, Prod.mk.injEq] at h
  exact ⟨h.1.symm, h.2.symm⟩

theorem get_guid_ok_inv {g st st' : Nat} (h : get_guid st = .ok (g, st')) :
    g = st + 1 ∧ st' = st + 1 := by
  simp only [Extract.get_guid_apply, Except.ok.injEq, Prod.mk.injEq] at h
  exact ⟨h.1.symm, h.2.symm⟩

theorem need_ok_inv {α : Type} {o : Option α} {msg : String} {a : α} {st st' : Nat}
    (h : need o msg st = .ok (a, st')) : o = some a ∧ st' = st := by
  rcases o with _ | x
  · rw [Extract.need_none] at h
    cases h
  · simp only [Extract.need_some, Extract.pure_apply, Except.ok.injEq, Prod.mk.injEq] at h
    exact ⟨by rw [h.1], h.2.symm⟩

theorem liftE_ok_inv {α : Type} {m : Except RunErr α} {a : α} {st st' : Nat}
    (h : liftE m st = .ok (a, st')) : m = .ok a ∧ st' = st := by
  rcases m with e | x
  · rw [Extract.liftE_error] at h
    cases h
  · simp only [Extract.liftE_ok, Except.ok.injEq, Prod.mk.injEq] at h
    exact ⟨by rw [h.1], h.2.symm⟩

theorem fr_outOfFuel : Fr Extract.outOfFuel := fun _ _ _ h => nomatch h

theorem fr_pure_nil : Fr (pure []) := by
  intro st L st' h
  obtain ⟨hL, hs⟩ := pure_ok_inv h
  subst hL
  subst hs
  exact ⟨le_refl _, winL_nil _ _⟩

end RefactAst

namespace RefactAst

theorem winL_snoc_guid (g : Nat) {l : List Symbol} {d : Symbol} {a c : Nat}
    (hguid : d.guid = g) (hd : a < g) (hl : WinL l g c) (hgc : g ≤ c) : WinL (l ++ [d]) a c :=
  winL_snoc_lo (by omega) (by rw [hguid]; exact hl) (by omega)

theorem winL_cons_guid (g : Nat) {s : Symbol} {l : List Symbol} {a c : Nat}
    (hguid : s.guid = g) (hs : a < g) (hl : WinL l g c) (hgc : g ≤ c) : WinL (s :: l) a c :=
  winL_cons (by omega) (by rw [hguid]; exact hl) (by omega)

theorem winL_singleton_guid (g : Nat) {s : Symbol} {a b : Nat}
    (hguid : s.guid = g) (h1 : a < g) (h2 : g ≤ b) : WinL [s] a b :=
  winL_singleton (by omega) (by omega)

theorem fr_need_bind {α : Type} {o : Option α} {msg : String} {k : α → Extract (List Symbol)}
    (hk : ∀ a, Fr (k a)) : Fr (need o msg >>= k) := by
  intro st L st' h
  obtain ⟨a, st1, h1, h2⟩ := bind_ok h
  obtain ⟨ho, hs⟩ := need_ok_inv h1
  subst hs
  exact hk a _ L _ h2

theorem fr_liftE_bind {α : Type} {m : Except RunErr α} {k : α → Extract (List Symbol)}
    (hk : ∀ a, Fr (k a)) : Fr (liftE m >>= k) := by
  intro st L st' h
  obtain ⟨a, st1, h1, h2⟩ := bind_ok h
  obtain ⟨ho, hs⟩ := liftE_ok_inv h1
  subst hs
  exact hk a _ L _ h2

theorem fr_append {m1 : Extract (List Symbol)} {m2 : List Symbol → Extract (List Symbol)}
    (h1 : Fr m1) (h2 : ∀ us, Fr (m2 us)) :
    Fr (m1 >>= fun us => m2 us >>= fun rest => pure (us ++ rest)) := by
  intro st L st' h
  obtain ⟨us, s1, hu, h⟩ := bind_ok h
  obtain ⟨rest, s2, hr, h⟩ := bind_ok h
  obtain ⟨hL, hs⟩ := pure_ok_inv h
  subst hL
  obtain ⟨ha, hw1⟩ := h1 st us s1 hu
  obtain ⟨hb, hw2⟩ := h2 us s1 rest s2 hr
  subst hs
  exact ⟨by omega, winL_append hw1 hw2 ha hb⟩

theorem fr_guid_cons {sym : Nat → Symbol} (hsym : ∀ g, (sym g).guid = g)
    {m : Nat → Extract (List Symbol)} (hm : ∀ g, Fr (m g)) :
    Fr (get_guid >>= fun gd => m gd >>= fun more => pure (sym gd :: more)) := by
  intro st L st' h
  obtain ⟨gd, s1, h1, h⟩ := bind_ok h
  obtain ⟨hgd, hs1⟩ := get_guid_ok_inv h1
  subst hgd
  subst hs1
  obtain ⟨more, s2, h2, h⟩ := bind_ok h
  obtain ⟨hL, hs⟩ := pure_ok_inv h
  subst hL
  obtain ⟨ha, hw⟩ := hm (st + 1) (st + 1) more s2 h2
  subst hs
  exact ⟨by omega, winL_cons_guid (st + 1) (hsym (st + 1)) (by omega) hw (by omega)⟩

/-- All extraction routines are fresh at this fuel level. -/
def Freshed (fuel : Nat) : Prop :=
  (∀ (n : Node) (anc : List Node) (path : String) (g : Nat) (e fb : Bool),
     Fr (parse_usages fuel n anc path g e fb)) ∧
  (∀ (ns : List Node) (anc : List Node) (path : String) (g : Nat) (e fb : Bool),
     Fr (parse_usages_list fuel ns anc path g e fb)) ∧
  (∀ (n : Node) (anc : List Node) (path : String) (g : Nat) (e : Bool),
     Fr (parse_assignment fuel n anc path g e)) ∧
  (∀ (n : Node) (q : List AsgnCand) (flag icf : Bool) (path : String) (g : Nat) (e : Bool),
     Fr (parse_assignment_cands fuel n q flag icf path g e)) ∧
  (∀ (q : List (Node × List Node)) (n : Node) (vt path : String) (g : Nat) (e : Bool),
     Fr (as_pattern_cands fuel q n vt path g e)) ∧
  (∀ (n : Node) (anc : List Node) (path : String) (g : Nat) (e : Bool),
     Fr (parse_struct_declaration fuel n anc path g e)) ∧
  (∀ (n : Node) (anc : List Node) (path : String) (g : Nat) (e : Bool),
     Fr (parse_function_declaration fuel n anc path g e)) ∧
  (∀ (n : Node) (anc : List Node) (path : String) (g : Nat) (e : Bool),
     Fr (parse_call_expression fuel n anc path g e)) ∧
  (∀ (ns : List Node) (anc : List Node) (path : String) (g : Nat) (e : Bool),
     Fr (call_args fuel ns anc path g e)) ∧
  (∀ (n : Node) (path : String) (g : Nat),
     Fr (find_error_usages fuel n path g)) ∧
  (∀ (ns : List Node) (path : String) (g : Nat),
     Fr (find_error_usages_list fuel ns path g)) ∧
  (∀ (n : Node) (path : String) (g : Nat),
     Fr (parse_error_usages fuel n path g)) ∧
  (∀ (ns : List Node) (path : String) (g : Nat),
     Fr (parse_error_usages_list fuel ns path g))

def Freshed.usages {fuel : Nat} (h : Freshed fuel) :
    ∀ (n : Node) (anc : List Node) (path : String) (g : Nat) (e fb : Bool),
      Fr (parse_usages fuel n anc path g e fb) := h.1

def Freshed.usages_list {fuel : Nat} (h : Freshed fuel) :
    ∀ (ns : List Node) (anc : List Node) (path : String) (g : Nat) (e fb : Bool),
      Fr (parse_usages_list fuel ns anc path g e fb) := h.2.1

def Freshed.asgn {fuel : Nat} (h : Freshed fuel) :
    ∀ (n : Node) (anc : List Node) (path : String) (g : Nat) (e : Bool),
      Fr (parse_assignment fuel n anc path g e) := h.2.2.1

def Freshed.asgn_cands {fuel : Nat} (h : Freshed fuel) :
    ∀ (n : Node) (q : List AsgnCand) (flag icf : Bool) (path : String) (g : Nat) (e : Bool),
      Fr (parse_assignment_cands fuel n q flag icf path g e) := h.2.2.2.1

def Freshed.ap_cands {fuel : Nat} (h : Freshed fuel) :
    ∀ (q : List (Node × List Node)) (n : Node) (vt path : String) (g : Nat) (e : Bool),
      Fr (as_pattern_cands fuel q n vt path g e) := h.2.2.2.2.1

def Freshed.struct {fuel : Nat} (h : Freshed fuel) :
    ∀ (n : Node) (anc : List Node) (path : String) (g : Nat) (e : Bool),
      Fr (parse_struct_declaration fuel n anc path g e) := h.2.2.2.2.2.1

def Freshed.fn {fuel : Nat} (h : Freshed fuel) :
    ∀ (n : Node) (anc : List Node) (path : String) (g : Nat) (e : Bool),
      Fr (parse_function_declaration fuel n anc path g e) := h.2.2.2.2.2.2.1

def Freshed.call {fuel : Nat} (h : Freshed fuel) :
    ∀ (n : Node) (anc : List Node) (path : String) (g : Nat) (e : Bool),
      Fr (parse_call_expression fuel n anc path g e) := h.2.2.2.2.2.2.2.1

def Freshed.cargs {fuel : Nat} (h : Freshed fuel) :
    ∀ (ns : List Node) (anc : List Node) (path : String) (g : Nat) (e : Bool),
      Fr (call_args fuel ns anc path g e) := h.2.2.2.2.2.2.2.2.1

def Freshed.ferr {fuel : Nat} (h : Freshed fuel) :
    ∀ (n : Node) (path : String) (g : Nat),
      Fr (find_error_usages fuel n path g) := h.2.2.2.2.2.2.2.2.2.1

def Freshed.ferr_list {fuel : Nat} (h : Freshed fuel) :
    ∀ (ns : List Node) (path : String) (g : Nat),
      Fr (find_error_usages_list fuel ns path g) := h.2.2.2.2.2.2.2.2.2.2.1

def Freshed.perr {fuel : Nat} (h : Freshed fuel) :
    ∀ (n : Node) (path : String) (g : Nat),
      Fr (parse_error_usages fuel n path g) := h.2.2.2.2.2.2.2.2.2.2.2.1

def Freshed.perr_list {fuel : Nat} (h : Freshed fuel) :
    ∀ (ns : List Node) (path : String) (g : Nat),
      Fr (parse_error_usages_list fuel ns path g) := h.2.2.2.2.2.2.2.2.2.2.2.2

end RefactAst

namespace RefactAst

theorem fr_import_names (base : List String) (n : Node) (path : String) (g : Nat) :
    ∀ cs : List Node, Fr (import_names base n path g cs)
  | [] => fr_pure_nil
  | c :: cs => by
      simp only [import_names]
      intro st L st' h
      obtain ⟨gd, s1, h1, h⟩ := bind_ok h
      obtain ⟨hgd, hs1⟩ := get_guid_ok_inv h1
      subst hgd
      subst hs1
      obtain ⟨nm, s2, h2, h⟩ := bind_ok h
      obtain ⟨-, hs2⟩ := need_ok_inv h2
      subst hs2
      obtain ⟨more, s3, h3, h⟩ := bind_ok h
      obtain ⟨hL, hs⟩ := pure_ok_inv h
      subst hL
      obtain ⟨hle, hw⟩ := fr_import_names base n path g cs _ more s3 h3
      subst hs
      exact ⟨by omega, winL_cons_guid (st + 1) rfl (by omega) hw (by omega)⟩

theorem fr_perr {fuel : Nat} (ih : Freshed fuel) :
    ∀ (n : Node) (path : String) (g : Nat), Fr (parse_error_usages (fuel + 1) n path g) := by
  intro n path g
  simp only [parse_error_usages]
  split
  case _ heq =>
    split
    · exact fr_pure_nil
    · intro st L st' h
      obtain ⟨gd, s1, h1, h⟩ := bind_ok h
      obtain ⟨hgd, hs1⟩ := get_guid_ok_inv h1
      subst hgd
      subst hs1
      obtain ⟨hL, hs⟩ := pure_ok_inv h
      subst hL
      subst hs
      exact ⟨by omega, winL_singleton_guid (st + 1) rfl (by omega) (by omega)⟩
  case _ heq =>
    intro st L st' hrun0
    obtain ⟨attr, s1, h1, hrun1⟩ := bind_ok hrun0
    obtain ⟨-, hs1⟩ := need_ok_inv h1
    subst hs1
    obtain ⟨gd, s2, h2, hrun2⟩ := bind_ok hrun1
    obtain ⟨hgd, hs2⟩ := get_guid_ok_inv h2
    subst hgd
    subst hs2
    obtain ⟨obj, s3, h3, hrun3⟩ := bind_ok hrun2
    obtain ⟨-, hs3⟩ := need_ok_inv h3
    subst hs3
    obtain ⟨us, s4, h4, hrun4⟩ := bind_ok hrun3
    obtain ⟨hL, hs⟩ := pure_ok_inv hrun4
    subst hL
    obtain ⟨hle, hw⟩ := ih.perr obj path g _ us s4 h4
    subst hs
    refine ⟨by omega, ?_⟩
    refine winL_snoc_guid (s1 + 1) rfl (by omega) hw (by omega)
  case _ =>
    exact ih.perr_list n.children path g

theorem fr_perr_list {fuel : Nat} (ih : Freshed fuel) :
    ∀ (ns : List Node) (path : String) (g : Nat),
      Fr (parse_error_usages_list (fuel + 1) ns path g) := by
  intro ns path g
  simp only [parse_error_usages_list_succ]
  split
  · exact fr_pure_nil
  case _ c cs =>
    exact fr_append (ih.perr c path g) (fun us => ih.perr_list cs path g)

theorem fr_ferr {fuel : Nat} (ih : Freshed fuel) :
    ∀ (n : Node) (path : String) (g : Nat), Fr (find_error_usages (fuel + 1) n path g) := by
  intro n path g
  simp only [find_error_usages_succ]
  exact ih.ferr_list n.children path g

theorem fr_ferr_list {fuel : Nat} (ih : Freshed fuel) :
    ∀ (ns : List Node) (path : String) (g : Nat),
      Fr (find_error_usages_list (fuel + 1) ns path g) := by
  intro ns path g
  simp only [find_error_usages_list_succ]
  split
  · exact fr_pure_nil
  case _ c cs =>
    split
    · exact fr_append (ih.perr c path g) (fun us => ih.ferr_list cs path g)
    · exact fr_append fr_pure_nil (fun us => ih.ferr_list cs path g)

theorem fr_cargs {fuel : Nat} (ih : Freshed fuel) :
    ∀ (ns : List Node) (anc : List Node) (path : String) (g : Nat) (e : Bool),
      Fr (call_args (fuel + 1) ns anc path g e) := by
  intro ns anc path g e
  simp only [call_args_succ]
  split
  · exact fr_pure_nil
  case _ c cs =>
    split
    · exact fr_append fr_pure_nil (fun us => ih.cargs cs anc path g e)
    · exact fr_append (ih.usages c anc path g e false) (fun us => ih.cargs cs anc path g e)

theorem fr_usages_list {fuel : Nat} (ih : Freshed fuel) :
    ∀ (ns : List Node) (anc : List Node) (path : String) (g : Nat) (e fb : Bool),
      Fr (parse_usages_list (fuel + 1) ns anc path g e fb) := by
  intro ns anc path g e fb
  simp only [parse_usages_list_succ]
  split
  · exact fr_pure_nil
  case _ c cs =>
    exact fr_append (ih.usages c anc path g e fb) (fun us => ih.usages_list cs anc path g e fb)

end RefactAst

namespace RefactAst

theorem fr_ap {fuel : Nat} (ih : Freshed fuel) :
    ∀ (q : List (Node × List Node)) (n : Node) (vt path : String) (g : Nat) (e : Bool),
      Fr (as_pattern_cands (fuel + 1) q n vt path g e) := by
  intro q n vt path g e
  simp only [as_pattern_cands_succ]
  split
  · exact fr_pure_nil
  case _ c ancC rest =>
    split
    · exact ih.ap_cands rest n vt path g e
    · split
      case _ heq =>
        refine fr_guid_cons ?_ (fun _ => ih.ap_cands rest n vt path g e)
        exact fun _ => rfl
      case _ heq | _ heq | _ heq =>
        exact ih.ap_cands _ n vt path g e
      case _ =>
        exact fr_append (ih.usages c ancC path g e false)
          (fun us => ih.ap_cands rest n vt path g e)

set_option maxHeartbeats 1600000 in
theorem fr_asgn_cands {fuel : Nat} (ih : Freshed fuel) :
    ∀ (n : Node) (q : List AsgnCand) (flag icf : Bool) (path : String) (g : Nat) (e : Bool),
      Fr (parse_assignment_cands (fuel + 1) n q flag icf path g e) := by
  intro n q flag icf path g e
  simp only [parse_assignment_cands_succ]
  split
  · exact fr_pure_nil
  case _ cand rest =>
    obtain ⟨cl, ct, cr⟩ := cand
    split
    · exact ih.asgn_cands n rest flag icf path g e
    case _ left ancL heqL =>
      split
      · exact ih.asgn_cands n rest flag icf path g e
      · split
        case _ heq =>
          intro st L st' hr0
          obtain ⟨gd, s1, h1, hr1⟩ := bind_ok hr0
          obtain ⟨hgd, hs1⟩ := get_guid_ok_inv h1
          subst hgd
          subst hs1
          revert hr1
          dsimp only
          split
          all_goals
            split
          case _ _ _ tn =>
            intro hr1
            obtain ⟨dt, s2, h2, hr2⟩ := bind_ok hr1
            obtain ⟨-, hs2⟩ := liftE_ok_inv h2
            subst hs2
            obtain ⟨t, s3, h3, hr3⟩ := bind_ok hr2
            obtain ⟨-, hs3⟩ := pure_ok_inv h3
            subst hs3
            obtain ⟨sym, s4, h4, hr4⟩ := bind_ok hr3
            obtain ⟨hsym, hs4⟩ := pure_ok_inv h4
            subst hsym
            subst hs4
            obtain ⟨more, s5, h5, hr5⟩ := bind_ok hr4
            obtain ⟨hL, hs⟩ := pure_ok_inv hr5
            subst hL
            obtain ⟨hle, hw⟩ := ih.asgn_cands n rest flag icf path g e _ more s5 h5
            subst hs
            exact ⟨by omega, winL_cons_guid (st + 1) rfl (by omega) hw (by omega)⟩
          case _ _ =>
            intro hr1
            obtain ⟨t, s3, h3, hr3⟩ := bind_ok hr1
            obtain ⟨-, hs3⟩ := pure_ok_inv h3
            subst hs3
            obtain ⟨sym, s4, h4, hr4⟩ := bind_ok hr3
            obtain ⟨hsym, hs4⟩ := pure_ok_inv h4
            subst hsym
            subst hs4
            obtain ⟨more, s5, h5, hr5⟩ := bind_ok hr4
            obtain ⟨hL, hs⟩ := pure_ok_inv hr5
            subst hL
            obtain ⟨hle, hw⟩ := ih.asgn_cands n rest flag icf path g e _ more s5 h5
            subst hs
            exact ⟨by omega, winL_cons_guid (st + 1) rfl (by omega) hw (by omega)⟩
          case _ _ _ tn =>
            intro hr1
            obtain ⟨dt, s2, h2, hr2⟩ := bind_ok hr1
            obtain ⟨-, hs2⟩ := liftE_ok_inv h2
            subst hs2
            obtain ⟨t, s3, h3, hr3⟩ := bind_ok hr2
            obtain ⟨-, hs3⟩ := pure_ok_inv h3
            subst hs3
            obtain ⟨sym, s4, h4, hr4⟩ := bind_ok hr3
            obtain ⟨hsym, hs4⟩ := pure_ok_inv h4
            subst hsym
            subst hs4
            obtain ⟨more, s5, h5, hr5⟩ := bind_ok hr4
            obtain ⟨hL, hs⟩ := pure_ok_inv hr5
            subst hL
            obtain ⟨hle, hw⟩ := ih.asgn_cands n rest flag icf path g e _ more s5 h5
            subst hs
            exact ⟨by omega, winL_cons_guid (st + 1) rfl (by omega) hw (by omega)⟩
          case _ _ =>
            intro hr1
            obtain ⟨t, s3, h3, hr3⟩ := bind_ok hr1
            obtain ⟨-, hs3⟩ := pure_ok_inv h3
            subst hs3
            obtain ⟨sym, s4, h4, hr4⟩ := bind_ok hr3
            obtain ⟨hsym, hs4⟩ := pure_ok_inv h4
            subst hsym
            subst hs4
            obtain ⟨more, s5, h5, hr5⟩ := bind_ok hr4
            obtain ⟨hL, hs⟩ := pure_ok_inv hr5
            subst hL
            obtain ⟨hle, hw⟩ := ih.asgn_cands n rest flag icf path g e _ more s5 h5
            subst hs
            exact ⟨by omega, winL_cons_guid (st + 1) rfl (by omega) hw (by omega)⟩
        case _ heq =>
          exact fr_append (ih.usages left ancL path g e false)
            (fun us => ih.asgn_cands n rest flag icf path g e)
        case _ heq | _ heq | _ heq =>
          dsimp only
          exact ih.asgn_cands n _ _ icf path g e
        case _ heq =>
          exact ih.asgn_cands n _ flag icf path g e
        case _ =>
          exact ih.asgn_cands n rest flag icf path g e

end RefactAst

namespace RefactAst

theorem winL_snoc_mid (g : Nat) {l : List Symbol} {d : Symbol} {a c : Nat}
    (hguid : d.guid = g) (hl : WinL l a c)
    (hfree : ∀ s ∈ l, s.guid ≠ g) (ha : a < g) (hg : g ≤ c) : WinL (l ++ [d]) a c := by
  obtain ⟨hw, hn⟩ := hl
  constructor
  · intro x hx
    rcases List.mem_append.mp hx with hx | hx
    · exact hw x hx
    · rcases List.mem_singleton.mp hx with rfl
      omega
  · rw [List.map_append]
    refine List.Nodup.append hn (by simp) ?_
    intro x hx1 hx2
    rw [List.mem_map] at hx1
    obtain ⟨s1, hs1, rfl⟩ := hx1
    simp at hx2
    have := hfree s1 hs1
    rw [hguid] at hx2
    exact this hx2

theorem fr_binary {m1 : Extract (List Symbol)} {α : Type} {o : Option α} {msg : String}
    {m2 : α → Extract (List Symbol)} (h1 : Fr m1) (h2 : ∀ x, Fr (m2 x)) :
    Fr (m1 >>= fun us1 => need o msg >>= fun r => m2 r >>= fun us2 => pure (us1 ++ us2)) := by
  intro st L st' hr0
  obtain ⟨us1, s1, ha, hr1⟩ := bind_ok hr0
  obtain ⟨r, s2, hb, hr2⟩ := bind_ok hr1
  obtain ⟨-, hs2⟩ := need_ok_inv hb
  obtain ⟨us2, s3, hc, hr3⟩ := bind_ok hr2
  obtain ⟨hL, hs⟩ := pure_ok_inv hr3
  subst hL
  obtain ⟨hle1, hw1⟩ := h1 st us1 s1 ha
  obtain ⟨hle2, hw2⟩ := h2 r s2 us2 s3 hc
  subst hs
  exact ⟨by omega, winL_append hw1 (winL_mono hw2 (by omega) (le_refl _))
    (by omega) (by omega)⟩

theorem fr_asgn {fuel : Nat} (ih : Freshed fuel) :
    ∀ (n : Node) (anc : List Node) (path : String) (g : Nat) (e : Bool),
      Fr (parse_assignment (fuel + 1) n anc path g e) := by
  intro n anc path g e
  simp only [parse_assignment_succ]
  rcases hR : n.childByField "right" with _ | right <;>
    rcases hB : n.childByField "body" with _ | body <;>
    dsimp only <;>
    intro st L st' hr0 <;>
    obtain ⟨us1, s1, ha, hr1⟩ := bind_ok hr0 <;>
    obtain ⟨us2, s2, hb, hr2⟩ := bind_ok hr1 <;>
    obtain ⟨us3, s3, hc, hr3⟩ := bind_ok hr2 <;>
    obtain ⟨hL, hs⟩ := pure_ok_inv hr3 <;>
    subst hL <;>
    obtain ⟨hle3, hw3⟩ := ih.asgn_cands n _ false (ancClassField anc) path g e s2 us3 s3 hc <;>
    subst hs
  · obtain ⟨h1a, h1b⟩ := pure_ok_inv ha
    obtain ⟨h2a, h2b⟩ := pure_ok_inv hb
    subst h1a
    subst h2a
    refine ⟨by omega, ?_⟩
    exact winL_append (winL_append (winL_nil st s1) (winL_nil s1 s2)
      (by omega) (by omega)) hw3 (by omega) (by omega)
  · obtain ⟨h1a, h1b⟩ := pure_ok_inv ha
    subst h1a
    obtain ⟨hle2, hw2⟩ := ih.usages body (n :: anc) path g e false s1 us2 s2 hb
    refine ⟨by omega, ?_⟩
    exact winL_append (winL_append (winL_nil st s1) hw2
      (by omega) (by omega)) hw3 (by omega) (by omega)
  · obtain ⟨hle1, hw1⟩ := ih.usages right (n :: anc) path g e false st us1 s1 ha
    obtain ⟨h2a, h2b⟩ := pure_ok_inv hb
    subst h2a
    refine ⟨by omega, ?_⟩
    exact winL_append (winL_append hw1 (winL_nil s1 s2)
      (by omega) (by omega)) hw3 (by omega) (by omega)
  · obtain ⟨hle1, hw1⟩ := ih.usages right (n :: anc) path g e false st us1 s1 ha
    obtain ⟨hle2, hw2⟩ := ih.usages body (n :: anc) path g e false s1 us2 s2 hb
    refine ⟨by omega, ?_⟩
    exact winL_append (winL_append hw1 hw2
      (by omega) (by omega)) hw3 (by omega) (by omega)

end RefactAst

namespace RefactAst

set_option maxHeartbeats 1600000 in
theorem fr_struct {fuel : Nat} (ih : Freshed fuel) :
    ∀ (n : Node) (anc : List Node) (path : String) (g : Nat) (e : Bool),
      Fr (parse_struct_declaration (fuel + 1) n anc path g e) := by
  intro n anc path g e
  simp only [parse_struct_declaration_succ]
  rcases hS : n.childByField "superclasses" with _ | sc <;>
    rcases hB : n.childByField "body" with _ | body <;>
    dsimp only <;>
    intro st L st' hr0 <;>
    obtain ⟨gd, s1, h1, hr1⟩ := bind_ok hr0 <;>
    obtain ⟨hgd, hs1⟩ := get_guid_ok_inv h1 <;>
    subst hgd <;>
    subst hs1 <;>
    obtain ⟨errs1, s2, h2, hr2⟩ := bind_ok hr1 <;>
    obtain ⟨hle1, hw1⟩ := ih.ferr n path (st + 1) (st + 1) errs1 s2 h2
  · -- no superclasses, no body
    obtain ⟨y, s3, h3, hr3⟩ := bind_ok hr2
    obtain ⟨hy, hs3⟩ := pure_ok_inv h3
    subst hy
    obtain ⟨y1, s4, h4, hr4⟩ := bind_ok hr3
    obtain ⟨hy1, hs4⟩ := pure_ok_inv h4
    subst hy1
    obtain ⟨hL, hs⟩ := pure_ok_inv hr4
    subst hL
    subst hs
    dsimp only
    have w12 := winL_append hw1 (winL_nil s2 s2) (by omega) (by omega)
    have w123 := winL_append w12 (winL_nil s2 s2) (by omega) (by omega)
    refine ⟨by omega, ?_⟩
    refine winL_snoc_guid (st + 1) rfl (by omega) ?_ ?_
    · exact winL_mono w123 (le_refl _) (by omega)
    · omega
  · -- no superclasses, with body
    obtain ⟨y, s3, h3, hr3⟩ := bind_ok hr2
    obtain ⟨hy, hs3⟩ := pure_ok_inv h3
    subst hy
    obtain ⟨u, s4, h4, hr4⟩ := bind_ok hr3
    obtain ⟨hle4, hw4⟩ := ih.usages body (n :: anc) path (st + 1) e true s3 u s4 h4
    obtain ⟨y1, s5, h5, hr5⟩ := bind_ok hr4
    obtain ⟨hy1, hs5⟩ := pure_ok_inv h5
    subst hy1
    obtain ⟨hL, hs⟩ := pure_ok_inv hr5
    subst hL
    subst hs
    dsimp only
    have w12 := winL_append hw1 (winL_nil s2 s3) (by omega) (by omega)
    have w123 := winL_append w12 hw4 (by omega) (by omega)
    refine ⟨by omega, ?_⟩
    refine winL_snoc_guid (st + 1) rfl (by omega) ?_ ?_
    · exact winL_mono w123 (le_refl _) (by omega)
    · omega
  · -- superclasses, no body
    obtain ⟨tds, s3, h3, hr3⟩ := bind_ok hr2
    obtain ⟨-, hs3⟩ := liftE_ok_inv h3
    obtain ⟨e2, s4, h4, hr4⟩ := bind_ok hr3
    obtain ⟨hle4, hw4⟩ := ih.ferr sc path (st + 1) s3 e2 s4 h4
    obtain ⟨y, s5, h5, hr5⟩ := bind_ok hr4
    obtain ⟨hy, hs5⟩ := pure_ok_inv h5
    subst hy
    obtain ⟨y1, s6, h6, hr6⟩ := bind_ok hr5
    obtain ⟨hy1, hs6⟩ := pure_ok_inv h6
    subst hy1
    obtain ⟨hL, hs⟩ := pure_ok_inv hr6
    subst hL
    subst hs
    dsimp only
    have w12 := winL_append hw1 (winL_mono hw4 (by omega) (le_refl _)) (by omega) (by omega)
    have w123 := winL_append w12 (winL_nil s4 s4) (by omega) (by omega)
    refine ⟨by omega, ?_⟩
    refine winL_snoc_guid (st + 1) rfl (by omega) ?_ ?_
    · exact winL_mono w123 (le_refl _) (by omega)
    · omega
  · -- superclasses and body
    obtain ⟨tds, s3, h3, hr3⟩ := bind_ok hr2
    obtain ⟨-, hs3⟩ := liftE_ok_inv h3
    obtain ⟨e2, s4, h4, hr4⟩ := bind_ok hr3
    obtain ⟨hle4, hw4⟩ := ih.ferr sc path (st + 1) s3 e2 s4 h4
    obtain ⟨y, s5, h5, hr5⟩ := bind_ok hr4
    obtain ⟨hy, hs5⟩ := pure_ok_inv h5
    subst hy
    obtain ⟨u, s6, h6, hr6⟩ := bind_ok hr5
    obtain ⟨hle6, hw6⟩ := ih.usages body (n :: anc) path (st + 1) e true s5 u s6 h6
    obtain ⟨y1, s7, h7, hr7⟩ := bind_ok hr6
    obtain ⟨hy1, hs7⟩ := pure_ok_inv h7
    subst hy1
    obtain ⟨hL, hs⟩ := pure_ok_inv hr7
    subst hL
    subst hs
    dsimp only
    have w12 := winL_append hw1 (winL_mono hw4 (by omega) (le_refl _)) (by omega) (by omega)
    have w123 := winL_append w12 (winL_mono hw6 (by omega) (le_refl _)) (by omega) (by omega)
    refine ⟨by omega, ?_⟩
    refine winL_snoc_guid (st + 1) rfl (by omega) ?_ ?_
    · exact winL_mono w123 (le_refl _) (by omega)
    · omega

end RefactAst

namespace RefactAst

set_option maxHeartbeats 3200000 in
theorem fr_fn {fuel : Nat} (ih : Freshed fuel) :
    ∀ (n : Node) (anc : List Node) (path : String) (g : Nat) (e : Bool),
      Fr (parse_function_declaration (fuel + 1) n anc path g e) := by
  intro n anc path g e
  simp only [parse_function_declaration_succ]
  rcases hP : n.childByField "parameters" with _ | ps <;>
    rcases hRT : n.childByField "return_type" with _ | rt <;>
    rcases hB : n.childByField "body" with _ | body <;>
    dsimp only <;>
    intro st L st' hr0
  · -- params=False rt=False body=False
    obtain ⟨errs1, s1, h1, hr1⟩ := bind_ok hr0
    obtain ⟨hle1, hw1⟩ := ih.ferr n path 0 st errs1 s1 h1
    obtain ⟨y, s2, h2y, hr2⟩ := bind_ok hr1
    obtain ⟨hy, hs2y⟩ := pure_ok_inv h2y
    subst hy
    obtain ⟨gd, sg, hg, hrg⟩ := bind_ok hr2
    obtain ⟨hgd, hsg⟩ := get_guid_ok_inv hg
    subst hgd
    subst hsg
    obtain ⟨y2, s5, h5y, hr5⟩ := bind_ok hrg
    obtain ⟨hy2, hs5y⟩ := pure_ok_inv h5y
    subst hy2
    obtain ⟨y3, s8, h8y, hr8⟩ := bind_ok hr5
    obtain ⟨hy3, hs8y⟩ := pure_ok_inv h8y
    subst hy3
    obtain ⟨hL, hs⟩ := pure_ok_inv hr8
    subst hL
    subst hs
    dsimp only
    have wA := winL_append hw1 (winL_nil s1 s1) (by omega) (by omega)
    have wB := winL_append wA (winL_nil s1 s1) (by omega) (by omega)
    have wC := winL_append wB (winL_nil s1 s1) (by omega) (by omega)
    refine ⟨by omega, ?_⟩
    refine winL_snoc_mid (s2 + 1) rfl ?_ ?_ ?_ ?_
    · exact winL_mono wC (le_refl _) (by omega)
    · intro s hsm
      rcases List.mem_append.mp hsm with hm1 | hm1
      · rcases List.mem_append.mp hm1 with hm2 | hm2
        · rcases List.mem_append.mp hm2 with hm3 | hm3
          · have := hw1.1 s hm3
            omega
          · simp at hm3
        · simp at hm2
      · simp at hm1
    · omega
    · omega
  · -- params=False rt=False body=True
    obtain ⟨errs1, s1, h1, hr1⟩ := bind_ok hr0
    obtain ⟨hle1, hw1⟩ := ih.ferr n path 0 st errs1 s1 h1
    obtain ⟨y, s2, h2y, hr2⟩ := bind_ok hr1
    obtain ⟨hy, hs2y⟩ := pure_ok_inv h2y
    subst hy
    obtain ⟨gd, sg, hg, hrg⟩ := bind_ok hr2
    obtain ⟨hgd, hsg⟩ := get_guid_ok_inv hg
    subst hgd
    subst hsg
    obtain ⟨y2, s5, h5y, hr5⟩ := bind_ok hrg
    obtain ⟨hy2, hs5y⟩ := pure_ok_inv h5y
    subst hy2
    obtain ⟨u, s8, h8, hr8⟩ := bind_ok hr5
    obtain ⟨hle8, hw8⟩ := ih.usages body (n :: anc) path (s2 + 1) e true s5 u s8 h8
    obtain ⟨y3, s9, h9, hr9⟩ := bind_ok hr8
    obtain ⟨hy3, hs9⟩ := pure_ok_inv h9
    subst hy3
    obtain ⟨hL, hs⟩ := pure_ok_inv hr9
    subst hL
    subst hs
    dsimp only
    have wA := winL_append hw1 (winL_nil s1 s1) (by omega) (by omega)
    have wB := winL_append wA (winL_nil s1 s1) (by omega) (by omega)
    have wC := winL_append wB (winL_mono hw8 (by omega) (le_refl _)) (by omega) (by omega)
    refine ⟨by omega, ?_⟩
    refine winL_snoc_mid (s2 + 1) rfl ?_ ?_ ?_ ?_
    · exact winL_mono wC (le_refl _) (by omega)
    · intro s hsm
      rcases List.mem_append.mp hsm with hm1 | hm1
      · rcases List.mem_append.mp hm1 with hm2 | hm2
        · rcases List.mem_append.mp hm2 with hm3 | hm3
          · have := hw1.1 s hm3
            omega
          · simp at hm3
        · simp at hm2
      · have := hw8.1 s hm1
        omega
    · omega
    · omega
  · -- params=False rt=True body=False
    obtain ⟨errs1, s1, h1, hr1⟩ := bind_ok hr0
    obtain ⟨hle1, hw1⟩ := ih.ferr n path 0 st errs1 s1 h1
    obtain ⟨y, s2, h2y, hr2⟩ := bind_ok hr1
    obtain ⟨hy, hs2y⟩ := pure_ok_inv h2y
    subst hy
    obtain ⟨gd, sg, hg, hrg⟩ := bind_ok hr2
    obtain ⟨hgd, hsg⟩ := get_guid_ok_inv hg
    subst hgd
    subst hsg
    obtain ⟨t?, s5, h5, hr5⟩ := bind_ok hrg
    obtain ⟨-, hs5⟩ := liftE_ok_inv h5
    obtain ⟨e3, s6, h6, hr6⟩ := bind_ok hr5
    obtain ⟨hle6, hw6⟩ := ih.ferr rt path (s2 + 1) s5 e3 s6 h6
    obtain ⟨y2, s7, h7, hr7⟩ := bind_ok hr6
    obtain ⟨hy2, hs7⟩ := pure_ok_inv h7
    subst hy2
    obtain ⟨y3, s8, h8y, hr8⟩ := bind_ok hr7
    obtain ⟨hy3, hs8y⟩ := pure_ok_inv h8y
    subst hy3
    obtain ⟨hL, hs⟩ := pure_ok_inv hr8
    subst hL
    subst hs
    dsimp only
    have wA := winL_append hw1 (winL_nil s1 s1) (by omega) (by omega)
    have wB := winL_append wA (winL_mono hw6 (by omega) (le_refl _)) (by omega) (by omega)
    have wC := winL_append wB (winL_nil s6 s6) (by omega) (by omega)
    refine ⟨by omega, ?_⟩
    refine winL_snoc_mid (s2 + 1) rfl ?_ ?_ ?_ ?_
    · exact winL_mono wC (le_refl _) (by omega)
    · intro s hsm
      rcases List.mem_append.mp hsm with hm1 | hm1
      · rcases List.mem_append.mp hm1 with hm2 | hm2
        · rcases List.mem_append.mp hm2 with hm3 | hm3
          · have := hw1.1 s hm3
            omega
          · simp at hm3
        · have := hw6.1 s hm2
          omega
      · simp at hm1
    · omega
    · omega
  · -- params=False rt=True body=True
    obtain ⟨errs1, s1, h1, hr1⟩ := bind_ok hr0
    obtain ⟨hle1, hw1⟩ := ih.ferr n path 0 st errs1 s1 h1
    obtain ⟨y, s2, h2y, hr2⟩ := bind_ok hr1
    obtain ⟨hy, hs2y⟩ := pure_ok_inv h2y
    subst hy
    obtain ⟨gd, sg, hg, hrg⟩ := bind_ok hr2
    obtain ⟨hgd, hsg⟩ := get_guid_ok_inv hg
    subst hgd
    subst hsg
    obtain ⟨t?, s5, h5, hr5⟩ := bind_ok hrg
    obtain ⟨-, hs5⟩ := liftE_ok_inv h5
    obtain ⟨e3, s6, h6, hr6⟩ := bind_ok hr5
    obtain ⟨hle6, hw6⟩ := ih.ferr rt path (s2 + 1) s5 e3 s6 h6
    obtain ⟨y2, s7, h7, hr7⟩ := bind_ok hr6
    obtain ⟨hy2, hs7⟩ := pure_ok_inv h7
    subst hy2
    obtain ⟨u, s8, h8, hr8⟩ := bind_ok hr7
    obtain ⟨hle8, hw8⟩ := ih.usages body (n :: anc) path (s2 + 1) e true s7 u s8 h8
    obtain ⟨y3, s9, h9, hr9⟩ := bind_ok hr8
    obtain ⟨hy3, hs9⟩ := pure_ok_inv h9
    subst hy3
    obtain ⟨hL, hs⟩ := pure_ok_inv hr9
    subst hL
    subst hs
    dsimp only
    have wA := winL_append hw1 (winL_nil s1 s1) (by omega) (by omega)
    have wB := winL_append wA (winL_mono hw6 (by omega) (le_refl _)) (by omega) (by omega)
    have wC := winL_append wB (winL_mono hw8 (by omega) (le_refl _)) (by omega) (by omega)
    refine ⟨by omega, ?_⟩
    refine winL_snoc_mid (s2 + 1) rfl ?_ ?_ ?_ ?_
    · exact winL_mono wC (le_refl _) (by omega)
    · intro s hsm
      rcases List.mem_append.mp hsm with hm1 | hm1
      · rcases List.mem_append.mp hm1 with hm2 | hm2
        · rcases List.mem_append.mp hm2 with hm3 | hm3
          · have := hw1.1 s hm3
            omega
          · simp at hm3
        · have := hw6.1 s hm2
          omega
      · have := hw8.1 s hm1
        omega
    · omega
    · omega
  · -- params=True rt=False body=False
    obtain ⟨errs1, s1, h1, hr1⟩ := bind_ok hr0
    obtain ⟨hle1, hw1⟩ := ih.ferr n path 0 st errs1 s1 h1
    obtain ⟨e2, s2, h2, hr2⟩ := bind_ok hr1
    obtain ⟨hle2, hw2⟩ := ih.ferr ps path 0 s1 e2 s2 h2
    obtain ⟨fa, s3, h3, hr3⟩ := bind_ok hr2
    obtain ⟨-, hs3⟩ := liftE_ok_inv h3
    obtain ⟨y, s4, h4, hr4⟩ := bind_ok hr3
    obtain ⟨hy, hs4⟩ := pure_ok_inv h4
    subst hy
    obtain ⟨gd, sg, hg, hrg⟩ := bind_ok hr4
    obtain ⟨hgd, hsg⟩ := get_guid_ok_inv hg
    subst hgd
    subst hsg
    obtain ⟨y2, s5, h5y, hr5⟩ := bind_ok hrg
    obtain ⟨hy2, hs5y⟩ := pure_ok_inv h5y
    subst hy2
    obtain ⟨y3, s8, h8y, hr8⟩ := bind_ok hr5
    obtain ⟨hy3, hs8y⟩ := pure_ok_inv h8y
    subst hy3
    obtain ⟨hL, hs⟩ := pure_ok_inv hr8
    subst hL
    subst hs
    dsimp only
    have wA := winL_append hw1 hw2 (by omega) (by omega)
    have wB := winL_append wA (winL_nil s2 s2) (by omega) (by omega)
    have wC := winL_append wB (winL_nil s2 s2) (by omega) (by omega)
    refine ⟨by omega, ?_⟩
    refine winL_snoc_mid (s4 + 1) rfl ?_ ?_ ?_ ?_
    · exact winL_mono wC (le_refl _) (by omega)
    · intro s hsm
      rcases List.mem_append.mp hsm with hm1 | hm1
      · rcases List.mem_append.mp hm1 with hm2 | hm2
        · rcases List.mem_append.mp hm2 with hm3 | hm3
          · have := hw1.1 s hm3
            omega
          · have := hw2.1 s hm3
            omega
        · simp at hm2
      · simp at hm1
    · omega
    · omega
  · -- params=True rt=False body=True
    obtain ⟨errs1, s1, h1, hr1⟩ := bind_ok hr0
    obtain ⟨hle1, hw1⟩ := ih.ferr n path 0 st errs1 s1 h1
    obtain ⟨e2, s2, h2, hr2⟩ := bind_ok hr1
    obtain ⟨hle2, hw2⟩ := ih.ferr ps path 0 s1 e2 s2 h2
    obtain ⟨fa, s3, h3, hr3⟩ := bind_ok hr2
    obtain ⟨-, hs3⟩ := liftE_ok_inv h3
    obtain ⟨y, s4, h4, hr4⟩ := bind_ok hr3
    obtain ⟨hy, hs4⟩ := pure_ok_inv h4
    subst hy
    obtain ⟨gd, sg, hg, hrg⟩ := bind_ok hr4
    obtain ⟨hgd, hsg⟩ := get_guid_ok_inv hg
    subst hgd
    subst hsg
    obtain ⟨y2, s5, h5y, hr5⟩ := bind_ok hrg
    obtain ⟨hy2, hs5y⟩ := pure_ok_inv h5y
    subst hy2
    obtain ⟨u, s8, h8, hr8⟩ := bind_ok hr5
    obtain ⟨hle8, hw8⟩ := ih.usages body (n :: anc) path (s4 + 1) e true s5 u s8 h8
    obtain ⟨y3, s9, h9, hr9⟩ := bind_ok hr8
    obtain ⟨hy3, hs9⟩ := pure_ok_inv h9
    subst hy3
    obtain ⟨hL, hs⟩ := pure_ok_inv hr9
    subst hL
    subst hs
    dsimp only
    have wA := winL_append hw1 hw2 (by omega) (by omega)
    have wB := winL_append wA (winL_nil s2 s2) (by omega) (by omega)
    have wC := winL_append wB (winL_mono hw8 (by omega) (le_refl _)) (by omega) (by omega)
    refine ⟨by omega, ?_⟩
    refine winL_snoc_mid (s4 + 1) rfl ?_ ?_ ?_ ?_
    · exact winL_mono wC (le_refl _) (by omega)
    · intro s hsm
      rcases List.mem_append.mp hsm with hm1 | hm1
      · rcases List.mem_append.mp hm1 with hm2 | hm2
        · rcases List.mem_append.mp hm2 with hm3 | hm3
          · have := hw1.1 s hm3
            omega
          · have := hw2.1 s hm3
            omega
        · simp at hm2
      · have := hw8.1 s hm1
        omega
    · omega
    · omega
  · -- params=True rt=True body=False
    obtain ⟨errs1, s1, h1, hr1⟩ := bind_ok hr0
    obtain ⟨hle1, hw1⟩ := ih.ferr n path 0 st errs1 s1 h1
    obtain ⟨e2, s2, h2, hr2⟩ := bind_ok hr1
    obtain ⟨hle2, hw2⟩ := ih.ferr ps path 0 s1 e2 s2 h2
    obtain ⟨fa, s3, h3, hr3⟩ := bind_ok hr2
    obtain ⟨-, hs3⟩ := liftE_ok_inv h3
    obtain ⟨y, s4, h4, hr4⟩ := bind_ok hr3
    obtain ⟨hy, hs4⟩ := pure_ok_inv h4
    subst hy
    obtain ⟨gd, sg, hg, hrg⟩ := bind_ok hr4
    obtain ⟨hgd, hsg⟩ := get_guid_ok_inv hg
    subst hgd
    subst hsg
    obtain ⟨t?, s5, h5, hr5⟩ := bind_ok hrg
    obtain ⟨-, hs5⟩ := liftE_ok_inv h5
    obtain ⟨e3, s6, h6, hr6⟩ := bind_ok hr5
    obtain ⟨hle6, hw6⟩ := ih.ferr rt path (s4 + 1) s5 e3 s6 h6
    obtain ⟨y2, s7, h7, hr7⟩ := bind_ok hr6
    obtain ⟨hy2, hs7⟩ := pure_ok_inv h7
    subst hy2
    obtain ⟨y3, s8, h8y, hr8⟩ := bind_ok hr7
    obtain ⟨hy3, hs8y⟩ := pure_ok_inv h8y
    subst hy3
    obtain ⟨hL, hs⟩ := pure_ok_inv hr8
    subst hL
    subst hs
    dsimp only
    have wA := winL_append hw1 hw2 (by omega) (by omega)
    have wB := winL_append wA (winL_mono hw6 (by omega) (le_refl _)) (by omega) (by omega)
    have wC := winL_append wB (winL_nil s6 s6) (by omega) (by omega)
    refine ⟨by omega, ?_⟩
    refine winL_snoc_mid (s4 + 1) rfl ?_ ?_ ?_ ?_
    · exact winL_mono wC (le_refl _) (by omega)
    · intro s hsm
      rcases List.mem_append.mp hsm with hm1 | hm1
      · rcases List.mem_append.mp hm1 with hm2 | hm2
        · rcases List.mem_append.mp hm2 with hm3 | hm3
          · have := hw1.1 s hm3
            omega
          · have := hw2.1 s hm3
            omega
        · have := hw6.1 s hm2
          omega
      · simp at hm1
    · omega
    · omega
  · -- params=True rt=True body=True
    obtain ⟨errs1, s1, h1, hr1⟩ := bind_ok hr0
    obtain ⟨hle1, hw1⟩ := ih.ferr n path 0 st errs1 s1 h1
    obtain ⟨e2, s2, h2, hr2⟩ := bind_ok hr1
    obtain ⟨hle2, hw2⟩ := ih.ferr ps path 0 s1 e2 s2 h2
    obtain ⟨fa, s3, h3, hr3⟩ := bind_ok hr2
    obtain ⟨-, hs3⟩ := liftE_ok_inv h3
    obtain ⟨y, s4, h4, hr4⟩ := bind_ok hr3
    obtain ⟨hy, hs4⟩ := pure_ok_inv h4
    subst hy
    obtain ⟨gd, sg, hg, hrg⟩ := bind_ok hr4
    obtain ⟨hgd, hsg⟩ := get_guid_ok_inv hg
    subst hgd
    subst hsg
    obtain ⟨t?, s5, h5, hr5⟩ := bind_ok hrg
    obtain ⟨-, hs5⟩ := liftE_ok_inv h5
    obtain ⟨e3, s6, h6, hr6⟩ := bind_ok hr5
    obtain ⟨hle6, hw6⟩ := ih.ferr rt path (s4 + 1) s5 e3 s6 h6
    obtain ⟨y2, s7, h7, hr7⟩ := bind_ok hr6
    obtain ⟨hy2, hs7⟩ := pure_ok_inv h7
    subst hy2
    obtain ⟨u, s8, h8, hr8⟩ := bind_ok hr7
    obtain ⟨hle8, hw8⟩ := ih.usages body (n :: anc) path (s4 + 1) e true s7 u s8 h8
    obtain ⟨y3, s9, h9, hr9⟩ := bind_ok hr8
    obtain ⟨hy3, hs9⟩ := pure_ok_inv h9
    subst hy3
    obtain ⟨hL, hs⟩ := pure_ok_inv hr9
    subst hL
    subst hs
    dsimp only
    have wA := winL_append hw1 hw2 (by omega) (by omega)
    have wB := winL_append wA (winL_mono hw6 (by omega) (le_refl _)) (by omega) (by omega)
    have wC := winL_append wB (winL_mono hw8 (by omega) (le_refl _)) (by omega) (by omega)
    refine ⟨by omega, ?_⟩
    refine winL_snoc_mid (s4 + 1) rfl ?_ ?_ ?_ ?_
    · exact winL_mono wC (le_refl _) (by omega)
    · intro s hsm
      rcases List.mem_append.mp hsm with hm1 | hm1
      · rcases List.mem_append.mp hm1 with hm2 | hm2
        · rcases List.mem_append.mp hm2 with hm3 | hm3
          · have := hw1.1 s hm3
            omega
          · have := hw2.1 s hm3
            omega
        · have := hw6.1 s hm2
          omega
      · have := hw8.1 s hm1
        omega
    · omega
    · omega

end RefactAst

namespace RefactAst

/-! ## Weakest-precondition reasoning for runs -/

def wp {α : Type} (m : Extract α) (Q : α → Nat → Prop) (st : Nat) : Prop :=
  ∀ a st', m st = .ok (a, st') → Q a st'

theorem fr_of_wp {m : Extract (List Symbol)}
    (h : ∀ st, wp m (fun L st' => st ≤ st' ∧ WinL L st st') st) : Fr m :=
  fun st L st' hr => h st L st' hr

theorem wp_bind {α β : Type} {m : Extract α} {k : α → Extract β} {Q : β → Nat → Prop} {st : Nat}
    (h : wp m (fun a s1 => wp (k a) Q s1) st) : wp (m >>= k) Q st := by
  intro b st' hr
  obtain ⟨a, s1, h1, h2⟩ := bind_ok hr
  exact h a s1 h1 b st' h2

theorem wp_pure {α : Type} {a : α} {Q : α → Nat → Prop} {st : Nat} (h : Q a st) :
    wp (pure a) Q st := by
  intro b st' hr
  obtain ⟨hb, hs⟩ := pure_ok_inv hr
  subst hb
  subst hs
  exact h

theorem wp_get_guid {Q : Nat → Nat → Prop} {st : Nat} (h : Q (st + 1) (st + 1)) :
    wp get_guid Q st := by
  intro b st' hr
  obtain ⟨hb, hs⟩ := get_guid_ok_inv hr
  subst hb
  subst hs
  exact h

theorem wp_need {α : Type} {o : Option α} {msg : String} {Q : α → Nat → Prop} {st : Nat}
    (h : ∀ a, o = some a → Q a st) : wp (need o msg) Q st := by
  intro b st' hr
  obtain ⟨ho, hs⟩ := need_ok_inv hr
  subst hs
  exact h b ho

theorem wp_liftE {α : Type} {m : Except RunErr α} {Q : α → Nat → Prop} {st : Nat}
    (h : ∀ a, m = .ok a → Q a st) : wp (liftE m) Q st := by
  intro b st' hr
  obtain ⟨ho, hs⟩ := liftE_ok_inv hr
  subst hs
  exact h b ho

theorem wp_fr {m : Extract (List Symbol)} (hm : Fr m) {Q : List Symbol → Nat → Prop} {st : Nat}
    (h : ∀ L st', st ≤ st' → WinL L st st' → Q L st') : wp m Q st := by
  intro L st' hr
  obtain ⟨hle, hw⟩ := hm st L st' hr
  exact h L st' hle hw

set_option maxHeartbeats 1600000 in
theorem fr_call {fuel : Nat} (ih : Freshed fuel) :
    ∀ (n : Node) (anc : List Node) (path : String) (g : Nat) (e : Bool),
      Fr (parse_call_expression (fuel + 1) n anc path g e) := by
  intro n anc path g e
  simp only [parse_call_expression_succ]
  refine fr_of_wp (fun st => ?_)
  refine wp_bind (wp_get_guid ?_)
  refine wp_bind (wp_fr (ih.ferr n path (st + 1)) (fun errs1 s2 hle2 hw2 => ?_))
  refine wp_bind (wp_need (fun args hargs => ?_))
  refine wp_bind (wp_fr (ih.cargs args.children (args :: n :: anc) path (st + 1) e)
    (fun asy s4 hle4 hw4 => ?_))
  refine wp_bind (wp_fr (ih.ferr args path (st + 1)) (fun errs2 s5 hle5 hw5 => ?_))
  refine wp_bind (wp_need (fun f1 hf1 => ?_))
  have wA := winL_append hw2 hw4 (by omega) (by omega)
  have wB := winL_append wA hw5 (by omega) (by omega)
  split
  · -- identifier callee
    refine wp_bind (wp_pure ?_)
    refine wp_pure ⟨by omega, ?_⟩
    dsimp only
    have wC := winL_append wB (winL_nil s5 s5) (by omega) (by omega)
    refine winL_snoc_guid (st + 1) rfl (by omega) ?_ ?_
    · exact winL_mono wC (le_refl _) (by omega)
    · omega
  · -- attribute callee
    refine wp_bind (wp_need (fun obj hobj => ?_))
    refine wp_bind (wp_fr (ih.usages obj _ path g e false) (fun us s9 hle9 hw9 => ?_))
    refine wp_bind (wp_need (fun attr hattr => ?_))
    refine wp_bind (wp_pure ?_)
    refine wp_pure ⟨by omega, ?_⟩
    dsimp only
    have wC := winL_append wB hw9 (by omega) (by omega)
    refine winL_snoc_guid (st + 1) rfl (by omega) ?_ ?_
    · exact winL_mono wC (le_refl _) (by omega)
    · omega
  · -- other callee
    refine wp_bind (wp_fr (ih.usages f1 (n :: anc) path g e false) (fun us s9 hle9 hw9 => ?_))
    refine wp_bind (wp_pure ?_)
    refine wp_pure ⟨by omega, ?_⟩
    dsimp only
    have wC := winL_append wB hw9 (by omega) (by omega)
    refine winL_snoc_guid (st + 1) rfl (by omega) ?_ ?_
    · exact winL_mono wC (le_refl _) (by omega)
    · omega

theorem fr_guid_one {sym : Nat → Symbol} (hsym : ∀ g, (sym g).guid = g) :
    Fr (get_guid >>= fun gd => pure [sym gd]) := by
  intro st L st' h
  obtain ⟨gd, s1, h1, h⟩ := bind_ok h
  obtain ⟨hgd, hs1⟩ := get_guid_ok_inv h1
  subst hgd
  subst hs1
  obtain ⟨hL, hs⟩ := pure_ok_inv h
  subst hL
  subst hs
  exact ⟨by omega, winL_singleton_guid (st + 1) (hsym (st + 1)) (by omega) (le_refl _)⟩

set_option maxHeartbeats 3200000 in
theorem fr_usages {fuel : Nat} (ih : Freshed fuel) :
    ∀ (n : Node) (anc : List Node) (path : String) (g : Nat) (e fb : Bool),
      Fr (parse_usages (fuel + 1) n anc path g e fb) := by
  intro n anc path g e fb
  simp only [parse_usages]
  split
  case _ _heq | _ _heq | _ _heq | _ _heq | _ _heq | _ _heq | _ _heq | _ _heq | _ _heq | _ _heq | _ _heq | _ _heq | _ _heq | _ _heq | _ _heq | _ _heq | _ _heq | _ _heq | _ _heq | _ _heq | _ _heq | _ _heq | _ _heq | _ _heq | _ _heq | _ _heq | _ _heq | _ _heq | _ _heq | _ _heq =>
    exact ih.usages_list n.children (n :: anc) path g e _
  case _ _heq =>
    exact fr_need_bind (fun v => ih.usages v (n :: anc) path g e false)
  case _ _heq =>
    exact ih.struct n anc path g e
  case _ _heq =>
    exact ih.fn n anc path g e
  case _ _heq =>
    split
    case _ d hd =>
      split
      · exact ih.struct d (n :: anc) path g e
      · exact ih.fn d (n :: anc) path g e
      · exact fr_pure_nil
    case _ => exact fr_pure_nil
  case _ _heq =>
    refine fr_need_bind (fun v => ?_)
    split
    case _ al hal =>
      exact fr_need_bind (fun a0 => ih.ap_cands [(a0, al :: n :: anc)] n v.text path g e)
    case _ => exact fr_pure_nil
  case _ _heq | _ _heq =>
    exact fr_need_bind (fun v => ih.usages v (n :: anc) path g e false)
  case _ _heq | _ _heq | _ _heq | _ _heq =>
    exact fr_need_bind (fun l =>
      fr_binary (ih.usages l (n :: anc) path g e false)
        (fun r => ih.usages r (n :: anc) path g e false))
  case _ _heq =>
    exact fr_need_bind (fun l =>
      fr_binary (ih.usages l (n :: anc) path g e false)
        (fun r => ih.usages r (n :: anc) path g e false))
  case _ _heq =>
    exact fr_guid_one (fun _ => rfl)
  case _ _heq =>
    intro st L st' hrun0
    obtain ⟨attr, s1, h1, hrun1⟩ := bind_ok hrun0
    obtain ⟨-, hs1⟩ := need_ok_inv h1
    subst hs1
    obtain ⟨gd, s2, h2, hrun2⟩ := bind_ok hrun1
    obtain ⟨hgd, hs2⟩ := get_guid_ok_inv h2
    subst hgd
    subst hs2
    obtain ⟨obj, s3, h3, hrun3⟩ := bind_ok hrun2
    obtain ⟨-, hs3⟩ := need_ok_inv h3
    subst hs3
    obtain ⟨us, s4, h4, hrun4⟩ := bind_ok hrun3
    obtain ⟨hL, hs⟩ := pure_ok_inv hrun4
    subst hL
    obtain ⟨hle, hw⟩ := ih.usages obj (n :: anc) path g e false _ us s4 h4
    subst hs
    refine ⟨by omega, ?_⟩
    refine winL_snoc_guid (s1 + 1) rfl (by omega) hw (by omega)
  case _ _heq | _ _heq =>
    exact ih.asgn n anc path g e
  case _ _heq =>
    refine fr_of_wp (fun st => ?_)
    refine wp_bind (wp_need (fun cond hcond => ?_))
    refine wp_bind (wp_fr (ih.usages cond (n :: anc) path g e false)
      (fun us1 s2 hle2 hw2 => ?_))
    refine wp_bind (wp_need (fun body hbody => ?_))
    refine wp_bind (wp_fr (ih.usages body (n :: anc) path g e false)
      (fun us2 s3 hle3 hw3 => ?_))
    dsimp only
    split
    case _ alt halt =>
      split
      case _ ab hab =>
        refine wp_bind (wp_fr (ih.usages ab (alt :: n :: anc) path g e false)
          (fun us3 s4 hle4 hw4 => ?_))
        refine wp_pure ⟨by omega, ?_⟩
        exact winL_append (winL_append hw2 hw3 (by omega) (by omega)) hw4
          (by omega) (by omega)
      case _ =>
        exact wp_bind (wp_pure (wp_pure ⟨by omega,
          winL_append (winL_append hw2 hw3 (by omega) (by omega)) (winL_nil s3 s3)
            (by omega) (by omega)⟩))
    case _ =>
      exact wp_bind (wp_pure (wp_pure ⟨by omega,
        winL_append (winL_append hw2 hw3 (by omega) (by omega)) (winL_nil s3 s3)
          (by omega) (by omega)⟩))
  case _ _heq =>
    exact fr_need_bind (fun l =>
      fr_binary (ih.usages l (n :: anc) path g e false)
        (fun r => ih.usages r (n :: anc) path g e false))
  case _ _heq =>
    exact ih.call n anc path g e
  case _ _heq =>
    exact ih.fn n anc path g e
  case _ _heq | _ _heq =>
    split
    · exact fr_guid_one (fun _ => rfl)
    · exact fr_pure_nil
  case _ _heq | _ _heq =>
    split
    · exact fr_guid_one (fun _ => rfl)
    · exact fr_import_names _ n path g _
  case _ _heq =>
    exact ih.perr n path g
  case _ =>
    exact ih.usages_list n.children (n :: anc) path g e _

/-- The freshness induction over fuel. -/
theorem freshed : ∀ fuel : Nat, Freshed fuel
  | 0 => by
      refine ⟨?_, ?_, ?_, ?_, ?_, ?_, ?_, ?_, ?_, ?_, ?_, ?_, ?_⟩ <;>
        (intros; exact fr_outOfFuel)
  | fuel + 1 =>
      have ih := freshed fuel
      ⟨fr_usages ih, fr_usages_list ih, fr_asgn ih, fr_asgn_cands ih, fr_ap ih,
       fr_struct ih, fr_fn ih, fr_call ih, fr_cargs ih, fr_ferr ih, fr_ferr_list ih,
       fr_perr ih, fr_perr_list ih⟩

/-- Any successful extraction run only emits guids from the window above its
starting counter, and those guids are pairwise distinct. -/
theorem parse_fresh (root : Node) (path : String) (fuel st : Nat)
    (L : List Symbol) (st' : Nat) (h : parse root path fuel st = .ok (L, st')) :
    st ≤ st' ∧ WinL L st st' := by
  obtain ⟨pg, s1, h1, h2⟩ := bind_ok h
  obtain ⟨hpg, hs1⟩ := get_guid_ok_inv h1
  subst hpg
  subst hs1
  obtain ⟨hle, hw⟩ := (freshed fuel).usages root [] path (st + 1) false true (st + 1) L st' h2
  exact ⟨by omega, winL_mono hw (by omega) (le_refl _)⟩

/-- Witness input for the guid-uniqueness claim: a module holding two identifiers. -/
def c6w_tree : Node :=
  .mk "module" "x y" TSRange.zero none
    [.mk "identifier" "x" TSRange.zero none [],
     .mk "identifier" "y" TSRange.zero none []]

/-- First symbol extracted from `c6w_tree` when the run starts at guid state 0. -/
def c6s1 : Symbol :=
  { fields := { name := "x", language := "python", full_range := TSRange.zero,
                file_path := "main.py", parent_guid := some 1, guid := 2 },
    variant := .variableUsage }

/-- Second symbol extracted from `c6w_tree` when the run starts at guid state 0. -/
def c6s2 : Symbol :=
  { fields := { name := "y", language := "python", full_range := TSRange.zero,
                file_path := "main.py", parent_guid := some 1, guid := 3 },
    variant := .variableUsage }

/-- C6: within one extraction run over one file, the guids of all returned
symbols are pairwise distinct — every symbol is stamped from the strictly
increasing guid counter, including each per-name import clone. -/
theorem C6_guid_uniqueness (root : Node) (path : String) (fuel st st' : Nat)
    (L : List Symbol) (h : parse root path fuel st = .ok (L, st')) :
    (L.map Symbol.guid).Nodup :=
  (parse_fresh root path fuel st L st' h).2.2

/-- A concrete run of C6 over the two-identifier witness module. -/
theorem C6_guid_uniqueness_witness :
    (([c6s1, c6s2]).map Symbol.guid).Nodup :=
  C6_guid_uniqueness c6w_tree "main.py" 21 0 3 [c6s1, c6s2] rfl

end RefactAst

/-! # Run-to-run determinism as a guid renaming, and error-region flagging -/

namespace RefactAst

/-! ## Run-to-run determinism: a uniform guid renaming between runs -/

/-- The injective guid renaming between a run started at `st` and one started
at `st + d`: generated guids (always nonzero) shift by `d`, while the default
parent guid 0 (never generated) is fixed. -/
def shiftG (d x : Nat) : Nat := if x = 0 then 0 else x + d

/-- Apply the guid renaming to every guid-valued field of a symbol. -/
def shiftSym (d : Nat) (s : Symbol) : Symbol :=
  { fields :=
      { s.fields with
          guid := shiftG d s.fields.guid
          parent_guid := s.fields.parent_guid.map (shiftG d)
          caller_guid := s.fields.caller_guid.map (shiftG d)
          childs_guid := s.fields.childs_guid.map (shiftG d) },
    variant := s.variant }

/-- Apply the guid renaming to a whole result list. -/
def shiftL (d : Nat) (l : List Symbol) : List Symbol := l.map (shiftSym d)

theorem shiftG_inj {d x y : Nat} (h : shiftG d x = shiftG d y) : x = y := by
  unfold shiftG at h
  split at h <;> split at h <;> omega

theorem shiftL_append (d : Nat) (a b : List Symbol) :
    shiftL d (a ++ b) = shiftL d a ++ shiftL d b := List.map_append _ _ _

theorem get_children_guids_shift (d g : Nat) (syms : List Symbol) :
    get_children_guids (shiftG d g) (shiftL d syms) =
      (get_children_guids g syms).map (shiftG d) := by
  unfold get_children_guids shiftL
  induction syms with
  | nil => rfl
  | cons s tl ih =>
    rw [List.map_cons, List.filter_cons, List.filter_cons]
    have hcond : ((shiftSym d s).fields.parent_guid == some (shiftG d g)) =
        (s.fields.parent_guid == some g) := by
      rcases hpg : s.fields.parent_guid with _ | p
      · simp [shiftSym, hpg]
      · simp only [shiftSym, hpg, Option.map_some', beq_iff_eq, Option.some.injEq]
        by_cases hpq : p = g
        · subst hpq
          simp
        · have : ¬ shiftG d p = shiftG d g := fun hc => hpq (shiftG_inj hc)
          simp [hpq, this]
    rw [hcond]
    cases hc : (s.fields.parent_guid == some g)
    · simp only [Bool.false_eq_true, if_false]
      exact ih
    · simp only [if_true, List.map_cons]
      rw [ih]
      rfl

theorem getLast_shift (d : Nat) (us : List Symbol) :
    (match (shiftL d us).getLast? with
     | some last => last.fields.parent_guid
     | none => none)
      = (match us.getLast? with
         | some last => last.fields.parent_guid
         | none => none).map (shiftG d) := by
  unfold shiftL
  rw [List.getLast?_map]
  rcases us.getLast? with _ | last
  · rfl
  · rfl

/-- A computation simulates itself across a start-state offset `d`: running
from `st + d` gives the `f`-image of the value and the `+ d` image of the end
state obtained from `st`, with the same error otherwise. -/
def Sim {α : Type} (f : α → α) (d : Nat) (m1 m2 : Extract α) : Prop :=
  ∀ st : Nat, m2 (st + d) = (m1 st).map (fun p => (f p.1, p.2 + d))

theorem sim_bind {α β : Type} {f : α → α} {fb : β → β} {d : Nat}
    {m1 m2 : Extract α} {k1 k2 : α → Extract β}
    (hm : Sim f d m1 m2) (hk : ∀ a, Sim fb d (k1 a) (k2 (f a))) :
    Sim fb d (m1 >>= k1) (m2 >>= k2) := by
  intro st
  rw [Extract.bind_apply, Extract.bind_apply, hm st]
  cases h : m1 st with
  | error e => rfl
  | ok p =>
      obtain ⟨a, s1⟩ := p
      simp only [Except.map]
      exact hk a s1

theorem sim_pure_eq {α : Type} {f : α → α} {d : Nat} {a b : α} (h : f a = b) :
    Sim f d (pure a) (pure b) := by
  intro st
  rw [Extract.pure_apply, Extract.pure_apply]
  subst h
  rfl

theorem sim_get_guid {d : Nat} : Sim (shiftG d) d get_guid get_guid := by
  intro st
  rw [Extract.get_guid_apply, Extract.get_guid_apply]
  simp only [Except.map]
  have h1 : shiftG d (st + 1) = st + 1 + d := by
    unfold shiftG
    split <;> omega
  rw [h1]
  have h2 : st + d + 1 = st + 1 + d := by omega
  rw [h2]

theorem sim_need {α : Type} {o : Option α} {msg : String} {d : Nat} :
    Sim (fun a => a) d (need o msg) (need o msg) := by
  intro st
  cases o with
  | none => rfl
  | some a => rfl

theorem sim_liftE {α : Type} {m : Except RunErr α} {d : Nat} :
    Sim (fun a => a) d (liftE m) (liftE m) := by
  intro st
  cases m with
  | error e => rfl
  | ok a => rfl

theorem sim_outOfFuel {α : Type} (f : α → α) (d : Nat) :
    Sim f d Extract.outOfFuel Extract.outOfFuel := by
  intro st
  rfl

end RefactAst

namespace RefactAst

/-- All extraction routines simulate themselves across the offset `d` at this
fuel level: the run at parent `shiftG d g` from state `st + d` returns the
`shiftL d` image of the run at parent `g` from state `st`. -/
def Simd (d fuel : Nat) : Prop :=
  (∀ (n : Node) (anc : List Node) (path : String) (g : Nat) (e fb : Bool),
     Sim (shiftL d) d (parse_usages fuel n anc path g e fb)
       (parse_usages fuel n anc path (shiftG d g) e fb)) ∧
  (∀ (ns : List Node) (anc : List Node) (path : String) (g : Nat) (e fb : Bool),
     Sim (shiftL d) d (parse_usages_list fuel ns anc path g e fb)
       (parse_usages_list fuel ns anc path (shiftG d g) e fb)) ∧
  (∀ (n : Node) (anc : List Node) (path : String) (g : Nat) (e : Bool),
     Sim (shiftL d) d (parse_assignment fuel n anc path g e)
       (parse_assignment fuel n anc path (shiftG d g) e)) ∧
  (∀ (n : Node) (q : List AsgnCand) (flag icf : Bool) (path : String) (g : Nat) (e : Bool),
     Sim (shiftL d) d (parse_assignment_cands fuel n q flag icf path g e)
       (parse_assignment_cands fuel n q flag icf path (shiftG d g) e)) ∧
  (∀ (q : List (Node × List Node)) (n : Node) (vt path : String) (g : Nat) (e : Bool),
     Sim (shiftL d) d (as_pattern_cands fuel q n vt path g e)
       (as_pattern_cands fuel q n vt path (shiftG d g) e)) ∧
  (∀ (n : Node) (anc : List Node) (path : String) (g : Nat) (e : Bool),
     Sim (shiftL d) d (parse_struct_declaration fuel n anc path g e)
       (parse_struct_declaration fuel n anc path (shiftG d g) e)) ∧
  (∀ (n : Node) (anc : List Node) (path : String) (g : Nat) (e : Bool),
     Sim (shiftL d) d (parse_function_declaration fuel n anc path g e)
       (parse_function_declaration fuel n anc path (shiftG d g) e)) ∧
  (∀ (n : Node) (anc : List Node) (path : String) (g : Nat) (e : Bool),
     Sim (shiftL d) d (parse_call_expression fuel n anc path g e)
       (parse_call_expression fuel n anc path (shiftG d g) e)) ∧
  (∀ (ns : List Node) (anc : List Node) (path : String) (g : Nat) (e : Bool),
     Sim (shiftL d) d (call_args fuel ns anc path g e)
       (call_args fuel ns anc path (shiftG d g) e)) ∧
  (∀ (n : Node) (path : String) (g : Nat),
     Sim (shiftL d) d (find_error_usages fuel n path g)
       (find_error_usages fuel n path (shiftG d g))) ∧
  (∀ (ns : List Node) (path : String) (g : Nat),
     Sim (shiftL d) d (find_error_usages_list fuel ns path g)
       (find_error_usages_list fuel ns path (shiftG d g))) ∧
  (∀ (n : Node) (path : String) (g : Nat),
     Sim (shiftL d) d (parse_error_usages fuel n path g)
       (parse_error_usages fuel n path (shiftG d g))) ∧
  (∀ (ns : List Node) (path : String) (g : Nat),
     Sim (shiftL d) d (parse_error_usages_list fuel ns path g)
       (parse_error_usages_list fuel ns path (shiftG d g)))

def Simd.usages {d fuel : Nat} (h : Simd d fuel) :
    ∀ (n : Node) (anc : List Node) (path : String) (g : Nat) (e fb : Bool),
      Sim (shiftL d) d (parse_usages fuel n anc path g e fb)
        (parse_usages fuel n anc path (shiftG d g) e fb) := h.1

def Simd.usages_list {d fuel : Nat} (h : Simd d fuel) :
    ∀ (ns : List Node) (anc : List Node) (path : String) (g : Nat) (e fb : Bool),
      Sim (shiftL d) d (parse_usages_list fuel ns anc path g e fb)
        (parse_usages_list fuel ns anc path (shiftG d g) e fb) := h.2.1

def Simd.asgn {d fuel : Nat} (h : Simd d fuel) :
    ∀ (n : Node) (anc : List Node) (path : String) (g : Nat) (e : Bool),
      Sim (shiftL d) d (parse_assignment fuel n anc path g e)
        (parse_assignment fuel n anc path (shiftG d g) e) := h.2.2.1

def Simd.asgn_cands {d fuel : Nat} (h : Simd d fuel) :
    ∀ (n : Node) (q : List AsgnCand) (flag icf : Bool) (path : String) (g : Nat) (e : Bool),
      Sim (shiftL d) d (parse_assignment_cands fuel n q flag icf path g e)
        (parse_assignment_cands fuel n q flag icf path (shiftG d g) e) := h.2.2.2.1

def Simd.ap_cands {d fuel : Nat} (h : Simd d fuel) :
    ∀ (q : List (Node × List Node)) (n : Node) (vt path : String) (g : Nat) (e : Bool),
      Sim (shiftL d) d (as_pattern_cands fuel q n vt path g e)
        (as_pattern_cands fuel q n vt path (shiftG d g) e) := h.2.2.2.2.1

def Simd.struct {d fuel : Nat} (h : Simd d fuel) :
    ∀ (n : Node) (anc : List Node) (path : String) (g : Nat) (e : Bool),
      Sim (shiftL d) d (parse_struct_declaration fuel n anc path g e)
        (parse_struct_declaration fuel n anc path (shiftG d g) e) := h.2.2.2.2.2.1

def Simd.fn {d fuel : Nat} (h : Simd d fuel) :
    ∀ (n : Node) (anc : List Node) (path : String) (g : Nat) (e : Bool),
      Sim (shiftL d) d (parse_function_declaration fuel n anc path g e)
        (parse_function_declaration fuel n anc path (shiftG d g) e) := h.2.2.2.2.2.2.1

def Simd.call {d fuel : Nat} (h : Simd d fuel) :
    ∀ (n : Node) (anc : List Node) (path : String) (g : Nat) (e : Bool),
      Sim (shiftL d) d (parse_call_expression fuel n anc path g e)
        (parse_call_expression fuel n anc path (shiftG d g) e) := h.2.2.2.2.2.2.2.1

def Simd.cargs {d fuel : Nat} (h : Simd d fuel) :
    ∀ (ns : List Node) (anc : List Node) (path : String) (g : Nat) (e : Bool),
      Sim (shiftL d) d (call_args fuel ns anc path g e)
        (call_args fuel ns anc path (shiftG d g) e) := h.2.2.2.2.2.2.2.2.1

def Simd.ferr {d fuel : Nat} (h : Simd d fuel) :
    ∀ (n : Node) (path : String) (g : Nat),
      Sim (shiftL d) d (find_error_usages fuel n path g)
        (find_error_usages fuel n path (shiftG d g)) := h.2.2.2.2.2.2.2.2.2.1

def Simd.ferr_list {d fuel : Nat} (h : Simd d fuel) :
    ∀ (ns : List Node) (path : String) (g : Nat),
      Sim (shiftL d) d (find_error_usages_list fuel ns path g)
        (find_error_usages_list fuel ns path (shiftG d g)) := h.2.2.2.2.2.2.2.2.2.2.1

def Simd.perr {d fuel : Nat} (h : Simd d fuel) :
    ∀ (n : Node) (path : String) (g : Nat),
      Sim (shiftL d) d (parse_error_usages fuel n path g)
        (parse_error_usages fuel n path (shiftG d g)) := h.2.2.2.2.2.2.2.2.2.2.2.1

def Simd.perr_list {d fuel : Nat} (h : Simd d fuel) :
    ∀ (ns : List Node) (path : String) (g : Nat),
      Sim (shiftL d) d (parse_error_usages_list fuel ns path g)
        (parse_error_usages_list fuel ns path (shiftG d g)) := h.2.2.2.2.2.2.2.2.2.2.2.2

end RefactAst

namespace RefactAst

/-! ## Simulation step lemmas -/

theorem sim_perr {d fuel : Nat} (ih : Simd d fuel) :
    ∀ (n : Node) (path : String) (g : Nat),
      Sim (shiftL d) d (parse_error_usages (fuel + 1) n path g)
        (parse_error_usages (fuel + 1) n path (shiftG d g)) := by
  intro n path g
  simp only [parse_error_usages]
  split
  case _ heq =>
    split
    · exact sim_pure_eq rfl
    · refine sim_bind sim_get_guid (fun gd => ?_)
      exact sim_pure_eq rfl
  case _ heq =>
    refine sim_bind sim_need (fun a1 => ?_)
    refine sim_bind sim_get_guid (fun gd => ?_)
    refine sim_bind sim_need (fun o1 => ?_)
    refine sim_bind (ih.perr o1 path g) (fun us => ?_)
    refine sim_pure_eq ?_
    rw [shiftL_append]
    unfold shiftL
    rw [List.getLast?_map]
    rcases us.getLast? with _ | last
    · rfl
    · rfl
  case _ =>
    exact ih.perr_list n.children path g

theorem sim_perr_list {d fuel : Nat} (ih : Simd d fuel) :
    ∀ (ns : List Node) (path : String) (g : Nat),
      Sim (shiftL d) d (parse_error_usages_list (fuel + 1) ns path g)
        (parse_error_usages_list (fuel + 1) ns path (shiftG d g)) := by
  intro ns path g
  simp only [parse_error_usages_list_succ]
  split
  · exact sim_pure_eq rfl
  case _ c cs =>
    refine sim_bind (ih.perr c path g) (fun a => ?_)
    refine sim_bind (ih.perr_list cs path g) (fun b => ?_)
    exact sim_pure_eq (shiftL_append d a b)

theorem sim_ferr {d fuel : Nat} (ih : Simd d fuel) :
    ∀ (n : Node) (path : String) (g : Nat),
      Sim (shiftL d) d (find_error_usages (fuel + 1) n path g)
        (find_error_usages (fuel + 1) n path (shiftG d g)) := by
  intro n path g
  simp only [find_error_usages_succ]
  exact ih.ferr_list n.children path g

theorem sim_ferr_list {d fuel : Nat} (ih : Simd d fuel) :
    ∀ (ns : List Node) (path : String) (g : Nat),
      Sim (shiftL d) d (find_error_usages_list (fuel + 1) ns path g)
        (find_error_usages_list (fuel + 1) ns path (shiftG d g)) := by
  intro ns path g
  simp only [find_error_usages_list_succ]
  split
  · exact sim_pure_eq rfl
  case _ c cs =>
    split
    · refine sim_bind (ih.perr c path g) (fun a => ?_)
      refine sim_bind (ih.ferr_list cs path g) (fun b => ?_)
      exact sim_pure_eq (shiftL_append d a b)
    · refine sim_bind (@sim_pure_eq _ (shiftL d) d [] [] rfl) (fun a => ?_)
      refine sim_bind (ih.ferr_list cs path g) (fun b => ?_)
      exact sim_pure_eq (shiftL_append d a b)

theorem sim_cargs {d fuel : Nat} (ih : Simd d fuel) :
    ∀ (ns : List Node) (anc : List Node) (path : String) (g : Nat) (e : Bool),
      Sim (shiftL d) d (call_args (fuel + 1) ns anc path g e)
        (call_args (fuel + 1) ns anc path (shiftG d g) e) := by
  intro ns anc path g e
  simp only [call_args_succ]
  split
  · exact sim_pure_eq rfl
  case _ c cs =>
    split
    · refine sim_bind (@sim_pure_eq _ (shiftL d) d [] [] rfl) (fun a => ?_)
      refine sim_bind (ih.cargs cs anc path g e) (fun b => ?_)
      exact sim_pure_eq (shiftL_append d a b)
    · refine sim_bind (ih.usages c anc path g e false) (fun a => ?_)
      refine sim_bind (ih.cargs cs anc path g e) (fun b => ?_)
      exact sim_pure_eq (shiftL_append d a b)

theorem sim_usages_list {d fuel : Nat} (ih : Simd d fuel) :
    ∀ (ns : List Node) (anc : List Node) (path : String) (g : Nat) (e fb : Bool),
      Sim (shiftL d) d (parse_usages_list (fuel + 1) ns anc path g e fb)
        (parse_usages_list (fuel + 1) ns anc path (shiftG d g) e fb) := by
  intro ns anc path g e fb
  simp only [parse_usages_list_succ]
  split
  · exact sim_pure_eq rfl
  case _ c cs =>
    refine sim_bind (ih.usages c anc path g e fb) (fun a => ?_)
    refine sim_bind (ih.usages_list cs anc path g e fb) (fun b => ?_)
    exact sim_pure_eq (shiftL_append d a b)

theorem sim_import_names {d : Nat} (base : List String) (n : Node) (path : String) (g : Nat) :
    ∀ cs : List Node,
      Sim (shiftL d) d (import_names base n path g cs)
        (import_names base n path (shiftG d g) cs)
  | [] => sim_pure_eq rfl
  | c :: cs => by
      simp only [import_names]
      refine sim_bind sim_get_guid (fun gd => ?_)
      dsimp only
      refine sim_bind sim_need (fun nm => ?_)
      refine sim_bind (sim_import_names base n path g cs) (fun m => ?_)
      exact sim_pure_eq rfl

end RefactAst

namespace RefactAst

theorem sim_ap {d fuel : Nat} (ih : Simd d fuel) :
    ∀ (q : List (Node × List Node)) (n : Node) (vt path : String) (g : Nat) (e : Bool),
      Sim (shiftL d) d (as_pattern_cands (fuel + 1) q n vt path g e)
        (as_pattern_cands (fuel + 1) q n vt path (shiftG d g) e) := by
  intro q n vt path g e
  simp only [as_pattern_cands_succ]
  split
  · exact sim_pure_eq rfl
  case _ c ancC rest =>
    split
    · exact ih.ap_cands rest n vt path g e
    · split
      case _ heq =>
        refine sim_bind sim_get_guid (fun gd => ?_)
        refine sim_bind (ih.ap_cands rest n vt path g e) (fun m => ?_)
        exact sim_pure_eq rfl
      case _ heq | _ heq | _ heq =>
        exact ih.ap_cands _ n vt path g e
      case _ =>
        refine sim_bind (ih.usages c ancC path g e false) (fun us => ?_)
        refine sim_bind (ih.ap_cands rest n vt path g e) (fun m => ?_)
        exact sim_pure_eq (shiftL_append d us m)

theorem sim_asgn {d fuel : Nat} (ih : Simd d fuel) :
    ∀ (n : Node) (anc : List Node) (path : String) (g : Nat) (e : Bool),
      Sim (shiftL d) d (parse_assignment (fuel + 1) n anc path g e)
        (parse_assignment (fuel + 1) n anc path (shiftG d g) e) := by
  intro n anc path g e
  simp only [parse_assignment_succ]
  rcases hR : n.childByField "right" with _ | right <;>
    rcases hB : n.childByField "body" with _ | body <;>
    dsimp only
  · refine sim_bind (@sim_pure_eq _ (shiftL d) d [] [] rfl) (fun a => ?_)
    refine sim_bind (@sim_pure_eq _ (shiftL d) d [] [] rfl) (fun b => ?_)
    refine sim_bind (ih.asgn_cands n _ false (ancClassField anc) path g e) (fun c => ?_)
    exact sim_pure_eq (by rw [shiftL_append, shiftL_append])
  · refine sim_bind (@sim_pure_eq _ (shiftL d) d [] [] rfl) (fun a => ?_)
    refine sim_bind (ih.usages body (n :: anc) path g e false) (fun b => ?_)
    refine sim_bind (ih.asgn_cands n _ false (ancClassField anc) path g e) (fun c => ?_)
    exact sim_pure_eq (by rw [shiftL_append, shiftL_append])
  · refine sim_bind (ih.usages right (n :: anc) path g e false) (fun a => ?_)
    refine sim_bind (@sim_pure_eq _ (shiftL d) d [] [] rfl) (fun b => ?_)
    refine sim_bind (ih.asgn_cands n _ false (ancClassField anc) path g e) (fun c => ?_)
    exact sim_pure_eq (by rw [shiftL_append, shiftL_append])
  · refine sim_bind (ih.usages right (n :: anc) path g e false) (fun a => ?_)
    refine sim_bind (ih.usages body (n :: anc) path g e false) (fun b => ?_)
    refine sim_bind (ih.asgn_cands n _ false (ancClassField anc) path g e) (fun c => ?_)
    exact sim_pure_eq (by rw [shiftL_append, shiftL_append])

set_option maxHeartbeats 1600000 in
theorem sim_asgn_cands {d fuel : Nat} (ih : Simd d fuel) :
    ∀ (n : Node) (q : List AsgnCand) (flag icf : Bool) (path : String) (g : Nat) (e : Bool),
      Sim (shiftL d) d (parse_assignment_cands (fuel + 1) n q flag icf path g e)
        (parse_assignment_cands (fuel + 1) n q flag icf path (shiftG d g) e) := by
  intro n q flag icf path g e
  simp only [parse_assignment_cands_succ]
  split
  · exact sim_pure_eq rfl
  case _ cand rest =>
    obtain ⟨cl, ct, cr⟩ := cand
    split
    · exact ih.asgn_cands n rest flag icf path g e
    case _ left ancL heqL =>
      split
      · exact ih.asgn_cands n rest flag icf path g e
      · split
        case _ heq =>
          refine sim_bind sim_get_guid (fun gd => ?_)
          dsimp only
          split
          · split
            case _ _ tn =>
              refine sim_bind sim_liftE (fun dt => ?_)
              refine sim_bind (@sim_pure_eq _ (fun a => a) d _ _ rfl) (fun t => ?_)
              refine sim_bind (@sim_pure_eq _ (shiftSym d) d _ _ rfl) (fun s => ?_)
              refine sim_bind (ih.asgn_cands n rest flag icf path g e) (fun m => ?_)
              exact sim_pure_eq rfl
            case _ =>
              refine sim_bind (@sim_pure_eq _ (fun a => a) d _ _ rfl) (fun t => ?_)
              refine sim_bind (@sim_pure_eq _ (shiftSym d) d _ _ rfl) (fun s => ?_)
              refine sim_bind (ih.asgn_cands n rest flag icf path g e) (fun m => ?_)
              exact sim_pure_eq rfl
          · split
            case _ _ tn =>
              refine sim_bind sim_liftE (fun dt => ?_)
              refine sim_bind (@sim_pure_eq _ (fun a => a) d _ _ rfl) (fun t => ?_)
              refine sim_bind (@sim_pure_eq _ (shiftSym d) d _ _ rfl) (fun s => ?_)
              refine sim_bind (ih.asgn_cands n rest flag icf path g e) (fun m => ?_)
              exact sim_pure_eq rfl
            case _ =>
              refine sim_bind (@sim_pure_eq _ (fun a => a) d _ _ rfl) (fun t => ?_)
              refine sim_bind (@sim_pure_eq _ (shiftSym d) d _ _ rfl) (fun s => ?_)
              refine sim_bind (ih.asgn_cands n rest flag icf path g e) (fun m => ?_)
              exact sim_pure_eq rfl
        case _ heq =>
          refine sim_bind (ih.usages left ancL path g e false) (fun us => ?_)
          refine sim_bind (ih.asgn_cands n rest flag icf path g e) (fun m => ?_)
          exact sim_pure_eq (shiftL_append d us m)
        case _ heq | _ heq | _ heq =>
          dsimp only
          exact ih.asgn_cands n _ _ icf path g e
        case _ heq =>
          exact ih.asgn_cands n _ flag icf path g e
        case _ =>
          exact ih.asgn_cands n rest flag icf path g e

end RefactAst

namespace RefactAst

set_option maxHeartbeats 1600000 in
theorem sim_struct {d fuel : Nat} (ih : Simd d fuel) :
    ∀ (n : Node) (anc : List Node) (path : String) (g : Nat) (e : Bool),
      Sim (shiftL d) d (parse_struct_declaration (fuel + 1) n anc path g e)
        (parse_struct_declaration (fuel + 1) n anc path (shiftG d g) e) := by
  intro n anc path g e
  simp only [parse_struct_declaration_succ]
  refine sim_bind sim_get_guid (fun gd => ?_)
  refine sim_bind (ih.ferr n path gd) (fun errs1 => ?_)
  dsimp only
  split
  case _ sc hS =>
    refine sim_bind sim_liftE (fun tl => ?_)
    refine sim_bind (ih.ferr sc path gd) (fun e2 => ?_)
    refine sim_bind (@sim_pure_eq _ (fun t => (t.1, shiftL d t.2.1, t.2.2)) d _ _ rfl)
      (fun y => ?_)
    obtain ⟨i, fE, r⟩ := y
    dsimp only
    split
    case _ body hB =>
      refine sim_bind (ih.usages body (n :: anc) path gd e true) (fun u => ?_)
      refine sim_bind (@sim_pure_eq _ (fun t => (shiftL d t.1, t.2)) d _ _ rfl) (fun z => ?_)
      obtain ⟨zu, zr⟩ := z
      dsimp only
      refine sim_pure_eq ?_
      rw [shiftL_append]
      congr 1
      · rw [shiftL_append, shiftL_append]
      · rw [show shiftL d errs1 ++ shiftL d fE ++ shiftL d zu =
              shiftL d (errs1 ++ fE ++ zu) by rw [shiftL_append, shiftL_append]]
        rw [get_children_guids_shift]
        rfl
    case _ hB =>
      refine sim_bind (@sim_pure_eq _ (fun t => (shiftL d t.1, t.2)) d _ _ rfl) (fun z => ?_)
      obtain ⟨zu, zr⟩ := z
      dsimp only
      refine sim_pure_eq ?_
      rw [shiftL_append]
      congr 1
      · rw [shiftL_append, shiftL_append]
      · rw [show shiftL d errs1 ++ shiftL d fE ++ shiftL d zu =
              shiftL d (errs1 ++ fE ++ zu) by rw [shiftL_append, shiftL_append]]
        rw [get_children_guids_shift]
        rfl
  case _ hS =>
    refine sim_bind (@sim_pure_eq _ (fun t => (t.1, shiftL d t.2.1, t.2.2)) d _ _ rfl)
      (fun y => ?_)
    obtain ⟨i, fE, r⟩ := y
    dsimp only
    split
    case _ body hB =>
      refine sim_bind (ih.usages body (n :: anc) path gd e true) (fun u => ?_)
      refine sim_bind (@sim_pure_eq _ (fun t => (shiftL d t.1, t.2)) d _ _ rfl) (fun z => ?_)
      obtain ⟨zu, zr⟩ := z
      dsimp only
      refine sim_pure_eq ?_
      rw [shiftL_append]
      congr 1
      · rw [shiftL_append, shiftL_append]
      · rw [show shiftL d errs1 ++ shiftL d fE ++ shiftL d zu =
              shiftL d (errs1 ++ fE ++ zu) by rw [shiftL_append, shiftL_append]]
        rw [get_children_guids_shift]
        rfl
    case _ hB =>
      refine sim_bind (@sim_pure_eq _ (fun t => (shiftL d t.1, t.2)) d _ _ rfl) (fun z => ?_)
      obtain ⟨zu, zr⟩ := z
      dsimp only
      refine sim_pure_eq ?_
      rw [shiftL_append]
      congr 1
      · rw [shiftL_append, shiftL_append]
      · rw [show shiftL d errs1 ++ shiftL d fE ++ shiftL d zu =
              shiftL d (errs1 ++ fE ++ zu) by rw [shiftL_append, shiftL_append]]
        rw [get_children_guids_shift]
        rfl

end RefactAst

namespace RefactAst

set_option maxHeartbeats 3200000 in
theorem sim_fn {d fuel : Nat} (ih : Simd d fuel) :
    ∀ (n : Node) (anc : List Node) (path : String) (g : Nat) (e : Bool),
      Sim (shiftL d) d (parse_function_declaration (fuel + 1) n anc path g e)
        (parse_function_declaration (fuel + 1) n anc path (shiftG d g) e) := by
  intro n anc path g e
  simp only [parse_function_declaration_succ]
  refine sim_bind (ih.ferr n path 0) (fun errs1 => ?_)
  dsimp only
  split
  case _ ps hP =>
    refine sim_bind (ih.ferr ps path 0) (fun pe0 => ?_)
    refine sim_bind sim_liftE (fun fa => ?_)
    refine sim_bind (@sim_pure_eq _ (fun t => (t.1, shiftL d t.2.1, t.2.2)) d _ _ rfl)
      (fun p => ?_)
    obtain ⟨pd, pe, pa⟩ := p
    dsimp only
    refine sim_bind sim_get_guid (fun gd => ?_)
    dsimp only
    split
    case _ rt hRT =>
      refine sim_bind sim_liftE (fun t => ?_)
      refine sim_bind (ih.ferr rt path gd) (fun e3 => ?_)
      refine sim_bind (@sim_pure_eq _ (fun t => (t.1, t.2.1, shiftL d t.2.2)) d _ _ rfl)
        (fun y => ?_)
      obtain ⟨w, de2, fE⟩ := y
      dsimp only
      split
      case _ body hB =>
        refine sim_bind (ih.usages body (n :: anc) path gd e true) (fun u => ?_)
        refine sim_bind (@sim_pure_eq _ (fun t => (shiftL d t.1, t.2.1, t.2.2)) d _ _ rfl)
          (fun z => ?_)
        obtain ⟨zu, zd, zr⟩ := z
        dsimp only
        refine sim_pure_eq ?_
        rw [shiftL_append]
        congr 1
        · rw [shiftL_append, shiftL_append, shiftL_append]
        · rw [show shiftL d errs1 ++ shiftL d pe ++ shiftL d fE ++ shiftL d zu =
                shiftL d (errs1 ++ pe ++ fE ++ zu) by
              rw [shiftL_append, shiftL_append, shiftL_append]]
          rw [get_children_guids_shift]
          rfl
      case _ hB =>
        refine sim_bind (@sim_pure_eq _ (fun t => (shiftL d t.1, t.2.1, t.2.2)) d _ _ rfl)
          (fun z => ?_)
        obtain ⟨zu, zd, zr⟩ := z
        dsimp only
        refine sim_pure_eq ?_
        rw [shiftL_append]
        congr 1
        · rw [shiftL_append, shiftL_append, shiftL_append]
        · rw [show shiftL d errs1 ++ shiftL d pe ++ shiftL d fE ++ shiftL d zu =
                shiftL d (errs1 ++ pe ++ fE ++ zu) by
              rw [shiftL_append, shiftL_append, shiftL_append]]
          rw [get_children_guids_shift]
          rfl
    case _ hRT =>
      refine sim_bind (@sim_pure_eq _ (fun t => (t.1, t.2.1, shiftL d t.2.2)) d _ _ rfl)
        (fun y => ?_)
      obtain ⟨w, de2, fE⟩ := y
      dsimp only
      split
      case _ body hB =>
        refine sim_bind (ih.usages body (n :: anc) path gd e true) (fun u => ?_)
        refine sim_bind (@sim_pure_eq _ (fun t => (shiftL d t.1, t.2.1, t.2.2)) d _ _ rfl)
          (fun z => ?_)
        obtain ⟨zu, zd, zr⟩ := z
        dsimp only
        refine sim_pure_eq ?_
        rw [shiftL_append]
        congr 1
        · rw [shiftL_append, shiftL_append, shiftL_append]
        · rw [show shiftL d errs1 ++ shiftL d pe ++ shiftL d fE ++ shiftL d zu =
                shiftL d (errs1 ++ pe ++ fE ++ zu) by
              rw [shiftL_append, shiftL_append, shiftL_append]]
          rw [get_children_guids_shift]
          rfl
      case _ hB =>
        refine sim_bind (@sim_pure_eq _ (fun t => (shiftL d t.1, t.2.1, t.2.2)) d _ _ rfl)
          (fun z => ?_)
        obtain ⟨zu, zd, zr⟩ := z
        dsimp only
        refine sim_pure_eq ?_
        rw [shiftL_append]
        congr 1
        · rw [shiftL_append, shiftL_append, shiftL_append]
        · rw [show shiftL d errs1 ++ shiftL d pe ++ shiftL d fE ++ shiftL d zu =
                shiftL d (errs1 ++ pe ++ fE ++ zu) by
              rw [shiftL_append, shiftL_append, shiftL_append]]
          rw [get_children_guids_shift]
          rfl
  case _ hP =>
    refine sim_bind (@sim_pure_eq _ (fun t => (t.1, shiftL d t.2.1, t.2.2)) d _ _ rfl)
      (fun p => ?_)
    obtain ⟨pd, pe, pa⟩ := p
    dsimp only
    refine sim_bind sim_get_guid (fun gd => ?_)
    dsimp only
    split
    case _ rt hRT =>
      refine sim_bind sim_liftE (fun t => ?_)
      refine sim_bind (ih.ferr rt path gd) (fun e3 => ?_)
      refine sim_bind (@sim_pure_eq _ (fun t => (t.1, t.2.1, shiftL d t.2.2)) d _ _ rfl)
        (fun y => ?_)
      obtain ⟨w, de2, fE⟩ := y
      dsimp only
      split
      case _ body hB =>
        refine sim_bind (ih.usages body (n :: anc) path gd e true) (fun u => ?_)
        refine sim_bind (@sim_pure_eq _ (fun t => (shiftL d t.1, t.2.1, t.2.2)) d _ _ rfl)
          (fun z => ?_)
        obtain ⟨zu, zd, zr⟩ := z
        dsimp only
        refine sim_pure_eq ?_
        rw [shiftL_append]
        congr 1
        · rw [shiftL_append, shiftL_append, shiftL_append]
        · rw [show shiftL d errs1 ++ shiftL d pe ++ shiftL d fE ++ shiftL d zu =
                shiftL d (errs1 ++ pe ++ fE ++ zu) by
              rw [shiftL_append, shiftL_append, shiftL_append]]
          rw [get_children_guids_shift]
          rfl
      case _ hB =>
        refine sim_bind (@sim_pure_eq _ (fun t => (shiftL d t.1, t.2.1, t.2.2)) d _ _ rfl)
          (fun z => ?_)
        obtain ⟨zu, zd, zr⟩ := z
        dsimp only
        refine sim_pure_eq ?_
        rw [shiftL_append]
        congr 1
        · rw [shiftL_append, shiftL_append, shiftL_append]
        · rw [show shiftL d errs1 ++ shiftL d pe ++ shiftL d fE ++ shiftL d zu =
                shiftL d (errs1 ++ pe ++ fE ++ zu) by
              rw [shiftL_append, shiftL_append, shiftL_append]]
          rw [get_children_guids_shift]
          rfl
    case _ hRT =>
      refine sim_bind (@sim_pure_eq _ (fun t => (t.1, t.2.1, shiftL d t.2.2)) d _ _ rfl)
        (fun y => ?_)
      obtain ⟨w, de2, fE⟩ := y
      dsimp only
      split
      case _ body hB =>
        refine sim_bind (ih.usages body (n :: anc) path gd e true) (fun u => ?_)
        refine sim_bind (@sim_pure_eq _ (fun t => (shiftL d t.1, t.2.1, t.2.2)) d _ _ rfl)
          (fun z => ?_)
        obtain ⟨zu, zd, zr⟩ := z
        dsimp only
        refine sim_pure_eq ?_
        rw [shiftL_append]
        congr 1
        · rw [shiftL_append, shiftL_append, shiftL_append]
        · rw [show shiftL d errs1 ++ shiftL d pe ++ shiftL d fE ++ shiftL d zu =
                shiftL d (errs1 ++ pe ++ fE ++ zu) by
              rw [shiftL_append, shiftL_append, shiftL_append]]
          rw [get_children_guids_shift]
          rfl
      case _ hB =>
        refine sim_bind (@sim_pure_eq _ (fun t => (shiftL d t.1, t.2.1, t.2.2)) d _ _ rfl)
          (fun z => ?_)
        obtain ⟨zu, zd, zr⟩ := z
        dsimp only
        refine sim_pure_eq ?_
        rw [shiftL_append]
        congr 1
        · rw [shiftL_append, shiftL_append, shiftL_append]
        · rw [show shiftL d errs1 ++ shiftL d pe ++ shiftL d fE ++ shiftL d zu =
                shiftL d (errs1 ++ pe ++ fE ++ zu) by
              rw [shiftL_append, shiftL_append, shiftL_append]]
          rw [get_children_guids_shift]
          rfl

end RefactAst

namespace RefactAst

set_option maxHeartbeats 1600000 in
theorem sim_call {d fuel : Nat} (ih : Simd d fuel) :
    ∀ (n : Node) (anc : List Node) (path : String) (g : Nat) (e : Bool),
      Sim (shiftL d) d (parse_call_expression (fuel + 1) n anc path g e)
        (parse_call_expression (fuel + 1) n anc path (shiftG d g) e) := by
  intro n anc path g e
  simp only [parse_call_expression_succ]
  refine sim_bind sim_get_guid (fun gd => ?_)
  refine sim_bind (ih.ferr n path gd) (fun errs1 => ?_)
  refine sim_bind sim_need (fun a1 => ?_)
  refine sim_bind (ih.cargs a1.children (a1 :: n :: anc) path gd e) (fun asy => ?_)
  refine sim_bind (ih.ferr a1 path gd) (fun e2 => ?_)
  refine sim_bind sim_need (fun f1 => ?_)
  split
  case _ hfk =>
    refine sim_bind
      (@sim_pure_eq _ (fun t => (t.1, Option.map (shiftG d) t.2.1, shiftL d t.2.2)) d _ _ rfl)
      (fun y => ?_)
    obtain ⟨nm, c1, s1⟩ := y
    dsimp only
    refine sim_pure_eq ?_
    rw [shiftL_append]
    congr 1
    · rw [shiftL_append, shiftL_append, shiftL_append]
    · rw [show shiftL d errs1 ++ shiftL d asy ++ shiftL d e2 ++ shiftL d s1 =
            shiftL d (errs1 ++ asy ++ e2 ++ s1) by
          rw [shiftL_append, shiftL_append, shiftL_append]]
      rw [get_children_guids_shift]
      rfl
  case _ hfk =>
    refine sim_bind sim_need (fun ob => ?_)
    refine sim_bind (ih.usages ob (f1 :: n :: anc) path g e false) (fun us => ?_)
    refine sim_bind sim_need (fun at1 => ?_)
    refine sim_bind
      (@sim_pure_eq _ (fun t => (t.1, Option.map (shiftG d) t.2.1, shiftL d t.2.2)) d _ _ ?_)
      (fun y => ?_)
    · dsimp only
      unfold shiftL
      rw [List.getLast?_map]
      rcases us.getLast? with _ | last <;> rfl
    · obtain ⟨nm, c1, s1⟩ := y
      dsimp only
      refine sim_pure_eq ?_
      rw [shiftL_append]
      congr 1
      · rw [shiftL_append, shiftL_append, shiftL_append]
      · rw [show shiftL d errs1 ++ shiftL d asy ++ shiftL d e2 ++ shiftL d s1 =
              shiftL d (errs1 ++ asy ++ e2 ++ s1) by
            rw [shiftL_append, shiftL_append, shiftL_append]]
        rw [get_children_guids_shift]
        rfl
  case _ =>
    refine sim_bind (ih.usages f1 (n :: anc) path g e false) (fun us => ?_)
    refine sim_bind
      (@sim_pure_eq _ (fun t => (t.1, Option.map (shiftG d) t.2.1, shiftL d t.2.2)) d _ _ ?_)
      (fun y => ?_)
    · dsimp only
      unfold shiftL
      rw [List.getLast?_map]
      rcases us.getLast? with _ | last <;> rfl
    · obtain ⟨nm, c1, s1⟩ := y
      dsimp only
      refine sim_pure_eq ?_
      rw [shiftL_append]
      congr 1
      · rw [shiftL_append, shiftL_append, shiftL_append]
      · rw [show shiftL d errs1 ++ shiftL d asy ++ shiftL d e2 ++ shiftL d s1 =
              shiftL d (errs1 ++ asy ++ e2 ++ s1) by
            rw [shiftL_append, shiftL_append, shiftL_append]]
        rw [get_children_guids_shift]
        rfl

end RefactAst

namespace RefactAst

set_option maxHeartbeats 3200000 in
theorem sim_usages {d fuel : Nat} (ih : Simd d fuel) :
    ∀ (n : Node) (anc : List Node) (path : String) (g : Nat) (e fb : Bool),
      Sim (shiftL d) d (parse_usages (fuel + 1) n anc path g e fb)
        (parse_usages (fuel + 1) n anc path (shiftG d g) e fb) := by
  intro n anc path g e fb
  simp only [parse_usages]
  split
  case _ _heq | _ _heq | _ _heq | _ _heq | _ _heq | _ _heq | _ _heq | _ _heq | _ _heq | _ _heq | _ _heq | _ _heq | _ _heq | _ _heq | _ _heq | _ _heq | _ _heq | _ _heq | _ _heq | _ _heq | _ _heq | _ _heq | _ _heq | _ _heq | _ _heq | _ _heq | _ _heq | _ _heq | _ _heq | _ _heq =>
    exact ih.usages_list n.children (n :: anc) path g e _
  case _ _heq =>
    refine sim_bind sim_need (fun v => ?_)
    exact ih.usages v (n :: anc) path g e false
  case _ _heq =>
    exact ih.struct n anc path g e
  case _ _heq =>
    exact ih.fn n anc path g e
  case _ _heq =>
    split
    case _ dn hd =>
      split
      · exact ih.struct dn (n :: anc) path g e
      · exact ih.fn dn (n :: anc) path g e
      · exact sim_pure_eq rfl
    case _ => exact sim_pure_eq rfl
  case _ _heq =>
    refine sim_bind sim_need (fun v => ?_)
    split
    case _ al hal =>
      refine sim_bind sim_need (fun a0 => ?_)
      exact ih.ap_cands [(a0, al :: n :: anc)] n v.text path g e
    case _ => exact sim_pure_eq rfl
  case _ _heq | _ _heq =>
    refine sim_bind sim_need (fun v => ?_)
    exact ih.usages v (n :: anc) path g e false
  case _ _heq | _ _heq | _ _heq | _ _heq =>
    refine sim_bind sim_need (fun l => ?_)
    refine sim_bind (ih.usages l (n :: anc) path g e false) (fun us1 => ?_)
    refine sim_bind sim_need (fun r => ?_)
    refine sim_bind (ih.usages r (n :: anc) path g e false) (fun us2 => ?_)
    exact sim_pure_eq (shiftL_append d us1 us2)
  case _ _heq =>
    refine sim_bind sim_need (fun l => ?_)
    refine sim_bind (ih.usages l (n :: anc) path g e false) (fun us1 => ?_)
    refine sim_bind sim_need (fun r => ?_)
    refine sim_bind (ih.usages r (n :: anc) path g e false) (fun us2 => ?_)
    exact sim_pure_eq (shiftL_append d us1 us2)
  case _ _heq =>
    refine sim_bind sim_get_guid (fun gd => ?_)
    exact sim_pure_eq rfl
  case _ _heq =>
    refine sim_bind sim_need (fun at1 => ?_)
    refine sim_bind sim_get_guid (fun gd => ?_)
    refine sim_bind sim_need (fun ob => ?_)
    refine sim_bind (ih.usages ob (n :: anc) path g e false) (fun us => ?_)
    refine sim_pure_eq ?_
    rw [shiftL_append]
    unfold shiftL
    rw [List.getLast?_map]
    rcases us.getLast? with _ | last
    · rfl
    · rfl
  case _ _heq | _ _heq =>
    exact ih.asgn n anc path g e
  case _ _heq =>
    refine sim_bind sim_need (fun l => ?_)
    refine sim_bind (ih.usages l (n :: anc) path g e false) (fun us1 => ?_)
    refine sim_bind sim_need (fun r => ?_)
    refine sim_bind (ih.usages r (n :: anc) path g e false) (fun us2 => ?_)
    dsimp only
    split
    case _ alt halt =>
      split
      case _ ab hab =>
        refine sim_bind (ih.usages ab (alt :: n :: anc) path g e false) (fun us3 => ?_)
        exact sim_pure_eq (by rw [shiftL_append, shiftL_append])
      case _ =>
        first
        | exact sim_bind (@sim_pure_eq _ (shiftL d) d [] [] rfl)
            (fun us3 => sim_pure_eq (by rw [shiftL_append, shiftL_append]))
        | exact sim_pure_eq (by rw [shiftL_append, shiftL_append])
    case _ =>
      first
      | exact sim_bind (@sim_pure_eq _ (shiftL d) d [] [] rfl)
          (fun us3 => sim_pure_eq (by rw [shiftL_append, shiftL_append]))
      | exact sim_pure_eq (by rw [shiftL_append, shiftL_append])
  case _ _heq =>
    refine sim_bind sim_need (fun l => ?_)
    refine sim_bind (ih.usages l (n :: anc) path g e false) (fun us1 => ?_)
    refine sim_bind sim_need (fun r => ?_)
    refine sim_bind (ih.usages r (n :: anc) path g e false) (fun us2 => ?_)
    exact sim_pure_eq (shiftL_append d us1 us2)
  case _ _heq =>
    exact ih.call n anc path g e
  case _ _heq =>
    exact ih.fn n anc path g e
  case _ _heq | _ _heq =>
    split
    · refine sim_bind sim_get_guid (fun gd => ?_)
      exact sim_pure_eq rfl
    · exact sim_pure_eq rfl
  case _ _heq | _ _heq =>
    split
    · refine sim_bind sim_get_guid (fun gd => ?_)
      exact sim_pure_eq rfl
    · exact sim_import_names _ n path g _
  case _ _heq =>
    exact ih.perr n path g
  case _ =>
    exact ih.usages_list n.children (n :: anc) path g e _

end RefactAst

namespace RefactAst

/-- The simulation induction over fuel. -/
theorem simd : ∀ (d fuel : Nat), Simd d fuel
  | d, 0 => by
      refine ⟨?_, ?_, ?_, ?_, ?_, ?_, ?_, ?_, ?_, ?_, ?_, ?_, ?_⟩ <;>
        (intros; exact sim_outOfFuel _ _)
  | d, fuel + 1 =>
      have ih := simd d fuel
      ⟨sim_usages ih, sim_usages_list ih, sim_asgn ih, sim_asgn_cands ih, sim_ap ih,
       sim_struct ih, sim_fn ih, sim_call ih, sim_cargs ih, sim_ferr ih, sim_ferr_list ih,
       sim_perr ih, sim_perr_list ih⟩

/-- The top-level run simulates itself across any start-state offset. -/
theorem parse_sim (root : Node) (path : String) (fuel d : Nat) :
    Sim (shiftL d) d (parse root path fuel) (parse root path fuel) := by
  simp only [parse]
  refine sim_bind sim_get_guid (fun pg => ?_)
  exact (simd d fuel).usages root [] path pg false true

/-- Witness input for the determinism claim: a module holding one identifier. -/
def c7w_tree : Node :=
  .mk "module" "x" TSRange.zero none [.mk "identifier" "x" TSRange.zero none []]

/-- The symbol extracted from `c7w_tree` when the run starts at guid state 0. -/
def c7s1 : Symbol :=
  { fields := { name := "x", language := "python", full_range := TSRange.zero,
                file_path := "main.py", parent_guid := some 1, guid := 2 },
    variant := .variableUsage }

/-- The symbol extracted from `c7w_tree` when the run starts at guid state 5. -/
def c7s2 : Symbol :=
  { fields := { name := "x", language := "python", full_range := TSRange.zero,
                file_path := "main.py", parent_guid := some 6, guid := 7 },
    variant := .variableUsage }

/-- C7: two successful extraction runs over the same tree, begun at guid states
`st` and `st + d`, return symbol lists that are field-for-field identical up to
the injective guid renaming `shiftG d` applied to every guid-valued field
(guid, parent_guid, caller_guid, childs_guid). Kinds, names, ranges and the
parent/child nesting shape are therefore preserved exactly; only the guid
values differ. -/
theorem C7_structural_determinism (root : Node) (path : String)
    (fuel st d st1' st2' : Nat) (L1 L2 : List Symbol)
    (h1 : parse root path fuel st = .ok (L1, st1'))
    (h2 : parse root path fuel (st + d) = .ok (L2, st2')) :
    L2 = shiftL d L1 ∧ st2' = st1' + d := by
  have hs := parse_sim root path fuel d st
  rw [h1, h2] at hs
  simp only [Except.map, Except.ok.injEq, Prod.mk.injEq] at hs
  exact hs

/-- Concrete runs of C7 from guid states 0 and 5 over the witness module. -/
theorem C7_structural_determinism_witness :
    [c7s2] = shiftL 5 [c7s1] ∧ 7 = 2 + 5 :=
  C7_structural_determinism c7w_tree "main.py" 21 0 5 2 7 [c7s1] [c7s2] rfl rfl

end RefactAst

namespace RefactAst

/-! ## Error-recovery symbols are always flagged -/

/-- Every symbol a computation returns carries is_error = true. -/
def FlagOk (m : Extract (List Symbol)) : Prop :=
  ∀ st L st', m st = .ok (L, st') → ∀ s ∈ L, s.fields.is_error = true

theorem flagOk_outOfFuel : FlagOk Extract.outOfFuel := fun _ _ _ h => nomatch h

theorem flagOk_pure_nil : FlagOk (pure []) := by
  intro st L st' h
  obtain ⟨hL, hs⟩ := pure_ok_inv h
  subst hL
  intro s hs2
  cases hs2

/-- Both error-usage scanners flag everything at this fuel level. -/
def ErrFlagged (fuel : Nat) : Prop :=
  (∀ (n : Node) (path : String) (g : Nat), FlagOk (parse_error_usages fuel n path g)) ∧
  (∀ (ns : List Node) (path : String) (g : Nat), FlagOk (parse_error_usages_list fuel ns path g))

def ErrFlagged.perr {fuel : Nat} (h : ErrFlagged fuel) :
    ∀ (n : Node) (path : String) (g : Nat), FlagOk (parse_error_usages fuel n path g) := h.1

def ErrFlagged.perr_list {fuel : Nat} (h : ErrFlagged fuel) :
    ∀ (ns : List Node) (path : String) (g : Nat),
      FlagOk (parse_error_usages_list fuel ns path g) := h.2

theorem flagOk_append {m1 : Extract (List Symbol)} {m2 : List Symbol → Extract (List Symbol)}
    (h1 : FlagOk m1) (h2 : ∀ us, FlagOk (m2 us)) :
    FlagOk (m1 >>= fun us => m2 us >>= fun rest => pure (us ++ rest)) := by
  intro st L st' h
  obtain ⟨us, s1, hu, h⟩ := bind_ok h
  obtain ⟨rest, s2, hr, h⟩ := bind_ok h
  obtain ⟨hL, hs⟩ := pure_ok_inv h
  subst hL
  intro s hmem
  rcases List.mem_append.mp hmem with hm | hm
  · exact h1 st us s1 hu s hm
  · exact h2 us s1 rest s2 hr s hm

theorem flag_perr {fuel : Nat} (ih : ErrFlagged fuel) :
    ∀ (n : Node) (path : String) (g : Nat),
      FlagOk (parse_error_usages (fuel + 1) n path g) := by
  intro n path g
  simp only [parse_error_usages]
  split
  case _ heq =>
    split
    · exact flagOk_pure_nil
    · intro st L st' h
      obtain ⟨gd, s1, h1, h⟩ := bind_ok h
      obtain ⟨hL, hs⟩ := pure_ok_inv h
      subst hL
      intro s hmem
      rcases List.mem_singleton.mp hmem with rfl
      rfl
  case _ heq =>
    intro st L st' h
    obtain ⟨a1, s1, h1, h⟩ := bind_ok h
    obtain ⟨gd, s2, h2, h⟩ := bind_ok h
    obtain ⟨o1, s3, h3, h⟩ := bind_ok h
    obtain ⟨us, s4, h4, h⟩ := bind_ok h
    obtain ⟨hL, hs⟩ := pure_ok_inv h
    subst hL
    intro s hmem
    rcases List.mem_append.mp hmem with hm | hm
    · exact ih.perr o1 path g s3 us s4 h4 s hm
    · rcases List.mem_singleton.mp hm with rfl
      rfl
  case _ =>
    exact ih.perr_list n.children path g

theorem flag_perr_list {fuel : Nat} (ih : ErrFlagged fuel) :
    ∀ (ns : List Node) (path : String) (g : Nat),
      FlagOk (parse_error_usages_list (fuel + 1) ns path g) := by
  intro ns path g
  simp only [parse_error_usages_list_succ]
  split
  · exact flagOk_pure_nil
  case _ c cs =>
    exact flagOk_append (ih.perr c path g) (fun us => ih.perr_list cs path g)

/-- The flag induction over fuel. -/
theorem errFlagged : ∀ fuel : Nat, ErrFlagged fuel
  | 0 => ⟨fun n path g => flagOk_outOfFuel, fun ns path g => flagOk_outOfFuel⟩
  | fuel + 1 =>
      have ih := errFlagged fuel
      ⟨flag_perr ih, flag_perr_list ih⟩

end RefactAst

namespace RefactAst

/-- A malformed region for the flag half of the totality claim: a lone
identifier inside an ERROR subtree. -/
def c1e_node : Node := .mk "identifier" "y" TSRange.zero none []

/-- The degraded usage the error-recovery scanner extracts from `c1e_node`. -/
def c1e_sym : Symbol :=
  { fields := { name := "y", language := "python", full_range := TSRange.zero,
                file_path := "main.py", parent_guid := some 5, guid := 1,
                is_error := true },
    variant := .variableUsage }

/-- C1 (amended): extraction never fails on a well-formed syntax tree — one in
which every field or child position a handler unconditionally unwraps is
present — when the fuel budget covers the tree (6·size+3), and the
error-recovery scanner for malformed (ERROR) regions emits only degraded
symbols flagged is_error; the spec's unconditional totality claim fails on
trees lacking the unwrapped fields (see the counterexample), since the code
unwraps them with .unwrap(), which panics. -/
theorem C1_wellformed_extraction_total (root : Node) (path : String) (fuel st : Nat)
    (hwf : wfB root = true) (hfuel : 6 * Node.size root + 3 ≤ fuel) :
    (∃ v, parse root path fuel st = .ok v) ∧
    (∀ (en : Node) (g st1 : Nat) (L : List Symbol) (st1' : Nat),
        parse_error_usages fuel en path g st1 = .ok (L, st1') →
        ∀ s ∈ L, s.fields.is_error = true) :=
  ⟨parse_total root path fuel st hwf hfuel,
   fun en g st1 L st1' h => (errFlagged fuel).1 en path g st1 L st1' h⟩

/-- A concrete run of the amended C1 theorem: the well-formed module extracts
fully, and a malformed identifier region yields one is_error-flagged usage. -/
theorem C1_wellformed_extraction_total_witness :
    wfB c1w_tree = true ∧ 6 * Node.size c1w_tree + 3 ≤ 21 ∧
    (∃ v, parse c1w_tree "main.py" 21 0 = .ok v) ∧
    (∀ s ∈ [c1e_sym], s.fields.is_error = true) :=
  ⟨by decide, by decide,
   (C1_wellformed_extraction_total c1w_tree "main.py" 21 0 (by decide) (by decide)).1,
   (C1_wellformed_extraction_total c1w_tree "main.py" 21 0 (by decide) (by decide)).2
     c1e_node 5 0 [c1e_sym] 1 rfl⟩

end RefactAst
